import Mathlib

/-!
Shallow embedding of the reconciliation-and-job-queue engine of the
ocr-benchmark-pipeline repository (src/app/discovery.py and
src/app/pipeline_runtime.py over the sqlite schema of src/app/db.py),
together with proofs about the claims of the specification.

Modelling conventions:
* timestamps (ISO text in the code) are abstract ticks of type `Nat`;
  every operation receives the tick `now` in place of calling `_utc_now`;
* JSON payload text is kept opaque (`Option String`); the small event
  `data` dictionaries built by the worker are modelled structurally;
* a sqlite table is a `List` of row structures plus a fresh-id counter
  (AUTOINCREMENT primary keys start at 1 and grow monotonically);
* the single UNIQUE-constraint violation that the discovery scan can
  actually trigger (see `pages_update_rel_path_ok` below) is modelled by
  returning `none`: the python exception aborts the enclosing
  transaction, `db.get_connection` closes the connection without commit,
  so the store is left unchanged.
-/

namespace OcrPipeline

/-- Job status values written by pipeline_runtime.py:
queued, running, completed, failed. -/
inductive JobStatus where
  | queued
  | running
  | completed
  | failed
deriving DecidableEq

/-- Result dictionaries produced by the stage handlers in
pipeline_runtime.py: the empty dictionary, the skip dictionary
(with a reason string, as built by layout_detect_handler), or the
detection result of the layout collaborator (only its created count
is relevant to the runtime, see completion_message). -/
inductive StageResult where
  | empty
  | skipped (reason : String)
  | detected (created : Nat)
deriving DecidableEq

/-- One row of the pipeline_jobs table.  The table has no CREATE TABLE
statement under src/; its columns are the ones referenced by
pipeline_runtime.py (id, stage, page_id, status, attempts, payload_json,
result_json, error, created_at, started_at, finished_at, updated_at),
matching the Job attributes of the specification. -/
structure Job where
  id : Nat
  stage : String
  page_id : Option Nat
  status : JobStatus
  attempts : Nat
  payload_json : Option String
  result_json : Option StageResult
  error : Option String
  created_at : Nat
  started_at : Option Nat
  finished_at : Option Nat
  updated_at : Nat
deriving DecidableEq

/-- Structural model of the small JSON `data` dictionaries attached to
events by the worker (a job id, and for job_completed also the result). -/
structure EventData where
  job_id : Option Nat := none
  result : Option StageResult := none
deriving DecidableEq

/-- One row of the pipeline_events table (columns as referenced by
emit_event in pipeline_runtime.py). -/
structure EventRow where
  id : Nat
  ts : Nat
  stage : String
  event_type : String
  page_id : Option Nat
  message : String
  data : Option EventData
deriving DecidableEq

/-- One row of the pages table (schema in db.py: rel_path and file_hash
are UNIQUE, is_missing is a 0/1 flag). -/
structure Page where
  id : Nat
  rel_path : String
  file_hash : String
  status : String
  created_at : Nat
  updated_at : Nat
  last_seen_at : Nat
  is_missing : Bool
deriving DecidableEq

/-- One row of the duplicate_files table (schema in db.py: rel_path is
UNIQUE, active is a 0/1 flag). -/
structure DuplicateFile where
  id : Nat
  rel_path : String
  file_hash : String
  canonical_page_id : Nat
  active : Bool
  first_seen_at : Nat
  last_seen_at : Nat
deriving DecidableEq

/-- The sqlite database: the four tables the core reads and writes,
each with the next AUTOINCREMENT id.  The layouts table is owned by the
excluded layout collaborator and is not modelled. -/
structure Store where
  pages : List Page := []
  duplicates : List DuplicateFile := []
  jobs : List Job := []
  events : List EventRow := []
  nextPageId : Nat := 1
  nextDupId : Nat := 1
  nextJobId : Nat := 1
  nextEventId : Nat := 1
deriving DecidableEq

/-- The empty database produced by init_db. -/
def emptyStore : Store := {}

/-- Lexicographic comparison of code-point lists: the order python uses
for sorted() on str and sqlite uses for ORDER BY on the hex digests
(binary collation).  Defined directly so that it evaluates by kernel
reduction. -/
def charListLe : List Char → List Char → Bool
  | [], _ => true
  | _ :: _, [] => false
  | c :: cs, d :: ds =>
    if c.toNat < d.toNat then true
    else if d.toNat < c.toNat then false
    else charListLe cs ds

/-- Code-point lexicographic order on strings. -/
def strLe (a b : String) : Bool := charListLe a.data b.data

/-- The propositional form of strLe, used as the sorting relation. -/
def strLE : String → String → Prop := fun a b => strLe a b = true

instance : DecidableRel strLE := fun _ _ => inferInstanceAs (Decidable (_ = true))

/-- Helper: charListLe is total. -/
def charListLe_total : ∀ a b, charListLe a b = true ∨ charListLe b a = true := by
  intro a
  induction a with
  | nil => intro b; left; rfl
  | cons c cs ih =>
    intro b
    cases b with
    | nil => right; rfl
    | cons d ds =>
      simp only [charListLe]
      by_cases h1 : c.toNat < d.toNat
      · left
        simp [h1]
      · by_cases h2 : d.toNat < c.toNat
        · right
          simp [h2]
        · rcases ih ds with h | h
          · left
            simp [h1, h2, h]
          · right
            simp [h1, h2, h]

/-- Helper: charListLe is transitive. -/
def charListLe_trans : ∀ a b c, charListLe a b = true →
    charListLe b c = true → charListLe a c = true := by
  intro a
  induction a with
  | nil => intro b c _ _; rfl
  | cons x xs ih =>
    intro b c hab hbc
    cases b with
    | nil => simp [charListLe] at hab
    | cons y ys =>
      cases c with
      | nil => simp [charListLe] at hbc
      | cons z zs =>
        simp only [charListLe] at hab hbc ⊢
        by_cases hxy : x.toNat < y.toNat
        · by_cases hyz : y.toNat < z.toNat
          · simp [Nat.lt_trans hxy hyz]
          · by_cases hzy : z.toNat < y.toNat
            · simp [hyz, hzy] at hbc
            · simp [show x.toNat < z.toNat by omega]
        · by_cases hyx : y.toNat < x.toNat
          · simp [hxy, hyx] at hab
          · by_cases hyz : y.toNat < z.toNat
            · simp [show x.toNat < z.toNat by omega]
            · by_cases hzy : z.toNat < y.toNat
              · simp [hyz, hzy] at hbc
              · simp only [hxy, hyx, if_false] at hab
                simp only [hyz, hzy, if_false] at hbc
                have hn1 : ¬ x.toNat < z.toNat := by omega
                have hn2 : ¬ z.toNat < x.toNat := by omega
                simp [hn1, hn2, ih ys zs hab hbc]

instance : IsTotal String strLE := ⟨fun a b => charListLe_total a.data b.data⟩

instance : IsTrans String strLE :=
  ⟨fun a b c => charListLe_trans a.data b.data c.data⟩

/-- Translation of stage_label in pipeline_runtime.py. -/
def stage_label (stage : String) : String :=
  if stage = "layout_detect" then "layout detection"
  else if stage = "ocr_extract" then "OCR extraction"
  else stage.replace "_" " "

/-- Translation of emit_event in pipeline_runtime.py: append one
immutable row to pipeline_events with the next id. -/
def emit_event (st : Store) (now : Nat) (stage event_type : String)
    (page_id : Option Nat) (message : String) (data : Option EventData) : Store :=
  { st with
    events := st.events ++
      [{ id := st.nextEventId, ts := now, stage := stage,
         event_type := event_type, page_id := page_id,
         message := message, data := data }],
    nextEventId := st.nextEventId + 1 }

/-- Active statuses for the enqueue duplicate check
(status IN (queued, running)). -/
def statusActive : JobStatus → Bool
  | .queued => true
  | .running => true
  | _ => false

/-- SQL predicate of the duplicate check in enqueue_job: same stage,
same page_id (the code issues a page_id IS NULL variant when page_id is
None and an equality variant otherwise; `Option` equality covers both),
and status in (queued, running). -/
def sameActiveKey (stage : String) (page_id : Option Nat) (j : Job) : Bool :=
  j.stage == stage && j.page_id == page_id && statusActive j.status

/-- Translation of enqueue_job in pipeline_runtime.py: return false and
change nothing if an active job for the (stage, page_id) key exists,
otherwise insert one queued job and append a job_queued event.
The ensure-worker side effect concerns only the in-process thread and
has no database footprint. -/
def enqueue_job (st : Store) (now : Nat) (stage : String)
    (page_id : Option Nat) (payload_json : Option String) : Store × Bool :=
  if st.jobs.any (sameActiveKey stage page_id) then
    (st, false)
  else
    let st1 : Store :=
      { st with
        jobs := st.jobs ++
          [{ id := st.nextJobId, stage := stage, page_id := page_id,
             status := .queued, attempts := 0, payload_json := payload_json,
             result_json := none, error := none, created_at := now,
             started_at := none, finished_at := none, updated_at := now }],
        nextJobId := st.nextJobId + 1 }
    let st2 := emit_event st1 now stage "job_queued" page_id
      ("Queued " ++ stage_label stage ++ ".") none
    (st2, true)

/-- Row view produced by the SELECT in claim_next_job and returned to
the worker (the code parses payload_json into a dictionary; the raw
text is kept here, no claim inspects it). -/
structure ClaimedJob where
  id : Nat
  stage : String
  page_id : Option Nat
  payload_json : Option String
deriving DecidableEq

/-- Ordering used by ORDER BY id ASC on jobs. -/
def jobIdLE : Job → Job → Prop := fun a b => a.id ≤ b.id

instance : DecidableRel jobIdLE := fun a b => inferInstanceAs (Decidable (a.id ≤ b.id))

instance : IsTotal Job jobIdLE := ⟨fun a b => Nat.le_total a.id b.id⟩

instance : IsTrans Job jobIdLE := ⟨fun _ _ _ => Nat.le_trans⟩

/-- Translation of the SELECT of claim_next_job: the queued job with the
smallest id (ORDER BY id ASC LIMIT 1), if any. -/
def claim_select (st : Store) : Option Job :=
  (List.insertionSort jobIdLE
    (st.jobs.filter (fun j => j.status == JobStatus.queued))).head?

/-- WHERE clause of the guarded claim update: id matches and the status
is still queued. -/
def claimHit (jobId : Nat) (j : Job) : Bool :=
  j.id == jobId && j.status == JobStatus.queued

/-- Translation of the guarded UPDATE of claim_next_job: set the job to
running, increment attempts, COALESCE started_at, but only WHERE the
status is still queued.  Returns the new store and the rowcount. -/
def claim_update (st : Store) (now : Nat) (jobId : Nat) : Store × Nat :=
  ({ st with
      jobs := st.jobs.map fun j =>
        if claimHit jobId j then
          { j with status := .running, attempts := j.attempts + 1,
                   started_at := some (j.started_at.getD now), updated_at := now }
        else j },
   st.jobs.countP (claimHit jobId))

/-- Translation of the while-True loop of claim_next_job.  The loop body
runs the SELECT, then the guarded UPDATE, and returns the row only when
the rowcount is 1; otherwise it loops.  Between the SELECT and the
UPDATE another claimer may commit (sqlite starts the write transaction
only at the UPDATE): the `intf` list supplies one such interference step
per iteration (`[]` is the sequential case).  `fuel` bounds the number
of iterations; the loop in the code is unbounded, and every theorem below
supplies enough fuel for the loop to settle on its own. -/
def claim_next_job (fuel : Nat) (intf : List (Store → Store))
    (st : Store) (now : Nat) : Store × Option ClaimedJob :=
  match fuel with
  | 0 => (st, none)
  | fuel + 1 =>
    match claim_select st with
    | none => (st, none)
    | some row =>
      if (claim_update ((intf.headD id) st) now row.id).2 == 1 then
        ((claim_update ((intf.headD id) st) now row.id).1,
         some { id := row.id, stage := row.stage,
                page_id := row.page_id, payload_json := row.payload_json })
      else
        claim_next_job fuel (intf.drop 1)
          (claim_update ((intf.headD id) st) now row.id).1 now

/-- Sequential claim as exercised by the single worker: no concurrent
claimer interferes, so one iteration of the loop suffices whenever the
first guarded update applies; the fuel is a safe overapproximation. -/
def claim_next (st : Store) (now : Nat) : Store × Option ClaimedJob :=
  claim_next_job (st.jobs.length + 1) [] st now

/-- Translation of finalize_job_success: UPDATE by id, no status guard. -/
def finalize_job_success (st : Store) (now : Nat) (jobId : Nat)
    (result : Option StageResult) : Store :=
  { st with
    jobs := st.jobs.map fun j =>
      if j.id == jobId then
        { j with status := .completed, result_json := result, error := none,
                 finished_at := some now, updated_at := now }
      else j }

/-- Translation of finalize_job_failure: UPDATE by id, no status guard. -/
def finalize_job_failure (st : Store) (now : Nat) (jobId : Nat)
    (error : String) : Store :=
  { st with
    jobs := st.jobs.map fun j =>
      if j.id == jobId then
        { j with status := .failed, error := some error,
                 finished_at := some now, updated_at := now }
      else j }

/-- Translation of completion_message in pipeline_runtime.py (an empty
result dictionary is falsy in python, hence the first branch). -/
def completion_message (stage : String) (result : StageResult) : String :=
  match result with
  | .empty => "Completed " ++ stage_label stage ++ "."
  | .skipped reason =>
      "Skipped " ++ stage_label stage ++ ": " ++
        (if reason = "" then "not applicable" else reason) ++ "."
  | .detected created =>
      if stage = "layout_detect" then
        "Completed layout detection, created " ++ toString created ++ " regions."
      else "Completed " ++ stage_label stage ++ "."

/-- A stage handler: it may read and write the store and either return a
result dictionary (`Except.ok`) or raise (`Except.error` carries str(e)).
This is the shape of the JobHandler callables of pipeline_runtime.py. -/
def Handler : Type := Store → ClaimedJob → Nat → Store × Except String (Option StageResult)

/-- The handler registry (the _HANDLERS dictionary), looked up by stage. -/
def lookupHandler (handlers : List (String × Handler)) (stage : String) : Option Handler :=
  (handlers.find? (fun h => h.1 == stage)).map Prod.snd

/-- Outcome of one iteration of the worker loop: the worker exits when
no job can be claimed, otherwise it processed the given job id and
loops. -/
inductive StepOutcome where
  | exited
  | processed (jobId : Nat)
deriving DecidableEq

/-- Translation of one iteration of worker_loop in pipeline_runtime.py:
claim the next job (exit when none), emit job_started, dispatch to the
registered handler (failing the job when none is registered), then
finalize and narrate the outcome.  A raising handler is caught: the job
is failed with str(e) and a job_failed event, and the loop continues. -/
def worker_step (handlers : List (String × Handler)) (st : Store) (now : Nat) :
    Store × StepOutcome :=
  match claim_next st now with
  | (st1, none) => (st1, .exited)
  | (st1, some job) =>
    let st2 := emit_event st1 now job.stage "job_started" job.page_id
      ("Started " ++ stage_label job.stage ++ ".") (some { job_id := some job.id })
    match lookupHandler handlers job.stage with
    | none =>
      let err := "No handler registered for stage \x27" ++ job.stage ++ "\x27."
      let st3 := finalize_job_failure st2 now job.id err
      let st4 := emit_event st3 now job.stage "job_failed" job.page_id err
        (some { job_id := some job.id })
      (st4, .processed job.id)
    | some handler =>
      match handler st2 job now with
      | (st3, .ok res) =>
        let result := res.getD .empty
        let st4 := finalize_job_success st3 now job.id (some result)
        let st5 := emit_event st4 now job.stage "job_completed" job.page_id
          (completion_message job.stage result)
          (some { job_id := some job.id, result := some result })
        (st5, .processed job.id)
      | (st3, .error e) =>
        let st4 := finalize_job_failure st3 now job.id e
        let st5 := emit_event st4 now job.stage "job_failed" job.page_id e
          (some { job_id := some job.id })
        (st5, .processed job.id)

/-- The worker loop: drain the queue until claim_next returns none.
`fuel` bounds the number of iterations (the queue is finite and jobs are
never re-queued, so in any run of interest the loop exits on its own);
the tick advances by one per processed job. -/
def worker_loop (handlers : List (String × Handler)) :
    Nat → Store → Nat → Store
  | 0, st, _ => st
  | fuel + 1, st, now =>
    match worker_step handlers st now with
    | (st1, .exited) => st1
    | (st1, .processed _) => worker_loop handlers fuel st1 (now + 1)

/-- The external layout-detection collaborator
(layouts.detect_layouts_for_page, out of scope per the specification):
given the store and a page id it may mutate the store and either return
a result or raise. -/
def DetectCollab : Type := Store → Nat → Nat → Store × Except String StageResult

/-- UPDATE pages SET status = layout_detecting WHERE id = pid (the
in-progress mark taken before delegating). -/
def set_page_detecting (st : Store) (pid now : Nat) : Store :=
  { st with pages := st.pages.map fun p =>
      if p.id == pid then
        { p with status := "layout_detecting", updated_at := now }
      else p }

/-- UPDATE pages SET status = new WHERE id = pid AND is_missing = 0
(the revert taken when the collaborator raises). -/
def revert_page_new (st : Store) (pid now : Nat) : Store :=
  { st with pages := st.pages.map fun p =>
      if p.id == pid && !p.is_missing then
        { p with status := "new", updated_at := now }
      else p }

/-- Translation of layout_detect_handler in pipeline_runtime.py:
require a page id (raise otherwise); raise when the page row does not
exist; skip when the page is missing; skip when the status is neither
new nor layout_detecting (reason names the current status); else mark
the page layout_detecting and delegate to the collaborator; when the
collaborator raises, revert status to new WHERE the page is still not
missing, then re-raise. -/
def layout_detect_handler (detect : DetectCollab) (st : Store)
    (job : ClaimedJob) (now : Nat) : Store × Except String (Option StageResult) :=
  match job.page_id with
  | none => (st, .error "layout_detect job requires page_id.")
  | some pid =>
    match st.pages.find? (fun p => p.id == pid) with
    | none => (st, .error "Page not found.")
    | some page =>
      if page.is_missing then
        (st, .ok (some (.skipped "page is missing")))
      else if page.status != "new" && page.status != "layout_detecting" then
        (st, .ok (some (.skipped ("page status is " ++ page.status))))
      else
        match detect (set_page_detecting st pid now) pid now with
        | (st2, .ok r) => (st2, .ok (some r))
        | (st2, .error e) => (revert_page_new st2 pid now, .error e)

/-- The summary returned by discover_images (discovery.py).  The
source_dir echo of the configuration string is omitted: it is
configuration glue, not scan output. -/
structure ScanSummary where
  scanned_files : Nat
  new_pages : Nat
  updated_pages : Nat
  missing_marked : Nat
  duplicate_files : Nat
deriving DecidableEq

/-- The pages_by_hash dictionary of discovery.py, built once from a
snapshot of the pages table before the group loop.  A python dict
comprehension keeps the last row per key; file_hash is UNIQUE in the
schema, so at most one row matches, and the reverse-find keeps the
last-wins reading exact even on degenerate stores. -/
def snap_lookup_hash (snap : List Page) (h : String) : Option Page :=
  snap.reverse.find? (fun p => p.file_hash == h)

/-- The pages_by_rel_path dictionary of discovery.py (same snapshot and
last-wins convention as snap_lookup_hash; rel_path is UNIQUE). -/
def snap_lookup_rel (snap : List Page) (r : String) : Option Page :=
  snap.reverse.find? (fun p => p.rel_path == r)

/-- Sorted(grouped_paths.keys()) of discovery.py: the distinct scanned
hashes in ascending order (python iterates dict keys; only the set
matters because the list is then sorted). -/
def scan_hashes (scanned : List (String × String)) : List String :=
  List.insertionSort strLE (scanned.map Prod.snd).dedup

/-- Sorted(grouped_paths[file_hash]) of discovery.py: the relative paths
scanned with the given hash, in ascending order. -/
def group_paths (scanned : List (String × String)) (h : String) : List String :=
  List.insertionSort strLE ((scanned.filter (fun e => e.2 == h)).map Prod.fst)

/-- The hash groups in processing order, with their sorted path lists. -/
def scan_groups (scanned : List (String × String)) : List (String × List String) :=
  (scan_hashes scanned).map (fun h => (h, group_paths scanned h))

/-- Accumulator of the group loop of discover_images: the store plus the
seen_page_ids set and the three counters. -/
structure ScanState where
  store : Store
  seen : List Nat
  new_pages : Nat
  updated_pages : Nat
  duplicate_files : Nat

/-- Translation of the duplicate upsert of discovery.py: SELECT by
rel_path, INSERT an active row when absent, otherwise UPDATE that row
(hash, canonical page, active=1, last_seen_at).  The INSERT cannot
violate the UNIQUE(rel_path) constraint because it only runs when the
SELECT found no row. -/
def upsert_duplicate (st : Store) (now : Nat) (dup_path file_hash : String)
    (page_id : Nat) : Store :=
  match st.duplicates.find? (fun d => d.rel_path == dup_path) with
  | none =>
    { st with
      duplicates := st.duplicates ++
        [{ id := st.nextDupId, rel_path := dup_path, file_hash := file_hash,
           canonical_page_id := page_id, active := true,
           first_seen_at := now, last_seen_at := now }],
      nextDupId := st.nextDupId + 1 }
  | some d =>
    { st with
      duplicates := st.duplicates.map fun x =>
        if x.id == d.id then
          { x with file_hash := file_hash, canonical_page_id := page_id,
                   active := true, last_seen_at := now }
        else x }

/-- The for-loop over the non-canonical paths of one hash group. -/
def process_dup_paths (now : Nat) (file_hash : String) (page_id : Nat) :
    List String → Store → Store
  | [], st => st
  | p :: rest, st =>
    process_dup_paths now file_hash page_id rest (upsert_duplicate st now p file_hash page_id)

/-- Translation of one iteration of the hash-group loop of
discover_images.  The three page mutations are guarded by the UNIQUE
constraints of the pages table (db.py); a violation raises
sqlite3.IntegrityError, aborting the scan, modelled as `none`.  The
conflict tests are keyed by id, which is exact for every store built by
this model (ids come from the AUTOINCREMENT counter and are distinct). -/
def process_group (snap : List Page) (now : Nat) (acc : ScanState)
    (file_hash : String) (rel_paths : List String) : Option ScanState :=
  match rel_paths with
  | [] => some acc
  | canonical :: rest =>
    match snap_lookup_hash snap file_hash with
    | some page_row =>
      if acc.store.pages.any (fun q => q.id != page_row.id && q.rel_path == canonical) then
        none
      else
        let st1 : Store :=
          { acc.store with pages := acc.store.pages.map fun p =>
              if p.id == page_row.id then
                { p with rel_path := canonical, updated_at := now,
                         last_seen_at := now, is_missing := false }
              else p }
        some { store := process_dup_paths now file_hash page_row.id rest st1,
               seen := acc.seen ++ [page_row.id],
               new_pages := acc.new_pages,
               updated_pages := acc.updated_pages + 1,
               duplicate_files := acc.duplicate_files + rest.length }
    | none =>
      match snap_lookup_rel snap canonical with
      | some path_row =>
        if acc.store.pages.any (fun q => q.id != path_row.id && q.file_hash == file_hash) then
          none
        else
          let st1 : Store :=
            { acc.store with pages := acc.store.pages.map fun p =>
                if p.id == path_row.id then
                  { p with file_hash := file_hash, updated_at := now,
                           last_seen_at := now, is_missing := false }
                else p }
          some { store := process_dup_paths now file_hash path_row.id rest st1,
                 seen := acc.seen ++ [path_row.id],
                 new_pages := acc.new_pages,
                 updated_pages := acc.updated_pages + 1,
                 duplicate_files := acc.duplicate_files + rest.length }
      | none =>
        if acc.store.pages.any (fun q => q.rel_path == canonical || q.file_hash == file_hash) then
          none
        else
          let pid := acc.store.nextPageId
          let st1 : Store :=
            { acc.store with
              pages := acc.store.pages ++
                [{ id := pid, rel_path := canonical, file_hash := file_hash,
                   status := "new", created_at := now, updated_at := now,
                   last_seen_at := now, is_missing := false }],
              nextPageId := pid + 1 }
          some { store := process_dup_paths now file_hash pid rest st1,
                 seen := acc.seen ++ [pid],
                 new_pages := acc.new_pages + 1,
                 updated_pages := acc.updated_pages,
                 duplicate_files := acc.duplicate_files + rest.length }

/-- The full hash-group loop. -/
def process_groups (snap : List Page) (now : Nat) :
    List (String × List String) → ScanState → Option ScanState
  | [], acc => some acc
  | (h, paths) :: rest, acc =>
    match process_group snap now acc h paths with
    | none => none
    | some acc1 => process_groups snap now rest acc1

/-- Condition of the closing UPDATE of discover_images: the page was not
observed by this scan and is not already missing. -/
def toMark (seen : List Nat) (p : Page) : Bool :=
  !seen.contains p.id && !p.is_missing

/-- Translation of the closing UPDATE of discover_images: mark every
unseen, not-yet-missing page as missing and return the rowcount.  The
code issues a NOT IN (...) variant when seen is nonempty and an
unconditional variant otherwise; both reduce to this update. -/
def mark_missing (st : Store) (now : Nat) (seen : List Nat) : Store × Nat :=
  ({ st with pages := st.pages.map fun p =>
      if toMark seen p then { p with is_missing := true, updated_at := now } else p },
   st.pages.countP (toMark seen))

/-- Translation of discover_images in discovery.py.  The input `scanned`
is the (rel_path, hash) list produced by walking the source directory
(the SHA-256 digest is abstracted as content identity: equal bytes give
equal hash strings, distinct bytes distinct ones).  All duplicate rows
are deactivated first; the hash groups are processed in ascending hash
order against a snapshot of the pages table; finally unseen pages are
marked missing.  `none` models the sqlite IntegrityError aborting the
transaction (the caller sees the exception and the store is rolled
back). -/
def discover_images (st : Store) (now : Nat) (scanned : List (String × String)) :
    Option (Store × ScanSummary) :=
  let st0 : Store :=
    { st with duplicates := st.duplicates.map fun d => { d with active := false } }
  let snap := st0.pages
  match process_groups snap now (scan_groups scanned)
      { store := st0, seen := [], new_pages := 0, updated_pages := 0,
        duplicate_files := 0 } with
  | none => none
  | some s =>
    let res := mark_missing s.store now s.seen
    some (res.1,
      { scanned_files := scanned.length, new_pages := s.new_pages,
        updated_pages := s.updated_pages, missing_marked := res.2,
        duplicate_files := s.duplicate_files })

/-- sorted(paths)[0] of discovery.py: the canonical (lexicographically
smallest) path of a hash group. -/
def canonOf (scanned : List (String × String)) (h : String) : String :=
  (group_paths scanned h).headD ""

/-- The page UPDATE of the hash branch of discover_images: repoint the
row at the canonical path and refresh the bookkeeping columns. -/
def touchPage (now : Nat) (c : String) (p : Page) : Page :=
  { p with rel_path := c, updated_at := now, last_seen_at := now,
           is_missing := false }

/-- Whether some snapshot page carries the given hash. -/
def storedHash (snap : List Page) (h : String) : Bool :=
  snap.any (fun p => p.file_hash == h)

/-- The per-page effect of the processed hash groups `done` on a
snapshot page: a page whose hash group has been processed has been
repointed at the canonical path of that group. -/
def updOne (scanned : List (String × String)) (now : Nat)
    (done : List String) (p : Page) : Page :=
  if done.contains p.file_hash then touchPage now (canonOf scanned p.file_hash) p
  else p

/-- The processed hashes that were absent from the snapshot: each
inserted a fresh page row. -/
def newHashes (snap : List Page) (done : List String) : List String :=
  done.filter (fun h => !storedHash snap h)

/-- The page rows inserted for a run of unseen hashes, with consecutive
AUTOINCREMENT ids starting at base. -/
def insertedPages (scanned : List (String × String)) (now : Nat) :
    Nat → List String → List Page
  | _, [] => []
  | base, h :: rest =>
    { id := base, rel_path := canonOf scanned h, file_hash := h,
      status := "new", created_at := now, updated_at := now,
      last_seen_at := now, is_missing := false } ::
      insertedPages scanned now (base + 1) rest

/-- Position of the first occurrence of h (length when absent). -/
def posOf (h : String) : List String → Nat
  | [] => 0
  | a :: t => if a == h then 0 else posOf h t + 1

/-- The page id the duplicate rows of hash group h point at: the
snapshot page carrying h when h was already indexed, the id given to
the freshly inserted row otherwise. -/
def expPid (snap : List Page) (N : Nat) (done : List String) (h : String) : Nat :=
  match snap_lookup_hash snap h with
  | some p => p.id
  | none => N + posOf h (newHashes snap done)

/-- Invariant of the hash-group loop of discover_images after the
groups of the hashes in done have run: the pages table is the snapshot
with processed pages repointed at their canonical paths plus one fresh
row per processed unseen hash; the counters match; every processed
page id of every processed group is recorded as seen; the duplicate table keeps distinct
ids and paths and holds exactly one active row per processed
non-canonical path, carrying the hash and canonical page id of its group. -/
structure MInv (snap : List Page) (scanned : List (String × String))
    (now N : Nat) (done : List String) (s : ScanState) : Prop where
  pagesEq : s.store.pages = snap.map (updOne scanned now done) ++
    insertedPages scanned now N (newHashes snap done)
  nextIdEq : s.store.nextPageId = N + (newHashes snap done).length
  newEq : s.new_pages = (newHashes snap done).length
  updEq : s.updated_pages = (done.filter (fun h => storedHash snap h)).length
  seenMem : ∀ h ∈ done, expPid snap N done h ∈ s.seen
  dupIds : s.store.duplicates.Pairwise (fun a b => a.id ≠ b.id)
  dupRels : s.store.duplicates.Pairwise (fun a b => a.rel_path ≠ b.rel_path)
  dupLt : ∀ d ∈ s.store.duplicates, d.id < s.store.nextDupId
  dupAct : ∀ d ∈ s.store.duplicates, d.active = true →
    ∃ h ∈ done, d.rel_path ∈ (group_paths scanned h).tail ∧ d.file_hash = h ∧
      d.canonical_page_id = expPid snap N done h
  dupCnt : ∀ h ∈ done, ∀ q ∈ (group_paths scanned h).tail,
    s.store.duplicates.countP (fun d => d.active && d.rel_path == q) = 1

/-- Well-formedness of the pages table guaranteed by the schema of
db.py (AUTOINCREMENT primary key, UNIQUE file_hash, UNIQUE rel_path)
and the id counter. -/
def WFpages (st : Store) : Prop :=
  st.pages.Pairwise (fun a b => a.id ≠ b.id) ∧
  st.pages.Pairwise (fun a b => a.file_hash ≠ b.file_hash) ∧
  st.pages.Pairwise (fun a b => a.rel_path ≠ b.rel_path) ∧
  ∀ p ∈ st.pages, p.id < st.nextPageId

instance (st : Store) : Decidable (WFpages st) :=
  inferInstanceAs (Decidable (_ ∧ _))

/-- The UNIQUE(rel_path) guarantee of the duplicate_files table. -/
def WFdupRels (st : Store) : Prop :=
  st.duplicates.Pairwise (fun a b => a.rel_path ≠ b.rel_path)

instance (st : Store) : Decidable (WFdupRels st) :=
  inferInstanceAs (Decidable (List.Pairwise _ _))

/-- No indexed file changed its bytes: no stored page rel_path reappears
in the scan with a different hash.  This is the regime the scanner is
built for; the C4 counterexample shows the group reconciliation is
unsound outside it. -/
def NoContentChange (st : Store) (scanned : List (String × String)) : Prop :=
  ∀ p ∈ st.pages, ∀ e ∈ scanned, e.1 = p.rel_path → e.2 = p.file_hash

instance (st : Store) (scanned : List (String × String)) :
    Decidable (NoContentChange st scanned) :=
  inferInstanceAs (Decidable (∀ p ∈ st.pages, ∀ e ∈ scanned,
    e.1 = p.rel_path → e.2 = p.file_hash))

/-- Fixture for the C4 counterexample: one indexed page at z.png whose
bytes (hash aaaa) reappear at two new paths while z.png itself gets new
bytes bbbb. -/
def c4CexStore : Store :=
  { pages := [
      { id := 1, rel_path := "z.png", file_hash := "aaaa", status := "new",
        created_at := 0, updated_at := 0, last_seen_at := 0,
        is_missing := false }],
    nextPageId := 2 }

/-- The scan of the C4 counterexample. -/
def c4CexScan : List (String × String) :=
  [("a.png", "aaaa"), ("b.png", "aaaa"), ("z.png", "bbbb")]

/-- The scan of the concrete C4 scenario (section 8 of the spec): two
identical files plus one distinct file. -/
def c4Scan : List (String × String) :=
  [("a.png", "B"), ("dup/a-copy.png", "B"), ("b.jpg", "C")]

/-- The repeated scan used for C5: one canonical file and one duplicate. -/
def c5Scan : List (String × String) :=
  [("a.png", "ha"), ("b.png", "ha")]

/-- Fixture for C5: the store a first scan of c5Scan leaves behind
(canonical page indexed, duplicate row active). -/
def c5Store : Store :=
  { pages := [
      { id := 1, rel_path := "a.png", file_hash := "ha", status := "new",
        created_at := 1, updated_at := 1, last_seen_at := 1,
        is_missing := false }],
    duplicates := [
      { id := 1, rel_path := "b.png", file_hash := "ha",
        canonical_page_id := 1, active := true, first_seen_at := 1,
        last_seen_at := 1 }],
    nextPageId := 2, nextDupId := 2 }

/-- The in_progress entry of the activity snapshot (running job joined
with its page path). -/
structure RunningInfo where
  job_id : Nat
  stage : String
  page_id : Option Nat
  rel_path : Option String
  started_at : Option Nat
  attempts : Nat
deriving DecidableEq

/-- One entry of the queued preview of the activity snapshot. -/
structure QueuedItem where
  job_id : Nat
  stage : String
  page_id : Option Nat
  rel_path : Option String
  created_at : Nat
deriving DecidableEq

/-- One entry of recent_events in the activity snapshot (event joined
with its page path). -/
structure SnapshotEvent where
  id : Nat
  ts : Nat
  stage : String
  event_type : String
  page_id : Option Nat
  rel_path : Option String
  message : String
  data : Option EventData
deriving DecidableEq

/-- The composite result of get_activity_snapshot. -/
structure Snapshot where
  worker_running : Bool
  in_progress : Option RunningInfo
  queued_total : Nat
  queued_by_stage : List (String × Nat)
  queued_preview : List QueuedItem
  recent_events : List SnapshotEvent
  registered_stages : List String
deriving DecidableEq

/-- LEFT JOIN pages ON pages.id = page_id, projecting rel_path. -/
def pageRelPath (st : Store) (pid : Option Nat) : Option String :=
  pid.bind fun i => (st.pages.find? (fun p => p.id == i)).map (fun p => p.rel_path)

/-- Ordering of ORDER BY id DESC on the recent-events query. -/
def eventIdGE : EventRow → EventRow → Prop := fun a b => b.id ≤ a.id

instance : DecidableRel eventIdGE := fun a b => inferInstanceAs (Decidable (b.id ≤ a.id))

instance : IsTotal EventRow eventIdGE := ⟨fun a b => Nat.le_total b.id a.id⟩

instance : IsTrans EventRow eventIdGE := ⟨fun _ _ _ h1 h2 => Nat.le_trans h2 h1⟩

/-- Ordering of ORDER BY started_at ASC, id ASC on the running-job
query (sqlite sorts NULL before any text value). -/
def runningLe (a b : Job) : Bool :=
  if a.started_at = b.started_at then a.id ≤ b.id
  else
    match a.started_at, b.started_at with
    | none, _ => true
    | some _, none => false
    | some x, some y => x ≤ y

/-- Translation of get_activity_snapshot in pipeline_runtime.py.
The worker-thread liveness flag is ambient process state, passed in as
`workerAlive`; the restart side effect (_ensure_worker_running when
queued work exists but no worker is alive) makes the reported flag
true exactly when a worker is alive or queued work exists. -/
def get_activity_snapshot (st : Store) (workerAlive : Bool)
    (handlers : List (String × Handler)) (limit : Int) : Snapshot :=
  let safe_limit : Int := max 1 (min limit 200)
  let runningSorted :=
    List.insertionSort (fun a b => runningLe a b = true)
      (st.jobs.filter (fun j => j.status == JobStatus.running))
  let in_progress := runningSorted.head?.map fun j =>
    { job_id := j.id, stage := j.stage, page_id := j.page_id,
      rel_path := pageRelPath st j.page_id, started_at := j.started_at,
      attempts := j.attempts : RunningInfo }
  let queuedJobs := st.jobs.filter (fun j => j.status == JobStatus.queued)
  let queuedSorted := List.insertionSort jobIdLE queuedJobs
  let queued_preview := (queuedSorted.take 15).map fun j =>
    { job_id := j.id, stage := j.stage, page_id := j.page_id,
      rel_path := pageRelPath st j.page_id, created_at := j.created_at : QueuedItem }
  let queued_by_stage :=
    (List.insertionSort strLE (queuedJobs.map (fun j => j.stage)).dedup).map
      fun s => (s, queuedJobs.countP (fun j => j.stage == s))
  let total := (queued_by_stage.map Prod.snd).sum
  let eventsDesc := List.insertionSort eventIdGE st.events
  let recent_events := ((eventsDesc.take safe_limit.toNat).reverse).map fun e =>
    { id := e.id, ts := e.ts, stage := e.stage, event_type := e.event_type,
      page_id := e.page_id, rel_path := pageRelPath st e.page_id,
      message := e.message, data := e.data : SnapshotEvent }
  { worker_running := workerAlive || decide (0 < total),
    in_progress := in_progress,
    queued_total := total,
    queued_by_stage := queued_by_stage,
    queued_preview := queued_preview,
    recent_events := recent_events,
    registered_stages :=
      List.insertionSort strLE (handlers.map Prod.fst).dedup }

/-! ## Queue invariants -/

/-- Two job rows clash when both are active (queued or running) and
share the (stage, page_id) key. -/
def noKeyClash (a b : Job) : Prop :=
  ¬(statusActive a.status = true ∧ statusActive b.status = true ∧
    a.stage = b.stage ∧ a.page_id = b.page_id)

instance : ∀ a b : Job, Decidable (noKeyClash a b) := fun _ _ =>
  inferInstanceAs (Decidable (¬ _))

/-- The queue-uniqueness invariant of the specification: at most one
queued-or-running job per (stage, page_id) key, including the
(stage, NULL) key of page-less jobs. -/
def activeKeyUnique (st : Store) : Prop := st.jobs.Pairwise noKeyClash

instance (st : Store) : Decidable (activeKeyUnique st) :=
  inferInstanceAs (Decidable (List.Pairwise _ _))

/-- The queued row inserted by a successful enqueue_job. -/
def newQueuedJob (st : Store) (now : Nat) (stage : String)
    (pid : Option Nat) (payload : Option String) : Job :=
  { id := st.nextJobId, stage := stage, page_id := pid, status := .queued,
    attempts := 0, payload_json := payload, result_json := none,
    error := none, created_at := now, started_at := none,
    finished_at := none, updated_at := now }

/-- Well-formedness of the jobs table: AUTOINCREMENT ids are pairwise
distinct. -/
def WFjobIds (st : Store) : Prop := st.jobs.Pairwise (fun a b => a.id ≠ b.id)

instance (st : Store) : Decidable (WFjobIds st) :=
  inferInstanceAs (Decidable (List.Pairwise _ _))

/-- Fixture for the C3 witness: a single queued job. -/
def c3Job : Job :=
  { id := 1, stage := "layout_detect", page_id := some 7, status := .queued,
    attempts := 0, payload_json := none, result_json := none, error := none,
    created_at := 0, started_at := none, finished_at := none, updated_at := 0 }

/-- Fixture store for the C3 witness. -/
def c3Store : Store := { jobs := [c3Job], nextJobId := 2 }

/-- A benign concrete collaborator (never raises, creates nothing),
used only to exercise the handler guards on concrete inputs. -/
def detectNoop : DetectCollab := fun s _ _ => (s, .ok (.detected 0))

/-- Fixture for the C8 witness: a queued layout_detect job. -/
def c8Job : Job :=
  { id := 1, stage := "layout_detect", page_id := some 7, status := .queued,
    attempts := 0, payload_json := none, result_json := none, error := none,
    created_at := 0, started_at := none, finished_at := none, updated_at := 0 }

/-- Fixture store for the C8 witness. -/
def c8Store : Store := { jobs := [c8Job], nextJobId := 2 }

/-- Fixture handler for the C8 witness: always raises, touches nothing. -/
def failingHandler : Handler := fun s _ _ => (s, .error "boom")

/-- Fixture event rows for the C9 witness. -/
def c9Ev (i : Nat) : EventRow :=
  { id := i, ts := i, stage := "layout_detect", event_type := "job_queued",
    page_id := none, message := "Queued layout detection.", data := none }

/-- Fixture store for the C9 witness: two queued jobs, no running job,
three events. -/
def c9Store : Store :=
  { jobs :=
      [{ id := 1, stage := "layout_detect", page_id := some 1,
         status := .queued, attempts := 0, payload_json := none,
         result_json := none, error := none, created_at := 0,
         started_at := none, finished_at := none, updated_at := 0 },
       { id := 2, stage := "ocr_extract", page_id := some 2,
         status := .queued, attempts := 0, payload_json := none,
         result_json := none, error := none, created_at := 0,
         started_at := none, finished_at := none, updated_at := 0 }],
    events := [c9Ev 1, c9Ev 2, c9Ev 3],
    nextJobId := 3, nextEventId := 4 }

/-- Well-formedness of the duplicate_files table: distinct
AUTOINCREMENT ids, all below the counter. -/
def WFdups (st : Store) : Prop :=
  st.duplicates.Pairwise (fun a b => a.id ≠ b.id) ∧
  ∀ d ∈ st.duplicates, d.id < st.nextDupId

instance (st : Store) : Decidable (WFdups st) :=
  inferInstanceAs (Decidable (_ ∧ _))

/-- Invariant of the duplicate reconciliation: after processing the
non-canonical paths in `done`, the duplicate rows have distinct ids
below the counter, exactly the processed paths are active, and the
active count equals the number of processed paths. -/
def DupInv (done : List String) (st : Store) : Prop :=
  st.duplicates.Pairwise (fun a b => a.id ≠ b.id) ∧
  (∀ d ∈ st.duplicates, d.id < st.nextDupId) ∧
  (∀ d ∈ st.duplicates, d.active = true → d.rel_path ∈ done) ∧
  st.duplicates.countP (fun d => d.active) = done.length

/-- Default summary used only to discharge Option.getD in witnesses. -/
instance : Inhabited ScanSummary := ⟨⟨0, 0, 0, 0, 0⟩⟩

/-- Fixture for C6: a store holding two indexed pages, of which only
a.png will be seen by the next scan. -/
def c6Store : Store :=
  { pages := [
      { id := 1, rel_path := "a.png", file_hash := "ha", status := "new",
        created_at := 1, updated_at := 1, last_seen_at := 1, is_missing := false },
      { id := 2, rel_path := "b.png", file_hash := "hb", status := "new",
        created_at := 1, updated_at := 1, last_seen_at := 1, is_missing := false }],
    duplicates := [], jobs := [], events := [] }

/-- Helper: a row-wise table update that keeps stage and page_id and
never activates an inactive row preserves the key-uniqueness pairwise
invariant. -/
theorem pairwise_map_noKeyClash {f : Job → Job}
    (hf : ∀ j : Job, (f j).stage = j.stage ∧ (f j).page_id = j.page_id ∧
      (statusActive (f j).status = true → statusActive j.status = true)) :
    ∀ {l : List Job}, l.Pairwise noKeyClash → (l.map f).Pairwise noKeyClash := by
  intro l hl
  refine hl.map f ?_
  intro a b hab hclash
  obtain ⟨ha, hb, hs, hp⟩ := hclash
  exact hab ⟨(hf a).2.2 ha, (hf b).2.2 hb,
    by rw [← (hf a).1, ← (hf b).1, hs], by rw [← (hf a).2.1, ← (hf b).2.1, hp]⟩

/-- Helper: the guarded claim update preserves key uniqueness. -/
theorem claim_update_preserves (st : Store) (now jid : Nat)
    (h : activeKeyUnique st) : activeKeyUnique (claim_update st now jid).1 := by
  refine pairwise_map_noKeyClash ?_ h
  intro j
  by_cases hc : claimHit jid j = true <;> simp [claim_update, hc, statusActive]
  · have h2 : j.status = JobStatus.queued := by
      simp only [claimHit, Bool.and_eq_true, beq_iff_eq] at hc
      exact hc.2
    simp [h2, statusActive]

/-- Helper: the sequential claim loop preserves key uniqueness. -/
theorem claim_next_job_preserves (fuel : Nat) :
    ∀ (st : Store) (now : Nat), activeKeyUnique st →
      activeKeyUnique (claim_next_job fuel [] st now).1 := by
  induction fuel with
  | zero => intro st now h; exact h
  | succ n ih =>
    intro st now h
    unfold claim_next_job
    cases hsel : claim_select st with
    | none => exact h
    | some row =>
      simp only [List.headD_nil, id_eq, List.drop_nil]
      have hupd := claim_update_preserves st now row.id h
      by_cases hrc : ((claim_update st now row.id).2 == 1) = true <;>
        simp only [hrc, if_true, if_false, Bool.false_eq_true]
      · exact hupd
      · exact ih _ now hupd

/-- Helper: enqueue_job preserves key uniqueness: either it refuses, or
no active job with the key existed and the appended queued row cannot
clash with any existing row. -/
theorem enqueue_job_preserves (st : Store) (now : Nat) (stage : String)
    (pid : Option Nat) (payload : Option String) (h : activeKeyUnique st) :
    activeKeyUnique (enqueue_job st now stage pid payload).1 := by
  unfold enqueue_job
  by_cases hex : st.jobs.any (sameActiveKey stage pid) = true
  · simpa [hex] using h
  · simp only [hex, if_false, Bool.false_eq_true, emit_event, activeKeyUnique]
    rw [List.pairwise_append]
    refine ⟨h, List.pairwise_singleton _ _, ?_⟩
    intro a ha b hb
    simp only [List.mem_singleton] at hb
    subst hb
    intro ⟨hact, _, hs, hp⟩
    have : sameActiveKey stage pid a = true := by
      simp [sameActiveKey, hs, hp, hact]
    exact hex (List.any_eq_true.mpr ⟨a, ha, this⟩)

/-- Helper: both finalize updates preserve key uniqueness (they only
deactivate the targeted row). -/
theorem finalize_preserves (st : Store) (now jid : Nat)
    (res : Option StageResult) (err : String) (h : activeKeyUnique st) :
    activeKeyUnique (finalize_job_success st now jid res) ∧
      activeKeyUnique (finalize_job_failure st now jid err) := by
  constructor
  · refine pairwise_map_noKeyClash ?_ h
    intro j
    by_cases hc : (j.id == jid) = true <;>
      simp [finalize_job_success, hc, statusActive]
  · refine pairwise_map_noKeyClash ?_ h
    intro j
    by_cases hc : (j.id == jid) = true <;>
      simp [finalize_job_failure, hc, statusActive]

/-- C1: for every reachable store — the empty initial store, propagated
through the queue operations — at most one job per (stage, page_id) key,
page-less (stage, NULL) keys included, is queued or running: the empty
store satisfies the invariant and enqueue_job, the sequential claim of
the next job, and both finalization updates preserve it. -/
theorem claim_C1_active_key_invariant :
    activeKeyUnique emptyStore ∧
    (∀ (st : Store) (now : Nat) (stage : String) (pid : Option Nat)
        (payload : Option String), activeKeyUnique st →
        activeKeyUnique (enqueue_job st now stage pid payload).1) ∧
    (∀ (st : Store) (now : Nat), activeKeyUnique st →
        activeKeyUnique (claim_next st now).1) ∧
    (∀ (st : Store) (now jid : Nat) (res : Option StageResult),
        activeKeyUnique st →
        activeKeyUnique (finalize_job_success st now jid res)) ∧
    (∀ (st : Store) (now jid : Nat) (err : String), activeKeyUnique st →
        activeKeyUnique (finalize_job_failure st now jid err)) := by
  refine ⟨List.Pairwise.nil, enqueue_job_preserves, ?_, ?_, ?_⟩
  · intro st now h
    exact claim_next_job_preserves _ st now h
  · intro st now jid res h
    exact (finalize_preserves st now jid res "" h).1
  · intro st now jid err h
    exact (finalize_preserves st now jid none err h).2

/-- Witness for C1: the invariant evaluated through a concrete
enqueue-claim-finalize run from the empty store. -/
theorem claim_C1_active_key_invariant_witness :
    activeKeyUnique
      (finalize_job_success
        (claim_next (enqueue_job emptyStore 1 "layout_detect" (some 7) none).1 2).1
        3 1 none) := by
  have h1 := claim_C1_active_key_invariant.2.1 emptyStore 1 "layout_detect"
    (some 7) none List.Pairwise.nil
  have h2 := claim_C1_active_key_invariant.2.2.1 _ 2 h1
  exact claim_C1_active_key_invariant.2.2.2.1 _ 3 1 none h2

/-! ## C2: the enqueue contract -/

/-- Helper: the refusal branch of enqueue_job. -/
theorem enqueue_job_of_active (st : Store) (now : Nat) (stage : String)
    (pid : Option Nat) (payload : Option String)
    (hex : st.jobs.any (sameActiveKey stage pid) = true) :
    enqueue_job st now stage pid payload = (st, false) := by
  simp [enqueue_job, hex]

/-- C2: enqueue_job returns false and changes nothing when an active
job for the (stage, page_id) key exists; otherwise it inserts exactly
one queued job, appends a job_queued event and returns true — and a
second enqueue for the same key with no intervening claim then returns
false, changes nothing, and exactly one queued job for the key remains. -/
theorem claim_C2_enqueue_contract (st : Store) (now now2 : Nat)
    (stage : String) (pid : Option Nat) (payload payload2 : Option String) :
    (st.jobs.any (sameActiveKey stage pid) = true →
      enqueue_job st now stage pid payload = (st, false)) ∧
    (st.jobs.any (sameActiveKey stage pid) = false →
      (enqueue_job st now stage pid payload).2 = true ∧
      (enqueue_job st now stage pid payload).1.jobs =
        st.jobs ++ [newQueuedJob st now stage pid payload] ∧
      (enqueue_job st now stage pid payload).1.events =
        st.events ++
          [{ id := st.nextEventId, ts := now, stage := stage,
             event_type := "job_queued", page_id := pid,
             message := "Queued " ++ stage_label stage ++ ".",
             data := none }] ∧
      enqueue_job (enqueue_job st now stage pid payload).1 now2 stage pid payload2 =
        ((enqueue_job st now stage pid payload).1, false) ∧
      (enqueue_job st now stage pid payload).1.jobs.countP
          (fun j => j.stage == stage && j.page_id == pid &&
            j.status == JobStatus.queued) = 1) := by
  constructor
  · intro hex
    exact enqueue_job_of_active st now stage pid payload hex
  · intro hex
    have hnone : ∀ j ∈ st.jobs, ¬ sameActiveKey stage pid j = true := by
      intro j hj hkey
      have hx : st.jobs.any (sameActiveKey stage pid) = true :=
        List.any_eq_true.mpr ⟨j, hj, hkey⟩
      rw [hex] at hx
      exact absurd hx (by decide)
    have hjobs : (enqueue_job st now stage pid payload).1.jobs =
        st.jobs ++ [newQueuedJob st now stage pid payload] := by
      simp [enqueue_job, hex, emit_event, newQueuedJob]
    refine ⟨by simp [enqueue_job, hex], hjobs, ?_, ?_, ?_⟩
    · simp [enqueue_job, hex, emit_event]
    · have hany : (enqueue_job st now stage pid payload).1.jobs.any
          (sameActiveKey stage pid) = true := by
        rw [hjobs, List.any_eq_true]
        exact ⟨newQueuedJob st now stage pid payload, by simp,
          by simp [sameActiveKey, newQueuedJob, statusActive]⟩
      exact enqueue_job_of_active _ now2 stage pid payload2 hany
    · rw [hjobs, List.countP_append]
      have h0 : st.jobs.countP
          (fun j => j.stage == stage && j.page_id == pid &&
            j.status == JobStatus.queued) = 0 := by
        rw [List.countP_eq_zero]
        intro j hj hkey
        refine hnone j hj ?_
        simp only [Bool.and_eq_true, beq_iff_eq] at hkey
        simp [sameActiveKey, hkey.1.1, hkey.1.2, hkey.2, statusActive]
      rw [h0]
      simp [newQueuedJob]

/-- Witness for C2: the double-enqueue scenario of the specification,
run concretely from the empty store for page 7. -/
theorem claim_C2_enqueue_contract_witness :
    (enqueue_job emptyStore 1 "layout_detect" (some 7) none).2 = true ∧
    enqueue_job (enqueue_job emptyStore 1 "layout_detect" (some 7) none).1
        2 "layout_detect" (some 7) none =
      ((enqueue_job emptyStore 1 "layout_detect" (some 7) none).1, false) ∧
    (enqueue_job emptyStore 1 "layout_detect" (some 7) none).1.jobs.countP
      (fun j => j.stage == "layout_detect" && j.page_id == some 7 &&
        j.status == JobStatus.queued) = 1 := by
  have h := (claim_C2_enqueue_contract emptyStore 1 2 "layout_detect"
    (some 7) none none).2 (by decide)
  exact ⟨h.1, h.2.2.2.1, h.2.2.2.2⟩

/-! ## C3: the claim contract -/

/-- Helper: the claim SELECT returns none exactly when no queued job
exists. -/
theorem claim_select_eq_none (st : Store) :
    claim_select st = none ↔ ∀ j ∈ st.jobs, j.status ≠ JobStatus.queued := by
  unfold claim_select
  rw [List.head?_eq_none_iff]
  constructor
  · intro h j hj hq
    have hperm := List.perm_insertionSort jobIdLE
      (st.jobs.filter (fun j => j.status == JobStatus.queued))
    rw [h] at hperm
    have : j ∈ ([] : List Job) := hperm.symm.subset (by
      simp [List.mem_filter, hj, hq])
    simp at this
  · intro h
    have hfil : st.jobs.filter (fun j => j.status == JobStatus.queued) = [] := by
      rw [List.filter_eq_nil_iff]
      intro j hj
      simpa using h j hj
    rw [hfil]
    rfl

/-- Helper: the claim SELECT returns a queued member of the table with
the minimal id among queued jobs. -/
theorem claim_select_eq_some (st : Store) (j : Job)
    (hsel : claim_select st = some j) :
    j ∈ st.jobs ∧ j.status = JobStatus.queued ∧
      ∀ k ∈ st.jobs, k.status = JobStatus.queued → j.id ≤ k.id := by
  unfold claim_select at hsel
  set l := st.jobs.filter (fun j => j.status == JobStatus.queued) with hl
  have hperm := List.perm_insertionSort jobIdLE l
  have hsort := List.sorted_insertionSort jobIdLE l
  cases hs : List.insertionSort jobIdLE l with
  | nil => rw [hs] at hsel; simp at hsel
  | cons a tl =>
    rw [hs] at hsel
    simp only [List.head?_cons, Option.some.injEq] at hsel
    subst hsel
    rw [hs] at hperm hsort
    have hmem : a ∈ l := hperm.subset (List.mem_cons_self _ _)
    rw [hl, List.mem_filter] at hmem
    refine ⟨hmem.1, by simpa using hmem.2, ?_⟩
    intro k hk hkq
    have hkl : k ∈ a :: tl := hperm.symm.subset (by
      rw [hl, List.mem_filter]
      exact ⟨hk, by simp [hkq]⟩)
    rcases List.mem_cons.mp hkl with h | h
    · rw [h]
    · exact List.rel_of_sorted_cons hsort k h

/-- Helper: in a table with distinct ids, the guarded claim update on a
queued member matches exactly one row. -/
theorem countP_claim_hit_eq_one {l : List Job}
    (hl : l.Pairwise (fun a b => a.id ≠ b.id)) {j : Job} (hj : j ∈ l)
    (hq : j.status = JobStatus.queued) :
    l.countP (claimHit j.id) = 1 := by
  induction l with
  | nil => simp at hj
  | cons a t ih =>
    rw [List.pairwise_cons] at hl
    rcases List.mem_cons.mp hj with rfl | hjt
    · rw [List.countP_cons_of_pos _ _ (by simp [claimHit, hq])]
      have h0 : t.countP (claimHit j.id) = 0 := by
        rw [List.countP_eq_zero]
        intro k hk hkk
        simp only [claimHit, Bool.and_eq_true, beq_iff_eq] at hkk
        exact hl.1 k hk hkk.1.symm
      rw [h0]
    · rw [List.countP_cons_of_neg _ _ (by
        simp only [claimHit, Bool.and_eq_true, beq_iff_eq, not_and]
        intro hid
        exact absurd hid (hl.1 j hjt)), ih hl.2 hjt]

/-- Helper: when no row matches, the guarded claim update changes
nothing. -/
theorem claim_update_of_no_hit (st : Store) (now jid : Nat)
    (h : st.jobs.countP (claimHit jid) = 0) :
    (claim_update st now jid).1 = st := by
  rw [List.countP_eq_zero] at h
  have hm : st.jobs.map (fun j =>
      if claimHit jid j then
        { j with status := JobStatus.running, attempts := j.attempts + 1,
                 started_at := some (j.started_at.getD now), updated_at := now }
      else j) = st.jobs := by
    conv_rhs => rw [← List.map_id st.jobs]
    refine List.map_congr_left ?_
    intro k hk
    simp [h k hk]
  show ({ st with jobs := st.jobs.map _ } : Store) = st
  rw [hm]

/-- Helper: claim_update preserves the distinct-id invariant. -/
theorem claim_update_wf (st : Store) (now jid : Nat) (h : WFjobIds st) :
    WFjobIds (claim_update st now jid).1 := by
  unfold WFjobIds claim_update at *
  refine h.map _ ?_
  intro a b hab
  by_cases ha : claimHit jid a = true <;> by_cases hb : claimHit jid b = true <;>
    simp [ha, hb, hab]

/-- Helper: unfolding of one loop iteration with no queued job. -/
theorem claim_next_job_step_none (fuel : Nat) (intf : List (Store → Store))
    (st : Store) (now : Nat) (h : claim_select st = none) :
    claim_next_job (fuel + 1) intf st now = (st, none) := by
  simp only [claim_next_job]
  rw [h]

/-- Helper: unfolding of one loop iteration whose guarded update hits. -/
theorem claim_next_job_step_hit (fuel : Nat) (intf : List (Store → Store))
    (st : Store) (now : Nat) (row : Job) (hsel : claim_select st = some row)
    (hrc : (claim_update ((intf.headD id) st) now row.id).2 = 1) :
    claim_next_job (fuel + 1) intf st now =
      ((claim_update ((intf.headD id) st) now row.id).1,
       some { id := row.id, stage := row.stage, page_id := row.page_id,
              payload_json := row.payload_json }) := by
  simp only [claim_next_job]
  rw [hsel]
  exact if_pos (by rw [hrc]; rfl :
    ((claim_update ((intf.headD id) st) now row.id).2 == 1) = true)

/-- Helper: unfolding of one loop iteration whose guarded update misses
(the selected job was raced away): the loop retries. -/
theorem claim_next_job_step_miss (fuel : Nat) (intf : List (Store → Store))
    (st : Store) (now : Nat) (row : Job) (hsel : claim_select st = some row)
    (hrc : (claim_update ((intf.headD id) st) now row.id).2 ≠ 1) :
    claim_next_job (fuel + 1) intf st now =
      claim_next_job fuel (intf.drop 1)
        (claim_update ((intf.headD id) st) now row.id).1 now := by
  simp only [claim_next_job]
  rw [hsel]
  exact if_neg (by simpa using hrc :
    ¬ ((claim_update ((intf.headD id) st) now row.id).2 == 1) = true)

/-- Helper: in the sequential setting with distinct ids, any job
returned by the claim loop corresponds to a queued row of the store. -/
theorem claim_next_job_sound (fuel : Nat) (st : Store) (now : Nat)
    (hwf : WFjobIds st) (c : ClaimedJob)
    (hres : (claim_next_job fuel [] st now).2 = some c) :
    ∃ k ∈ st.jobs, k.id = c.id ∧ k.status = JobStatus.queued := by
  induction fuel generalizing st with
  | zero => simp [claim_next_job] at hres
  | succ n ih =>
    cases hsel : claim_select st with
    | none =>
      rw [claim_next_job_step_none n [] st now hsel] at hres
      simp at hres
    | some row =>
      obtain ⟨hmem, hq, -⟩ := claim_select_eq_some st row hsel
      have hrc : (claim_update st now row.id).2 = 1 :=
        countP_claim_hit_eq_one hwf hmem hq
      rw [claim_next_job_step_hit n [] st now row hsel hrc] at hres
      simp only [Option.some.injEq] at hres
      exact ⟨row, hmem, by simp [← hres], hq⟩

/-- Helper: in a table with pairwise-distinct ids, equal ids mean equal
rows. -/
theorem eq_of_mem_of_id_eq {l : List Job}
    (hl : l.Pairwise (fun a b => a.id ≠ b.id)) {j k : Job}
    (hj : j ∈ l) (hk : k ∈ l) (hid : j.id = k.id) : j = k := by
  induction l with
  | nil => simp at hj
  | cons a t ih =>
    rw [List.pairwise_cons] at hl
    rcases List.mem_cons.mp hj with rfl | hjt <;>
      rcases List.mem_cons.mp hk with rfl | hkt
    · rfl
    · exact absurd hid (hl.1 k hkt)
    · exact absurd hid.symm (hl.1 j hjt)
    · exact ih hl.2 hjt hkt

/-- Helper: after a successful claim of job j, no row with the id of j
is queued any more. -/
theorem no_hit_after_claim (st : Store) (now : Nat) {j : Job}
    (hwf : WFjobIds st) (hj : j ∈ st.jobs) :
    (claim_update st now j.id).1.jobs.countP (claimHit j.id) = 0 := by
  rw [List.countP_eq_zero]
  intro k hk
  simp only [claim_update, List.mem_map] at hk
  obtain ⟨k0, hk0, rfl⟩ := hk
  by_cases hid : k0.id = j.id
  · have : k0 = j := eq_of_mem_of_id_eq hwf hk0 hj hid
    subst this
    by_cases hqs : k0.status = JobStatus.queued <;> simp [claimHit, hqs]
  · by_cases hq : claimHit j.id k0 = true
    · simp only [claimHit, Bool.and_eq_true, beq_iff_eq] at hq
      exact absurd hq.1 hid
    · simp only [Bool.not_eq_true] at hq
      simp [hq, claimHit, hid]

/-- C3: the claim contract.  With no queued job, claim_next returns
none and changes nothing.  Otherwise (for a table with distinct ids)
the SELECT picks the queued job with the smallest id, and claim_next
transitions exactly that job from queued to running, incrementing its
attempts and COALESCE-ing started_at (set only when previously unset),
leaving every other row in place.  Finally, when a concurrent claimer
steals the selected job between the SELECT and the guarded UPDATE, the
loop does not return that job: it continues exactly as a fresh
sequential claim on the interfered store, whose result — if any — is a
different job id. -/
theorem claim_C3_claim_next_contract (st : Store) (now : Nat) :
    ((∀ j ∈ st.jobs, j.status ≠ JobStatus.queued) →
      claim_next st now = (st, none)) ∧
    (WFjobIds st →
      ∀ j : Job, claim_select st = some j →
        (j ∈ st.jobs ∧ j.status = JobStatus.queued ∧
          ∀ k ∈ st.jobs, k.status = JobStatus.queued → j.id ≤ k.id) ∧
        claim_next st now =
          ((claim_update st now j.id).1,
            some { id := j.id, stage := j.stage, page_id := j.page_id,
                   payload_json := j.payload_json }) ∧
        { j with status := JobStatus.running, attempts := j.attempts + 1,
                 started_at := some (j.started_at.getD now),
                 updated_at := now } ∈ (claim_next st now).1.jobs ∧
        (∀ k ∈ st.jobs, k.id ≠ j.id → k ∈ (claim_next st now).1.jobs) ∧
        (claim_next st now).1.jobs.length = st.jobs.length) ∧
    (WFjobIds st →
      ∀ j : Job, claim_select st = some j → ∀ fuel : Nat,
        claim_next_job (fuel + 1) [fun s => (claim_update s now j.id).1] st now =
          claim_next_job fuel [] (claim_update st now j.id).1 now ∧
        ∀ c : ClaimedJob,
          (claim_next_job fuel [] (claim_update st now j.id).1 now).2 = some c →
            c.id ≠ j.id) := by
  refine ⟨?_, ?_, ?_⟩
  · intro h
    have hsel : claim_select st = none := (claim_select_eq_none st).mpr h
    exact claim_next_job_step_none st.jobs.length [] st now hsel
  · intro hwf j hsel
    obtain ⟨hmem, hq, hmin⟩ := claim_select_eq_some st j hsel
    have hrc : (claim_update st now j.id).2 = 1 :=
      countP_claim_hit_eq_one hwf hmem hq
    have heq : claim_next st now =
        ((claim_update st now j.id).1,
          some { id := j.id, stage := j.stage, page_id := j.page_id,
                 payload_json := j.payload_json : ClaimedJob }) :=
      claim_next_job_step_hit st.jobs.length [] st now j hsel hrc
    refine ⟨⟨hmem, hq, hmin⟩, heq, ?_, ?_, ?_⟩
    · rw [heq]
      simp only [claim_update]
      refine List.mem_map.mpr ⟨j, hmem, ?_⟩
      simp [claimHit, hq]
    · intro k hk hkid
      rw [heq]
      simp only [claim_update]
      refine List.mem_map.mpr ⟨k, hk, ?_⟩
      have : claimHit j.id k = false := by
        simp [claimHit, hkid]
      simp [this]
    · rw [heq]
      simp [claim_update]
  · intro hwf j hsel fuel
    obtain ⟨hmem, hq, -⟩ := claim_select_eq_some st j hsel
    set st1 := (claim_update st now j.id).1 with hst1
    have hwf1 : WFjobIds st1 := claim_update_wf st now j.id hwf
    have hrc0 : st1.jobs.countP (claimHit j.id) = 0 :=
      no_hit_after_claim st now hwf hmem
    have hne : (claim_update st1 now j.id).2 ≠ 1 := by
      show st1.jobs.countP (claimHit j.id) ≠ 1
      rw [hrc0]
      decide
    constructor
    · rw [claim_next_job_step_miss fuel [fun s => (claim_update s now j.id).1]
        st now j hsel hne]
      simp only [List.headD_cons, List.drop_one, List.tail_cons]
      rw [← hst1, claim_update_of_no_hit st1 now j.id hrc0]
    · intro c hres
      obtain ⟨k, hk, hkid, hkq⟩ := claim_next_job_sound fuel st1 now hwf1 c hres
      intro hcid
      rw [hcid] at hkid
      simp only [hst1, claim_update, List.mem_map] at hk
      obtain ⟨k0, hk0, rfl⟩ := hk
      cases hhit : claimHit j.id k0 with
      | true =>
        rw [hhit] at hkq
        simp at hkq
      | false =>
        rw [hhit] at hkq hkid
        simp only [Bool.false_eq_true, if_false] at hkq hkid
        have hkj : k0 = j := eq_of_mem_of_id_eq hwf hk0 hmem hkid
        rw [hkj] at hhit
        simp [claimHit, hkj ▸ hkq] at hhit

/-- Witness for C3: the contract applied to a store holding one queued
job, whose claim transitions it to running with started_at set. -/
theorem claim_C3_claim_next_contract_witness :
    WFjobIds c3Store ∧ claim_select c3Store = some c3Job ∧
    claim_next c3Store 5 =
      ((claim_update c3Store 5 1).1,
        some { id := 1, stage := "layout_detect", page_id := some 7,
               payload_json := none }) ∧
    { c3Job with status := JobStatus.running, attempts := 1,
                 started_at := some 5, updated_at := 5 } ∈
      (claim_next c3Store 5).1.jobs := by
  have h := (claim_C3_claim_next_contract c3Store 5).2.1 (by decide) c3Job
    (by decide)
  exact ⟨by decide, by decide, h.2.1, h.2.2.1⟩

/-! ## C7: the layout_detect handler guards -/

/-- Counterexample to C7 as stated: for a job referencing a page id
with no page row, the handler does not skip — it raises (the job will
be recorded as failed), returning the error "Page not found.". -/
theorem claim_C7_counterexample :
    (layout_detect_handler detectNoop emptyStore
      { id := 1, stage := "layout_detect", page_id := some 5,
        payload_json := none } 3).2 = Except.error "Page not found." ∧
    ∀ r : Option StageResult,
      (layout_detect_handler detectNoop emptyStore
        { id := 1, stage := "layout_detect", page_id := some 5,
          payload_json := none } 3).2 ≠ Except.ok r := by
  refine ⟨rfl, ?_⟩
  intro r h
  rw [show (layout_detect_handler detectNoop emptyStore
      { id := 1, stage := "layout_detect", page_id := some 5,
        payload_json := none } 3).2 = Except.error "Page not found."
    from rfl] at h
  exact Except.noConfusion h

/-- Helper: full case analysis of layout_detect_handler, shared by the
C7 and C8 theorems. -/
theorem layout_handler_guards_aux (detect : DetectCollab) (st : Store)
    (job : ClaimedJob) (now : Nat) :
    (job.page_id = none →
      layout_detect_handler detect st job now =
        (st, .error "layout_detect job requires page_id.")) ∧
    (∀ pid : Nat, job.page_id = some pid →
      (st.pages.find? (fun p => p.id == pid) = none →
        layout_detect_handler detect st job now =
          (st, .error "Page not found.")) ∧
      (∀ page : Page, st.pages.find? (fun p => p.id == pid) = some page →
        (page.is_missing = true →
          layout_detect_handler detect st job now =
            (st, .ok (some (.skipped "page is missing")))) ∧
        (page.is_missing = false → page.status ≠ "new" →
          page.status ≠ "layout_detecting" →
          layout_detect_handler detect st job now =
            (st, .ok (some (.skipped ("page status is " ++ page.status))))) ∧
        (page.is_missing = false →
          (page.status = "new" ∨ page.status = "layout_detecting") →
          layout_detect_handler detect st job now =
            (match detect (set_page_detecting st pid now) pid now with
             | (st2, .ok r) => (st2, .ok (some r))
             | (st2, .error e) => (revert_page_new st2 pid now, .error e))))) := by
  constructor
  · intro hn
    unfold layout_detect_handler
    rw [hn]
  · intro pid hp
    have hbase : layout_detect_handler detect st job now =
        (match st.pages.find? (fun p => p.id == pid) with
         | none => (st, .error "Page not found.")
         | some page =>
           if page.is_missing then
             (st, .ok (some (.skipped "page is missing")))
           else if page.status != "new" && page.status != "layout_detecting" then
             (st, .ok (some (.skipped ("page status is " ++ page.status))))
           else
             match detect (set_page_detecting st pid now) pid now with
             | (st2, .ok r) => (st2, .ok (some r))
             | (st2, .error e) => (revert_page_new st2 pid now, .error e)) := by
      unfold layout_detect_handler
      rw [hp]
    constructor
    · intro hf
      rw [hbase, hf]
    · intro page hf
      rw [hbase, hf]
      refine ⟨?_, ?_, ?_⟩
      · intro hm
        simp [hm]
      · intro hm hs1 hs2
        simp [hm, hs1, hs2]
      · intro hm hs
        rcases hs with h | h <;> simp [hm, h]

/-- C7 amended: for a layout_detect job, a missing page id raises; a
nonexistent page row raises with "Page not found." (a failure, not a
skip); a page flagged missing yields the skipped result; a page whose
status is neither new nor layout_detecting yields a skipped result
whose reason names the current status; otherwise the handler marks the
page layout_detecting before delegating to the collaborator. -/
theorem claim_C7_layout_handler_guards (detect : DetectCollab) (st : Store)
    (job : ClaimedJob) (now : Nat) :
    (job.page_id = none →
      layout_detect_handler detect st job now =
        (st, .error "layout_detect job requires page_id.")) /\
    (forall pid : Nat, job.page_id = some pid →
      (st.pages.find? (fun p => p.id == pid) = none →
        layout_detect_handler detect st job now =
          (st, .error "Page not found.")) /\
      (forall page : Page, st.pages.find? (fun p => p.id == pid) = some page →
        (page.is_missing = true →
          layout_detect_handler detect st job now =
            (st, .ok (some (.skipped "page is missing")))) /\
        (page.is_missing = false → page.status ≠ "new" →
          page.status ≠ "layout_detecting" →
          layout_detect_handler detect st job now =
            (st, .ok (some (.skipped ("page status is " ++ page.status))))) /\
        (page.is_missing = false →
          (page.status = "new" \/ page.status = "layout_detecting") →
          layout_detect_handler detect st job now =
            (match detect (set_page_detecting st pid now) pid now with
             | (st2, .ok r) => (st2, .ok (some r))
             | (st2, .error e) => (revert_page_new st2 pid now, .error e))))) :=
  layout_handler_guards_aux detect st job now

/-- Witness for C7: the guards evaluated on a one-page store: a missing
page skips, and a fresh page is marked layout_detecting before the
delegate runs. -/
theorem claim_C7_layout_handler_guards_witness :
    layout_detect_handler detectNoop
        { pages := [{ id := 4, rel_path := "m.png", file_hash := "hm",
                      status := "new", created_at := 0, updated_at := 0,
                      last_seen_at := 0, is_missing := true }],
          nextPageId := 5 }
        { id := 1, stage := "layout_detect", page_id := some 4,
          payload_json := none } 2 =
      ({ pages := [{ id := 4, rel_path := "m.png", file_hash := "hm",
                     status := "new", created_at := 0, updated_at := 0,
                     last_seen_at := 0, is_missing := true }],
         nextPageId := 5 }, .ok (some (.skipped "page is missing"))) ∧
    layout_detect_handler detectNoop
        { pages := [{ id := 4, rel_path := "m.png", file_hash := "hm",
                      status := "new", created_at := 0, updated_at := 0,
                      last_seen_at := 0, is_missing := false }],
          nextPageId := 5 }
        { id := 1, stage := "layout_detect", page_id := some 4,
          payload_json := none } 2 =
      ({ pages := [{ id := 4, rel_path := "m.png", file_hash := "hm",
                     status := "layout_detecting", created_at := 0,
                     updated_at := 2, last_seen_at := 0, is_missing := false }],
         nextPageId := 5 }, .ok (some (.detected 0))) := by
  constructor
  · have h := ((claim_C7_layout_handler_guards detectNoop
      { pages := [{ id := 4, rel_path := "m.png", file_hash := "hm",
                    status := "new", created_at := 0, updated_at := 0,
                    last_seen_at := 0, is_missing := true }], nextPageId := 5 }
      { id := 1, stage := "layout_detect", page_id := some 4,
        payload_json := none } 2).2 4 rfl).2
      { id := 4, rel_path := "m.png", file_hash := "hm", status := "new",
        created_at := 0, updated_at := 0, last_seen_at := 0,
        is_missing := true } (by decide)
    exact h.1 rfl
  · have h := ((claim_C7_layout_handler_guards detectNoop
      { pages := [{ id := 4, rel_path := "m.png", file_hash := "hm",
                    status := "new", created_at := 0, updated_at := 0,
                    last_seen_at := 0, is_missing := false }], nextPageId := 5 }
      { id := 1, stage := "layout_detect", page_id := some 4,
        payload_json := none } 2).2 4 rfl).2
      { id := 4, rel_path := "m.png", file_hash := "hm", status := "new",
        created_at := 0, updated_at := 0, last_seen_at := 0,
        is_missing := false } (by decide)
    rw [h.2.2 rfl (Or.inl rfl)]
    rfl

/-! ## C8: failure isolation -/

/-- Helper: a row-wise update that touches only the row with the id of
j (present, with distinct ids) and flips its p-value from false to true
increases the p-count by exactly one. -/
theorem countP_map_single_change {p : Job → Bool} {l : List Job}
    (hl : l.Pairwise (fun a b => a.id ≠ b.id)) {j : Job} (hj : j ∈ l)
    (G : Job → Job) (hGne : ∀ k ∈ l, k.id ≠ j.id → G k = k)
    (hpj : p j = false) (hpGj : p (G j) = true) :
    (l.map G).countP p = l.countP p + 1 := by
  induction l with
  | nil => simp at hj
  | cons a t ih =>
    rw [List.pairwise_cons] at hl
    rcases List.mem_cons.mp hj with rfl | hjt
    · have ht : t.map G = t := by
        conv_rhs => rw [← List.map_id t]
        refine List.map_congr_left ?_
        intro k hk
        simp [hGne k (List.mem_cons_of_mem _ hk) (fun hid => hl.1 k hk hid.symm)]
      rw [List.map_cons, List.countP_cons_of_pos _ _ hpGj, ht,
        List.countP_cons_of_neg _ _ (by simp [hpj])]
    · have ha : G a = a :=
        hGne a (List.mem_cons_self _ _) (hl.1 j hjt)
      rw [List.map_cons, ha]
      rcases hpa : p a with _ | _
      · rw [List.countP_cons_of_neg _ _ (by simp [hpa]),
          List.countP_cons_of_neg _ _ (by simp [hpa])]
        exact ih hl.2 hjt (fun k hk hkid => hGne k (List.mem_cons_of_mem _ hk) hkid)
      · rw [List.countP_cons_of_pos _ _ hpa, List.countP_cons_of_pos _ _ hpa]
        have := ih hl.2 hjt (fun k hk hkid => hGne k (List.mem_cons_of_mem _ hk) hkid)
        omega

/-- C8: when the handler of the claimed job raises (and, like every
handler in the repository, does not itself write the jobs table),
exactly one job — the claimed one — ends in status failed with the
non-null error text, a job_failed event is appended, and the worker
loop proceeds to the next iteration instead of crashing; and the
layout_detect handler reverts the page status to new before the error
propagates, provided the page is still not missing at revert time. -/
theorem claim_C8_failure_isolation :
    (∀ (handlers : List (String × Handler)) (st : Store) (now : Nat)
        (j : Job) (h : Handler) (sth : Store) (e : String) (fuel : Nat),
      WFjobIds st →
      claim_select st = some j →
      lookupHandler handlers j.stage = some h →
      h (emit_event (claim_next st now).1 now j.stage "job_started" j.page_id
            ("Started " ++ stage_label j.stage ++ ".")
            (some { job_id := some j.id }))
          { id := j.id, stage := j.stage, page_id := j.page_id,
            payload_json := j.payload_json } now = (sth, .error e) →
      sth.jobs = (claim_next st now).1.jobs →
      (worker_step handlers st now).2 = .processed j.id ∧
      { j with status := JobStatus.failed, attempts := j.attempts + 1,
               started_at := some (j.started_at.getD now),
               error := some e, finished_at := some now, updated_at := now } ∈
        (worker_step handlers st now).1.jobs ∧
      (∀ k ∈ st.jobs, k.id ≠ j.id → k ∈ (worker_step handlers st now).1.jobs) ∧
      (worker_step handlers st now).1.jobs.countP
          (fun k => k.status == JobStatus.failed) =
        st.jobs.countP (fun k => k.status == JobStatus.failed) + 1 ∧
      (∃ ev ∈ (worker_step handlers st now).1.events,
        ev.event_type = "job_failed" ∧ ev.message = e ∧ ev.page_id = j.page_id) ∧
      worker_loop handlers (fuel + 1) st now =
        worker_loop handlers fuel (worker_step handlers st now).1 (now + 1)) ∧
    (∀ (detect : DetectCollab) (st : Store) (job : ClaimedJob)
        (now pid : Nat) (page : Page) (st2 : Store) (e : String),
      job.page_id = some pid →
      st.pages.find? (fun p => p.id == pid) = some page →
      page.is_missing = false →
      (page.status = "new" ∨ page.status = "layout_detecting") →
      detect (set_page_detecting st pid now) pid now = (st2, .error e) →
      layout_detect_handler detect st job now =
        (revert_page_new st2 pid now, .error e) ∧
      (∀ p ∈ st2.pages, p.id = pid → p.is_missing = false →
        { p with status := "new", updated_at := now } ∈
          (revert_page_new st2 pid now).pages) ∧
      (∀ p ∈ st2.pages, p.is_missing = true →
        p ∈ (revert_page_new st2 pid now).pages)) := by
  constructor
  · intro handlers st now j h sth e fuel hwf hsel hlook hrun hjobs
    obtain ⟨hmem, hq, -⟩ := claim_select_eq_some st j hsel
    have hrc : (claim_update st now j.id).2 = 1 :=
      countP_claim_hit_eq_one hwf hmem hq
    have heq : claim_next st now =
        ((claim_update st now j.id).1,
          some { id := j.id, stage := j.stage, page_id := j.page_id,
                 payload_json := j.payload_json : ClaimedJob }) :=
      claim_next_job_step_hit st.jobs.length [] st now j hsel hrc
    rw [heq] at hrun hjobs
    have hstep : worker_step handlers st now =
        (emit_event (finalize_job_failure sth now j.id e) now j.stage
          "job_failed" j.page_id e (some { job_id := some j.id }),
         .processed j.id) := by
      unfold worker_step
      rw [heq]
      simp only [hlook, hrun]
    set F : Store := emit_event (finalize_job_failure sth now j.id e) now
      j.stage "job_failed" j.page_id e (some { job_id := some j.id }) with hF
    have hW1 : (worker_step handlers st now).1 = F := by rw [hstep]
    set G : Job → Job := fun k =>
      (fun k2 : Job => if k2.id == j.id then
          { k2 with status := JobStatus.failed, error := some e,
                    finished_at := some now, updated_at := now }
        else k2)
      (if claimHit j.id k then
          { k with status := JobStatus.running, attempts := k.attempts + 1,
                   started_at := some (k.started_at.getD now), updated_at := now }
        else k) with hG
    have hsthjobs : sth.jobs = st.jobs.map (fun k =>
        if claimHit j.id k then
          { k with status := JobStatus.running, attempts := k.attempts + 1,
                   started_at := some (k.started_at.getD now), updated_at := now }
        else k) := by
      rw [hjobs]
      rfl
    have hjobs2 : (worker_step handlers st now).1.jobs = st.jobs.map G := by
      rw [hW1]
      show (finalize_job_failure sth now j.id e).jobs = st.jobs.map G
      show sth.jobs.map _ = st.jobs.map G
      rw [hsthjobs, List.map_map]
      rfl
    have hGne : ∀ k ∈ st.jobs, k.id ≠ j.id → G k = k := by
      intro k _ hkid
      have h1 : (k.id == j.id) = false := by simp [hkid]
      have h2 : claimHit j.id k = false := by simp [claimHit, h1]
      rw [hG]
      simp only [h2, Bool.false_eq_true, if_false, h1]
    have hGj : G j =
        { j with status := JobStatus.failed, attempts := j.attempts + 1,
                 started_at := some (j.started_at.getD now),
                 error := some e, finished_at := some now, updated_at := now } := by
      rw [hG]
      simp [claimHit, hq]
    refine ⟨by rw [hstep], ?_, ?_, ?_, ?_, ?_⟩
    · rw [hjobs2, ← hGj]
      exact List.mem_map_of_mem G hmem
    · intro k hk hkid
      rw [hjobs2]
      have := List.mem_map_of_mem G hk
      rwa [hGne k hk hkid] at this
    · rw [hjobs2]
      refine countP_map_single_change hwf hmem G hGne (by simp [hq]) ?_
      rw [hGj]
      simp
    · have hev : ({
          id := sth.nextEventId, ts := now, stage := j.stage,
          event_type := "job_failed", page_id := j.page_id, message := e,
          data := some { job_id := some j.id } } : EventRow) ∈
          (worker_step handlers st now).1.events := by
        rw [hW1]
        show _ ∈ sth.events ++ [_]
        exact List.mem_append_right _ (List.mem_singleton_self _)
      exact ⟨_, hev, rfl, rfl, rfl⟩
    · have hunf : worker_loop handlers (fuel + 1) st now =
          match worker_step handlers st now with
          | (st1, .exited) => st1
          | (st1, .processed _) => worker_loop handlers fuel st1 (now + 1) := rfl
      rw [hunf, hstep]
  · intro detect st job now pid page st2 e hp hf hm hs hdet
    have hcase := ((layout_handler_guards_aux detect st job now).2 pid hp).2
      page hf
    refine ⟨?_, ?_, ?_⟩
    · rw [hcase.2.2 hm hs, hdet]
    · intro p hp2 hpid hpmiss
      unfold revert_page_new
      refine List.mem_map.mpr ⟨p, hp2, ?_⟩
      simp [hpid, hpmiss]
    · intro p hp2 hpmiss
      unfold revert_page_new
      refine List.mem_map.mpr ⟨p, hp2, ?_⟩
      simp [hpmiss]

/-- Witness for C8: one worker iteration over a store with one queued
job and a raising handler: the job ends failed with the error text and
the failed count grows by exactly one. -/
theorem claim_C8_failure_isolation_witness :
    (worker_step [("layout_detect", failingHandler)] c8Store 2).2 =
      StepOutcome.processed 1 ∧
    { c8Job with
        status := JobStatus.failed, attempts := 1,
        started_at := some 2, error := some "boom", finished_at := some 2,
        updated_at := 2 } ∈
      (worker_step [("layout_detect", failingHandler)] c8Store 2).1.jobs ∧
    (worker_step [("layout_detect", failingHandler)] c8Store 2).1.jobs.countP
        (fun k => k.status == JobStatus.failed) =
      c8Store.jobs.countP (fun k => k.status == JobStatus.failed) + 1 := by
  have h := claim_C8_failure_isolation.1 [("layout_detect", failingHandler)]
    c8Store 2 c8Job failingHandler
    (emit_event (claim_next c8Store 2).1 2 c8Job.stage "job_started"
      c8Job.page_id ("Started " ++ stage_label c8Job.stage ++ ".")
      (some { job_id := some c8Job.id }))
    "boom" 0 (by decide) (by decide) rfl rfl rfl
  exact ⟨h.1, h.2.1, h.2.2.2.1⟩

/-! ## C9: the activity snapshot -/

/-- Helper: members of a sorted-take prefix dominate (by eventIdGE) the
members of the corresponding drop suffix. -/
theorem sorted_take_drop_ge {S : List EventRow} (hs : List.Sorted eventIdGE S)
    (k : Nat) : ∀ x ∈ S.take k, ∀ y ∈ S.drop k, y.id ≤ x.id := by
  intro x hx y hy
  have hsplit : S = S.take k ++ S.drop k := (List.take_append_drop k S).symm
  have hp : List.Pairwise eventIdGE (S.take k ++ S.drop k) := hsplit ▸ hs
  rw [List.pairwise_append] at hp
  exact hp.2.2 x hx y hy

/-- Helper: the per-stage queued counts of the snapshot sum to the
number of queued jobs. -/
theorem sum_by_stage_eq (l : List Job) :
    (((List.insertionSort strLE
        ((l.map (fun j => j.stage)).dedup)).map
      (fun s => (s, l.countP (fun j => j.stage == s)))).map Prod.snd).sum =
      l.length := by
  rw [List.map_map]
  have hperm := ((List.perm_insertionSort strLE
    ((l.map (fun j => j.stage)).dedup)).map
    (Prod.snd ∘ fun s => (s, l.countP (fun j => j.stage == s))))
  rw [hperm.sum_eq]
  have hcong : ((l.map (fun j => j.stage)).dedup).map
      (Prod.snd ∘ fun s => (s, l.countP (fun j => j.stage == s))) =
      ((l.map (fun j => j.stage)).dedup).map
      (fun s => (l.map (fun j => j.stage)).count s) := by
    refine List.map_congr_left ?_
    intro s _
    show l.countP (fun j => j.stage == s) = _
    rw [List.count, List.countP_map]
    rfl
  rw [hcong, List.sum_map_count_dedup_eq_length, List.length_map]

/-- C9: the activity snapshot clamps the limit into 1..200, reports at
most one running job (and one exactly when a running job exists, by
id a running row of the table), previews at most 15 queued jobs in
ascending id order, each a queued row of the table, reports queued
counts by stage summing to the queued total, which equals the number of
queued jobs, and returns the most recent effective-limit events in
ascending id order. -/
theorem claim_C9_snapshot_contract (st : Store) (workerAlive : Bool)
    (handlers : List (String × Handler)) (limit : Int) :
    (1 : Int) ≤ max 1 (min limit 200) ∧ max 1 (min limit 200) ≤ 200 ∧
    (get_activity_snapshot st workerAlive handlers limit).recent_events.length =
      min (max 1 (min limit 200)).toNat st.events.length ∧
    (∀ r : RunningInfo,
      (get_activity_snapshot st workerAlive handlers limit).in_progress = some r →
        ∃ jj ∈ st.jobs, jj.status = JobStatus.running ∧ jj.id = r.job_id) ∧
    ((get_activity_snapshot st workerAlive handlers limit).in_progress = none ↔
      ∀ jj ∈ st.jobs, jj.status ≠ JobStatus.running) ∧
    (get_activity_snapshot st workerAlive handlers limit).queued_preview.length ≤ 15 ∧
    List.Pairwise (fun a b : QueuedItem => a.job_id ≤ b.job_id)
      (get_activity_snapshot st workerAlive handlers limit).queued_preview ∧
    (∀ q ∈ (get_activity_snapshot st workerAlive handlers limit).queued_preview,
      ∃ jj ∈ st.jobs, jj.status = JobStatus.queued ∧ jj.id = q.job_id) ∧
    (get_activity_snapshot st workerAlive handlers limit).queued_total =
      (((get_activity_snapshot st workerAlive handlers limit).queued_by_stage).map
        Prod.snd).sum ∧
    (get_activity_snapshot st workerAlive handlers limit).queued_total =
      st.jobs.countP (fun jj => jj.status == JobStatus.queued) ∧
    List.Pairwise (fun a b : SnapshotEvent => a.id ≤ b.id)
      (get_activity_snapshot st workerAlive handlers limit).recent_events ∧
    (∀ ev ∈ st.events,
      (∀ r ∈ (get_activity_snapshot st workerAlive handlers limit).recent_events,
        r.id ≠ ev.id) →
      ∀ r ∈ (get_activity_snapshot st workerAlive handlers limit).recent_events,
        ev.id ≤ r.id) := by
  have hone : (1 : Int) ≤ max 1 (min limit 200) := le_max_left 1 _
  have htwo : max 1 (min limit 200) ≤ 200 := by
    rcases le_total limit 200 with h | h
    · exact max_le (by norm_num) (le_trans (min_le_left _ _) h)
    · exact max_le (by norm_num) (min_le_right _ _)
  refine ⟨hone, htwo, ?_, ?_, ?_, ?_, ?_, ?_, rfl, ?_, ?_, ?_⟩
  · show (((List.insertionSort eventIdGE st.events).take
        (max 1 (min limit 200)).toNat).reverse.map _).length = _
    rw [List.length_map, List.length_reverse, List.length_take,
      (List.perm_insertionSort eventIdGE st.events).length_eq]
  · intro r hr
    have hrfl : (get_activity_snapshot st workerAlive handlers limit).in_progress =
        ((List.insertionSort (fun a b => runningLe a b = true)
          (st.jobs.filter (fun j => j.status == JobStatus.running))).head?).map
        (fun j => {
          job_id := j.id, stage := j.stage, page_id := j.page_id,
          rel_path := pageRelPath st j.page_id, started_at := j.started_at,
          attempts := j.attempts : RunningInfo }) := rfl
    rw [hrfl] at hr
    cases hh : (List.insertionSort (fun a b => runningLe a b = true)
        (st.jobs.filter (fun j => j.status == JobStatus.running))).head? with
    | none =>
      rw [hh] at hr
      exact Option.noConfusion hr
    | some jj =>
      rw [hh] at hr
      injection hr with hr
      have hmem : jj ∈ st.jobs.filter (fun j => j.status == JobStatus.running) := by
        have := List.mem_of_mem_head? hh
        exact (List.perm_insertionSort _ _).subset this
      rw [List.mem_filter] at hmem
      exact ⟨jj, hmem.1, by simpa using hmem.2, by rw [← hr]⟩
  · have hrfl : (get_activity_snapshot st workerAlive handlers limit).in_progress =
        ((List.insertionSort (fun a b => runningLe a b = true)
          (st.jobs.filter (fun j => j.status == JobStatus.running))).head?).map
        (fun j => {
          job_id := j.id, stage := j.stage, page_id := j.page_id,
          rel_path := pageRelPath st j.page_id, started_at := j.started_at,
          attempts := j.attempts : RunningInfo }) := rfl
    constructor
    · intro h jj hjj hrun
      have hmem : jj ∈ st.jobs.filter (fun j => j.status == JobStatus.running) := by
        rw [List.mem_filter]
        exact ⟨hjj, by simp [hrun]⟩
      have hhead : (List.insertionSort (fun a b => runningLe a b = true)
          (st.jobs.filter (fun j => j.status == JobStatus.running))).head? = none := by
        cases hh : (List.insertionSort (fun a b => runningLe a b = true)
            (st.jobs.filter (fun j => j.status == JobStatus.running))).head? with
        | none => rfl
        | some x =>
          rw [hrfl, hh] at h
          simp at h
      rw [List.head?_eq_none_iff] at hhead
      have hmem2 : jj ∈ List.insertionSort (fun a b => runningLe a b = true)
          (st.jobs.filter (fun j => j.status == JobStatus.running)) :=
        (List.perm_insertionSort _ _).mem_iff.mpr hmem
      rw [hhead] at hmem2
      simp at hmem2
    · intro h
      have hnil : st.jobs.filter (fun j => j.status == JobStatus.running) = [] := by
        rw [List.filter_eq_nil_iff]
        intro j hj
        simpa using h j hj
      rw [hrfl, hnil]
      rfl
  · show (((List.insertionSort jobIdLE
        (st.jobs.filter (fun j => j.status == JobStatus.queued))).take 15).map _).length ≤ 15
    rw [List.length_map, List.length_take]
    exact min_le_left _ _
  · show List.Pairwise _ (((List.insertionSort jobIdLE
      (st.jobs.filter (fun j => j.status == JobStatus.queued))).take 15).map _)
    rw [List.pairwise_map]
    refine List.Pairwise.sublist (List.take_sublist _ _) ?_
    exact List.sorted_insertionSort jobIdLE _
  · intro q hq
    have hq2 : ∃ jj ∈ (List.insertionSort jobIdLE
        (st.jobs.filter (fun j => j.status == JobStatus.queued))).take 15,
        q = { job_id := jj.id, stage := jj.stage, page_id := jj.page_id,
              rel_path := pageRelPath st jj.page_id, created_at := jj.created_at } := by
      obtain ⟨jj, hjj, hqe⟩ := List.mem_map.mp hq
      exact ⟨jj, hjj, hqe.symm⟩
    obtain ⟨jj, hjj, hqe⟩ := hq2
    have : jj ∈ st.jobs.filter (fun j => j.status == JobStatus.queued) :=
      (List.perm_insertionSort jobIdLE _).subset ((List.take_sublist _ _).subset hjj)
    rw [List.mem_filter] at this
    exact ⟨jj, this.1, by simpa using this.2, by rw [hqe]⟩
  · have hq : (get_activity_snapshot st workerAlive handlers limit).queued_total =
        (((List.insertionSort strLE
            (((st.jobs.filter (fun j => j.status == JobStatus.queued)).map
              (fun j => j.stage)).dedup)).map
          (fun s => (s, (st.jobs.filter
            (fun j => j.status == JobStatus.queued)).countP
            (fun j => j.stage == s)))).map Prod.snd).sum := rfl
    rw [hq, sum_by_stage_eq, ← List.countP_eq_length_filter]
  · show List.Pairwise _ (((List.insertionSort eventIdGE st.events).take
      (max 1 (min limit 200)).toNat).reverse.map _)
    rw [List.pairwise_map, List.pairwise_reverse]
    refine List.Pairwise.sublist (List.take_sublist _ _) ?_
    exact List.sorted_insertionSort eventIdGE st.events
  · intro ev hev hnot r hr
    obtain ⟨x, hx, hxe⟩ := List.mem_map.mp hr
    have hxtake : x ∈ (List.insertionSort eventIdGE st.events).take
        (max 1 (min limit 200)).toNat := List.mem_reverse.mp hx
    have hevS : ev ∈ List.insertionSort eventIdGE st.events :=
      (List.perm_insertionSort eventIdGE st.events).symm.subset hev
    have hevdrop : ev ∈ (List.insertionSort eventIdGE st.events).drop
        (max 1 (min limit 200)).toNat := by
      rcases (List.mem_append.mp (by
        rw [List.take_append_drop]
        exact hevS : ev ∈ (List.insertionSort eventIdGE st.events).take
          (max 1 (min limit 200)).toNat ++
          (List.insertionSort eventIdGE st.events).drop
          (max 1 (min limit 200)).toNat)) with h | h
      · exfalso
        have hmm : ({
            id := ev.id, ts := ev.ts, stage := ev.stage,
            event_type := ev.event_type, page_id := ev.page_id,
            rel_path := pageRelPath st ev.page_id, message := ev.message,
            data := ev.data } : SnapshotEvent) ∈
            (get_activity_snapshot st workerAlive handlers limit).recent_events :=
          List.mem_map.mpr ⟨ev, List.mem_reverse.mpr h, rfl⟩
        exact hnot _ hmm rfl
      · exact h
    have := sorted_take_drop_ge (List.sorted_insertionSort eventIdGE st.events)
      (max 1 (min limit 200)).toNat x hxtake ev hevdrop
    rw [← hxe]
    exact this

/-- Witness for C9: on the fixture store with limit 2, no running job
is reported, the queued total equals the queued count, and the two
returned events (the most recent ones) dominate the id of the omitted
first event. -/
theorem claim_C9_snapshot_contract_witness :
    (get_activity_snapshot c9Store false [] 2).in_progress = none ∧
    (get_activity_snapshot c9Store false [] 2).queued_total =
      c9Store.jobs.countP (fun jj => jj.status == JobStatus.queued) ∧
    ∀ r ∈ (get_activity_snapshot c9Store false [] 2).recent_events,
      (c9Ev 1).id ≤ r.id := by
  have h := claim_C9_snapshot_contract c9Store false [] 2
  refine ⟨?_, h.2.2.2.2.2.2.2.2.2.1, ?_⟩
  · exact h.2.2.2.2.1.mpr (by decide)
  · exact h.2.2.2.2.2.2.2.2.2.2.2 (c9Ev 1) (by decide) (by decide)

/-! ## C10: the duplicate counter matches the active rows -/

/-- Helper: in a list keyed by pairwise-distinct naturals, equal keys
mean equal elements. -/
theorem pairwise_key_eq {α β : Type} (key : α → β) {l : List α}
    (hl : l.Pairwise (fun a b => key a ≠ key b)) {j k : α}
    (hj : j ∈ l) (hk : k ∈ l) (hid : key j = key k) : j = k := by
  induction l with
  | nil => simp at hj
  | cons a t ih =>
    rw [List.pairwise_cons] at hl
    rcases List.mem_cons.mp hj with rfl | hjt <;>
      rcases List.mem_cons.mp hk with rfl | hkt
    · rfl
    · exact absurd hid (hl.1 k hkt)
    · exact absurd hid.symm (hl.1 j hjt)
    · exact ih hl.2 hjt hkt

/-- Helper: a keyed row-wise update that touches only the row with the
key of j and flips its p-value from false to true increases the p-count
by exactly one. -/
theorem countP_map_flip {α : Type} (key : α → Nat) {p : α → Bool} {l : List α}
    (hl : l.Pairwise (fun a b => key a ≠ key b)) {j : α} (hj : j ∈ l)
    (G : α → α) (hGne : ∀ k ∈ l, key k ≠ key j → G k = k)
    (hpj : p j = false) (hpGj : p (G j) = true) :
    (l.map G).countP p = l.countP p + 1 := by
  induction l with
  | nil => simp at hj
  | cons a t ih =>
    rw [List.pairwise_cons] at hl
    rcases List.mem_cons.mp hj with rfl | hjt
    · have ht : t.map G = t := by
        conv_rhs => rw [← List.map_id t]
        refine List.map_congr_left ?_
        intro k hk
        simp [hGne k (List.mem_cons_of_mem _ hk) (fun hid => hl.1 k hk hid.symm)]
      rw [List.map_cons, List.countP_cons_of_pos _ _ hpGj, ht,
        List.countP_cons_of_neg _ _ (by simp [hpj])]
    · have ha : G a = a :=
        hGne a (List.mem_cons_self _ _) (fun hid => hl.1 j hjt hid)
      rw [List.map_cons, ha]
      rcases hpa : p a with _ | _
      · rw [List.countP_cons_of_neg _ _ (by simp [hpa]),
          List.countP_cons_of_neg _ _ (by simp [hpa])]
        exact ih hl.2 hjt (fun k hk hkid => hGne k (List.mem_cons_of_mem _ hk) hkid)
      · rw [List.countP_cons_of_pos _ _ hpa, List.countP_cons_of_pos _ _ hpa]
        have := ih hl.2 hjt (fun k hk hkid => hGne k (List.mem_cons_of_mem _ hk) hkid)
        omega

/-- Helper: one duplicate upsert on a fresh path extends the invariant
by that path. -/
theorem upsert_duplicate_inv (S : Store) (now : Nat) (p h : String)
    (pid : Nat) (done : List String) (hinv : DupInv done S) (hp : p ∉ done) :
    DupInv (done ++ [p]) (upsert_duplicate S now p h pid) := by
  obtain ⟨hids, hlt, hact, hcnt⟩ := hinv
  unfold upsert_duplicate
  cases hfind : S.duplicates.find? (fun d => d.rel_path == p) with
  | none =>
    refine ⟨?_, ?_, ?_, ?_⟩
    · rw [List.pairwise_append]
      refine ⟨hids, List.pairwise_singleton _ _, ?_⟩
      intro a ha b hb
      rw [List.mem_singleton] at hb
      subst hb
      exact Nat.ne_of_lt (hlt a ha)
    · intro d hd
      rcases List.mem_append.mp hd with hdo | hdn
      · exact Nat.lt_succ_of_lt (hlt d hdo)
      · rw [List.mem_singleton] at hdn
        subst hdn
        exact Nat.lt_succ_self _
    · intro d hd hda
      rcases List.mem_append.mp hd with hdo | hdn
      · exact List.mem_append_left _ (hact d hdo hda)
      · rw [List.mem_singleton] at hdn
        subst hdn
        exact List.mem_append_right _ (List.mem_singleton_self _)
    · rw [List.countP_append, hcnt]
      simp
  | some d =>
    have hdmem : d ∈ S.duplicates := List.mem_of_find?_eq_some hfind
    have hdrel : d.rel_path = p := by
      have := List.find?_some hfind
      simpa using this
    have hdact : d.active = false := by
      rcases hda : d.active with _ | _
      · rfl
      · exact absurd (hdrel ▸ hact d hdmem hda) hp
    refine ⟨?_, ?_, ?_, ?_⟩
    · refine hids.map _ ?_
      intro a b hab
      by_cases h1 : (a.id == d.id) = true <;> by_cases h2 : (b.id == d.id) = true <;>
        simp [h1, h2, hab]
    · intro x hx
      obtain ⟨x0, hx0, rfl⟩ := List.mem_map.mp hx
      by_cases hc : (x0.id == d.id) = true <;>
        simp only [hc, Bool.false_eq_true, if_true, if_false] <;>
        exact hlt x0 hx0
    · intro x hx hxa
      obtain ⟨x0, hx0, rfl⟩ := List.mem_map.mp hx
      by_cases hc : (x0.id == d.id) = true
      · simp only [hc, if_true]
        simp only [hc, if_true] at hxa
        have : x0 = d := pairwise_key_eq (fun z => z.id) hids hx0 hdmem
          (by simpa using hc)
        subst this
        rw [hdrel]
        exact List.mem_append_right _ (List.mem_singleton_self _)
      · simp only [hc, Bool.false_eq_true, if_false] at hxa ⊢
        exact List.mem_append_left _ (hact x0 hx0 hxa)
    · have hflip := @countP_map_flip DuplicateFile (fun z => z.id)
        (fun z => z.active) S.duplicates hids d hdmem
        (fun x => if (x.id == d.id) = true then
          { x with file_hash := h, canonical_page_id := pid,
                   active := true, last_seen_at := now }
          else x)
        (fun k _ hkid => by simp [show (k.id == d.id) = false from by simpa using hkid])
        (by simp [hdact]) (by simp)
      rw [hflip, hcnt]
      simp

/-- Helper: invariance of DupInv under changes that leave the
duplicate table and its counter alone (the page reconciliation). -/
theorem DupInv_congr {done : List String} {S T : Store}
    (hd : T.duplicates = S.duplicates) (hn : T.nextDupId = S.nextDupId)
    (h : DupInv done S) : DupInv done T := by
  unfold DupInv at *
  rw [hd, hn]
  exact h

/-- Helper: the inner loop over the non-canonical paths of a group
extends the invariant by those paths. -/
theorem process_dup_paths_inv (now : Nat) (h : String) (pid : Nat) :
    ∀ (paths : List String) (S : Store) (done : List String),
      DupInv done S → (∀ p ∈ paths, p ∉ done) → paths.Nodup →
      DupInv (done ++ paths) (process_dup_paths now h pid paths S) := by
  intro paths
  induction paths with
  | nil =>
    intro S done hinv _ _
    simpa using hinv
  | cons p rest ih =>
    intro S done hinv hfresh hnodup
    have h1 := upsert_duplicate_inv S now p h pid done hinv
      (hfresh p (List.mem_cons_self _ _))
    rw [List.nodup_cons] at hnodup
    have h2 := ih (upsert_duplicate S now p h pid) (done ++ [p]) h1
      (by
        intro q hq hqmem
        rcases List.mem_append.mp hqmem with hq1 | hq1
        · exact hfresh q (List.mem_cons_of_mem _ hq) hq1
        · rw [List.mem_singleton] at hq1
          exact hnodup.1 (hq1 ▸ hq))
      hnodup.2
    rw [List.append_assoc, List.singleton_append] at h2
    exact h2

/-- Helper: membership in a hash group is membership of the scanned
pair. -/
theorem mem_group_paths (scanned : List (String × String)) (p h : String) :
    p ∈ group_paths scanned h ↔ (p, h) ∈ scanned := by
  unfold group_paths
  rw [(List.perm_insertionSort _ _).mem_iff, List.mem_map]
  constructor
  · rintro ⟨e, he, rfl⟩
    rw [List.mem_filter] at he
    have h2 : e.2 = h := by simpa using he.2
    have he2 : (e.1, h) = e := by rw [← h2]
    rw [he2]
    exact he.1
  · intro hmem
    exact ⟨(p, h), List.mem_filter.mpr ⟨hmem, by simp⟩, rfl⟩

/-- Helper: with pairwise-distinct scanned paths, every group is
duplicate-free. -/
theorem group_paths_nodup (scanned : List (String × String))
    (hpaths : (scanned.map Prod.fst).Nodup) (h : String) :
    (group_paths scanned h).Nodup := by
  unfold group_paths
  rw [(List.perm_insertionSort _ _).nodup_iff]
  exact hpaths.sublist ((List.filter_sublist scanned).map Prod.fst)

/-- Helper: with pairwise-distinct scanned paths, distinct hash groups
have disjoint path lists. -/
theorem group_paths_disjoint (scanned : List (String × String))
    (hpaths : (scanned.map Prod.fst).Nodup) (h1 h2 : String) (hne : h1 ≠ h2) :
    ∀ p ∈ group_paths scanned h1, p ∉ group_paths scanned h2 := by
  intro p hp1 hp2
  rw [mem_group_paths] at hp1 hp2
  have hpw : scanned.Pairwise (fun a b => a.1 ≠ b.1) := by
    rw [List.Nodup, List.pairwise_map] at hpaths
    exact hpaths
  have : (p, h1) = (p, h2) :=
    pairwise_key_eq Prod.fst hpw hp1 hp2 rfl
  exact hne (by simpa using this)

/-- Helper: inversion of one hash-group step, extracting the page id
and intermediate store upon which the duplicate loop runs.  The page
branches touch neither the duplicate table nor its counter. -/
theorem process_group_inversion (snap : List Page) (now : Nat)
    (acc : ScanState) (h canonical : String) (restp : List String)
    (acc1 : ScanState)
    (hg : process_group snap now acc h (canonical :: restp) = some acc1) :
    ∃ (pid : Nat) (S1 : Store),
      S1.duplicates = acc.store.duplicates ∧
      S1.nextDupId = acc.store.nextDupId ∧
      acc1.store = process_dup_paths now h pid restp S1 ∧
      acc1.duplicate_files = acc.duplicate_files + restp.length := by
  unfold process_group at hg
  split at hg
  next heq => exact absurd heq (by simp)
  next c2 r2 heq =>
    injection heq with heq1 heq2
    subst heq1
    subst heq2
    split at hg
    next page_row heq3 =>
      split at hg
      · exact absurd hg (by simp)
      · refine ⟨page_row.id,
          { acc.store with pages := acc.store.pages.map fun p =>
              if p.id == page_row.id then
                { p with rel_path := canonical, updated_at := now,
                         last_seen_at := now, is_missing := false }
              else p },
          rfl, rfl, ?_, ?_⟩
        · rw [← Option.some_inj.mp hg]
        · rw [← Option.some_inj.mp hg]
    next heq3 =>
      split at hg
      next path_row heq4 =>
        split at hg
        · exact absurd hg (by simp)
        · refine ⟨path_row.id,
            { acc.store with pages := acc.store.pages.map fun p =>
                if p.id == path_row.id then
                  { p with file_hash := h, updated_at := now,
                           last_seen_at := now, is_missing := false }
                else p },
            rfl, rfl, ?_, ?_⟩
          · rw [← Option.some_inj.mp hg]
          · rw [← Option.some_inj.mp hg]
      next heq4 =>
        split at hg
        · exact absurd hg (by simp)
        · refine ⟨acc.store.nextPageId,
            { acc.store with
              pages := acc.store.pages ++
                [{ id := acc.store.nextPageId, rel_path := canonical,
                   file_hash := h, status := "new", created_at := now,
                   updated_at := now, last_seen_at := now,
                   is_missing := false }],
              nextPageId := acc.store.nextPageId + 1 },
            rfl, rfl, ?_, ?_⟩
          · rw [← Option.some_inj.mp hg]
          · rw [← Option.some_inj.mp hg]

/-- Helper: the group loop maintains the duplicate invariant, for some
extended list of processed non-canonical paths. -/
theorem process_groups_dup_inv (snap : List Page) (now : Nat)
    (scanned : List (String × String))
    (hpaths : (scanned.map Prod.fst).Nodup) :
    ∀ (hs : List String) (done : List String) (acc acc' : ScanState),
      process_groups snap now
        (hs.map (fun h => (h, group_paths scanned h))) acc = some acc' →
      DupInv done acc.store → acc.duplicate_files = done.length →
      (∀ h ∈ hs, ∀ p ∈ group_paths scanned h, p ∉ done) →
      hs.Nodup →
      ∃ done', DupInv done' acc'.store ∧ acc'.duplicate_files = done'.length := by
  intro hs
  induction hs with
  | nil =>
    intro done acc acc' hrun hinv hcnt _ _
    have : acc = acc' := by
      simpa [process_groups] using hrun
    exact ⟨done, this ▸ hinv, this ▸ hcnt⟩
  | cons h t ih =>
    intro done acc acc' hrun hinv hcnt hfresh hnodup
    rw [List.nodup_cons] at hnodup
    rw [List.map_cons] at hrun
    have hstep : ∀ acc1, process_group snap now acc h (group_paths scanned h) =
        some acc1 →
        process_groups snap now
          (t.map (fun g => (g, group_paths scanned g))) acc1 = some acc' →
        ∃ done', DupInv done' acc'.store ∧ acc'.duplicate_files = done'.length := by
      intro acc1 hg hrest
      cases hgp : group_paths scanned h with
      | nil =>
        rw [hgp] at hg
        have : acc = acc1 := by simpa [process_group] using hg
        exact ih done acc1 acc' hrest (this ▸ hinv) (this ▸ hcnt)
          (fun g hgmem => hfresh g (List.mem_cons_of_mem _ hgmem)) hnodup.2
      | cons canonical restp =>
        rw [hgp] at hg
        obtain ⟨pid, S1, hdup, hnid, hstore, hcount⟩ :=
          process_group_inversion snap now acc h canonical restp acc1 hg
        have hinv1 : DupInv done S1 := DupInv_congr hdup hnid hinv
        have hrest_fresh : ∀ p ∈ restp, p ∉ done := by
          intro p hp
          exact hfresh h (List.mem_cons_self _ _) p
            (hgp ▸ List.mem_cons_of_mem _ hp)
        have hrest_nodup : restp.Nodup := by
          have := group_paths_nodup scanned hpaths h
          rw [hgp, List.nodup_cons] at this
          exact this.2
        have hinv2 : DupInv (done ++ restp) acc1.store := by
          rw [hstore]
          exact process_dup_paths_inv now h pid restp S1 done hinv1
            hrest_fresh hrest_nodup
        have hcnt2 : acc1.duplicate_files = (done ++ restp).length := by
          rw [hcount, hcnt, List.length_append]
        refine ih (done ++ restp) acc1 acc' hrest hinv2 hcnt2 ?_ hnodup.2
        intro g hg2 p hp hpmem
        rcases List.mem_append.mp hpmem with hp1 | hp1
        · exact hfresh g (List.mem_cons_of_mem _ hg2) p hp hp1
        · have hph : p ∈ group_paths scanned h := hgp ▸ List.mem_cons_of_mem _ hp1
          exact group_paths_disjoint scanned hpaths h g
            (fun he => hnodup.1 (he ▸ hg2)) p hph hp
    simp only [process_groups] at hrun
    cases hg : process_group snap now acc h (group_paths scanned h) with
    | none =>
      rw [hg] at hrun
      exact absurd hrun (by simp)
    | some acc1 =>
      rw [hg] at hrun
      exact hstep acc1 hg hrun

/-- C10: for every scan over pairwise-distinct relative paths (on a
well-formed duplicate table), the duplicate_files count of the returned
summary equals the number of active DuplicateFile rows right after the
scan: the scan deactivates everything first and then activates exactly
one row per observed non-canonical path. -/
theorem claim_C10_duplicate_count (st : Store) (now : Nat)
    (scanned : List (String × String)) (st2 : Store) (res : ScanSummary)
    (hpaths : (scanned.map Prod.fst).Nodup)
    (hwf : WFdups st)
    (hrun : discover_images st now scanned = some (st2, res)) :
    res.duplicate_files = st2.duplicates.countP (fun d => d.active) := by
  unfold discover_images at hrun
  set st0 : Store :=
    { st with duplicates := st.duplicates.map fun d => { d with active := false } }
    with hst0
  simp only [] at hrun
  cases hg : process_groups st0.pages now (scan_groups scanned)
      { store := st0, seen := [], new_pages := 0, updated_pages := 0,
        duplicate_files := 0 } with
  | none =>
    rw [hg] at hrun
    exact absurd hrun (by simp)
  | some s =>
    rw [hg] at hrun
    have hpair := Option.some_inj.mp hrun
    injection hpair with hst2 hsum
    have hinv0 : DupInv [] st0 := by
      refine ⟨?_, ?_, ?_, ?_⟩
      · refine hwf.1.map _ ?_
        intro a b hab
        simpa using hab
      · intro d hd
        obtain ⟨d0, hd0, rfl⟩ := List.mem_map.mp hd
        exact hwf.2 d0 hd0
      · intro d hd hda
        obtain ⟨d0, hd0, rfl⟩ := List.mem_map.mp hd
        simp at hda
      · simp only [List.length_nil]
        rw [List.countP_eq_zero]
        intro d hd
        obtain ⟨d0, hd0, rfl⟩ := List.mem_map.mp hd
        simp
    have hkeys : (scan_hashes scanned).Nodup :=
      (List.perm_insertionSort _ _).nodup_iff.mpr (List.nodup_dedup _)
    obtain ⟨done2, hinv2, hcnt2⟩ := process_groups_dup_inv st0.pages now
      scanned hpaths (scan_hashes scanned) []
      { store := st0, seen := [], new_pages := 0, updated_pages := 0,
        duplicate_files := 0 } s hg hinv0 rfl (by simp) hkeys
    have h1 : res.duplicate_files = s.duplicate_files := by rw [← hsum]
    have h2 : st2.duplicates = s.store.duplicates := by
      rw [← hst2]
      rfl
    rw [h1, h2, hcnt2, hinv2.2.2.2]

/-- Witness for C10: the concrete two-path duplicate scan from the
empty store. -/
theorem claim_C10_duplicate_count_witness :
    ∃ r : Store × ScanSummary,
      discover_images emptyStore 1 [("a.png", "B"), ("b.png", "B")] = some r ∧
      r.2.duplicate_files = 1 ∧
      r.2.duplicate_files = r.1.duplicates.countP (fun d => d.active) := by
  cases hr : discover_images emptyStore 1 [("a.png", "B"), ("b.png", "B")] with
  | none => exact absurd hr (by decide)
  | some r =>
    refine ⟨r, rfl, ?_, claim_C10_duplicate_count emptyStore 1
      [("a.png", "B"), ("b.png", "B")] r.1 r.2
      (by decide) (by decide) (by rw [hr])⟩
    have : r = ((discover_images emptyStore 1
        [("a.png", "B"), ("b.png", "B")]).getD (emptyStore, default)) := by
      rw [hr]
      rfl
    rw [this]
    decide

/-! ## C6: the missing-marking phase -/

/-- Helper: the duplicate loop leaves the pages table alone. -/
theorem process_dup_paths_pages (now : Nat) (h : String) (pid : Nat) :
    ∀ (paths : List String) (S : Store),
      (process_dup_paths now h pid paths S).pages = S.pages := by
  intro paths
  induction paths with
  | nil => intro S; rfl
  | cons p rest ih =>
    intro S
    rw [show process_dup_paths now h pid (p :: rest) S =
      process_dup_paths now h pid rest (upsert_duplicate S now p h pid) from rfl]
    rw [ih]
    unfold upsert_duplicate
    cases S.duplicates.find? (fun d => d.rel_path == p) <;> rfl

/-- Helper: one group step never loses a page id. -/
theorem process_group_ids (snap : List Page) (now : Nat) (acc : ScanState)
    (h : String) (paths : List String) (acc1 : ScanState)
    (hg : process_group snap now acc h paths = some acc1) :
    ∀ p ∈ acc.store.pages, ∃ q ∈ acc1.store.pages, q.id = p.id := by
  cases paths with
  | nil =>
    have : acc = acc1 := by simpa [process_group] using hg
    intro p hp
    exact ⟨p, this ▸ hp, rfl⟩
  | cons canonical restp =>
    unfold process_group at hg
    split at hg
    next heq => exact absurd heq (by simp)
    next c2 r2 heq =>
      injection heq with heq1 heq2
      subst heq1
      subst heq2
      split at hg
      next page_row heq3 =>
        split at hg
        · exact absurd hg (by simp)
        · intro p hp
          have hs : acc1.store.pages = acc.store.pages.map fun p =>
              if p.id == page_row.id then
                { p with rel_path := canonical, updated_at := now,
                         last_seen_at := now, is_missing := false }
              else p := by
            rw [← Option.some_inj.mp hg]
            rw [process_dup_paths_pages]
          rw [hs]
          refine ⟨_, List.mem_map_of_mem _ hp, ?_⟩
          by_cases hc : (p.id == page_row.id) = true <;> simp [hc]
      next heq3 =>
        split at hg
        next path_row heq4 =>
          split at hg
          · exact absurd hg (by simp)
          · intro p hp
            have hs : acc1.store.pages = acc.store.pages.map fun p =>
                if p.id == path_row.id then
                  { p with file_hash := h, updated_at := now,
                           last_seen_at := now, is_missing := false }
                else p := by
              rw [← Option.some_inj.mp hg]
              rw [process_dup_paths_pages]
            rw [hs]
            refine ⟨_, List.mem_map_of_mem _ hp, ?_⟩
            by_cases hc : (p.id == path_row.id) = true <;> simp [hc]
        next heq4 =>
          split at hg
          · exact absurd hg (by simp)
          · intro p hp
            have hs : acc1.store.pages = acc.store.pages ++
                [{ id := acc.store.nextPageId, rel_path := canonical,
                   file_hash := h, status := "new", created_at := now,
                   updated_at := now, last_seen_at := now,
                   is_missing := false }] := by
              rw [← Option.some_inj.mp hg]
              rw [process_dup_paths_pages]
            rw [hs]
            exact ⟨p, List.mem_append_left _ hp, rfl⟩

/-- Helper: the group loop never loses a page id. -/
theorem process_groups_ids (snap : List Page) (now : Nat) :
    ∀ (groups : List (String × List String)) (acc acc' : ScanState),
      process_groups snap now groups acc = some acc' →
      ∀ p ∈ acc.store.pages, ∃ q ∈ acc'.store.pages, q.id = p.id := by
  intro groups
  induction groups with
  | nil =>
    intro acc acc' hrun p hp
    have : acc = acc' := by simpa [process_groups] using hrun
    exact ⟨p, this ▸ hp, rfl⟩
  | cons g t ih =>
    intro acc acc' hrun p hp
    simp only [process_groups] at hrun
    cases hg : process_group snap now acc g.1 g.2 with
    | none =>
      rw [hg] at hrun
      exact absurd hrun (by simp)
    | some acc1 =>
      rw [hg] at hrun
      obtain ⟨q, hq, hqid⟩ := process_group_ids snap now acc g.1 g.2 acc1 hg p hp
      obtain ⟨q2, hq2, hq2id⟩ := ih acc1 acc' hrun q hq
      exact ⟨q2, hq2, hq2id.trans hqid⟩

/-- C6: every successful scan ends with the closing missing-mark UPDATE:
there is a mid-scan pages table and a seen id set such that the final
pages table is exactly that table with every unseen, not-yet-missing
page flipped to is_missing = true with updated_at = now, missing_marked
counts exactly those rows, and no page row is ever deleted (every
pre-scan page id survives to the mid-scan and to the final table). -/
theorem claim_C6_mark_missing (st : Store) (now : Nat)
    (scanned : List (String × String)) (st2 : Store) (res : ScanSummary)
    (hrun : discover_images st now scanned = some (st2, res)) :
    (∃ (seen : List Nat) (mid : List Page),
      st2.pages = mid.map (fun p => if toMark seen p then
          { p with is_missing := true, updated_at := now } else p) ∧
      res.missing_marked = mid.countP (toMark seen) ∧
      (∀ p ∈ st.pages, ∃ q ∈ mid, q.id = p.id)) ∧
    (∀ p ∈ st.pages, ∃ q ∈ st2.pages, q.id = p.id) := by
  unfold discover_images at hrun
  set st0 : Store :=
    { st with duplicates := st.duplicates.map fun d => { d with active := false } }
    with hst0
  simp only [] at hrun
  cases hg : process_groups st0.pages now (scan_groups scanned)
      { store := st0, seen := [], new_pages := 0, updated_pages := 0,
        duplicate_files := 0 } with
  | none =>
    rw [hg] at hrun
    exact absurd hrun (by simp)
  | some s =>
    rw [hg] at hrun
    have hpair := Option.some_inj.mp hrun
    injection hpair with hst2 hsum
    have hids : ∀ p ∈ st.pages, ∃ q ∈ s.store.pages, q.id = p.id := by
      intro p hp
      exact process_groups_ids st0.pages now (scan_groups scanned)
        { store := st0, seen := [], new_pages := 0, updated_pages := 0,
          duplicate_files := 0 } s hg p hp
    have hmark1 : st2.pages = s.store.pages.map (fun p => if toMark s.seen p then
        { p with is_missing := true, updated_at := now } else p) := by
      rw [← hst2]
      rfl
    have hmark2 : res.missing_marked = s.store.pages.countP (toMark s.seen) := by
      rw [← hsum]
      rfl
    refine ⟨⟨s.seen, s.store.pages, hmark1, hmark2, hids⟩, ?_⟩
    intro p hp
    obtain ⟨q, hq, hqid⟩ := hids p hp
    refine ⟨if toMark s.seen q then
        { q with is_missing := true, updated_at := now } else q, ?_, ?_⟩
    · rw [hmark1]
      exact List.mem_map_of_mem _ hq
    · by_cases hc : toMark s.seen q = true <;> simp [hc, hqid]

/-- Witness for C6: rescanning c6Store with only a.png present marks
b.png missing (missing_marked = 1) while its row survives intact. -/
theorem claim_C6_mark_missing_witness :
    ∃ r : Store × ScanSummary,
      discover_images c6Store 2 [("a.png", "ha")] = some r ∧
      ((∃ (seen : List Nat) (mid : List Page),
        r.1.pages = mid.map (fun p => if toMark seen p then
            { p with is_missing := true, updated_at := 2 } else p) ∧
        r.2.missing_marked = mid.countP (toMark seen) ∧
        (∀ p ∈ c6Store.pages, ∃ q ∈ mid, q.id = p.id)) ∧
      (∀ p ∈ c6Store.pages, ∃ q ∈ r.1.pages, q.id = p.id)) ∧
      r.2.missing_marked = 1 ∧
      ({ id := 2, rel_path := "b.png", file_hash := "hb", status := "new",
         created_at := 1, updated_at := 2, last_seen_at := 1,
         is_missing := true } : Page) ∈ r.1.pages := by
  cases hr : discover_images c6Store 2 [("a.png", "ha")] with
  | none => exact absurd hr (by decide)
  | some r =>
    refine ⟨r, rfl,
      claim_C6_mark_missing c6Store 2 [("a.png", "ha")] r.1 r.2 (by rw [hr]),
      ?_, ?_⟩
    · have : r = ((discover_images c6Store 2 [("a.png", "ha")]).getD
          (emptyStore, default)) := by
        rw [hr]
        rfl
      rw [this]
      decide
    · have : r = ((discover_images c6Store 2 [("a.png", "ha")]).getD
          (emptyStore, default)) := by
        rw [hr]
        rfl
      rw [this]
      decide

/-! ## C4 and C5: master characterization of the group loop -/

/-- Helper: inserted pages for an appended hash list split with shifted
base ids. -/
theorem insertedPages_append (scanned : List (String × String)) (now : Nat) :
    ∀ (l l2 : List String) (base : Nat),
      insertedPages scanned now base (l ++ l2) =
      insertedPages scanned now base l ++
        insertedPages scanned now (base + l.length) l2 := by
  intro l
  induction l with
  | nil =>
    intro l2 base
    simp [insertedPages]
  | cons a t ih =>
    intro l2 base
    simp only [List.cons_append, insertedPages, List.length_cons]
    congr 1
    have h2 := ih l2 (base + 1)
    rw [show base + 1 + t.length = base + (t.length + 1) from by omega] at h2
    exact h2

/-- Helper: shape of an inserted page row. -/
theorem mem_insertedPages (scanned : List (String × String)) (now : Nat) :
    ∀ (l : List String) (base : Nat) (p : Page),
      p ∈ insertedPages scanned now base l →
      p.file_hash ∈ l ∧ p.rel_path = canonOf scanned p.file_hash ∧
        base ≤ p.id ∧ p.is_missing = false ∧ p.status = "new" ∧
        p.updated_at = now ∧ p.last_seen_at = now := by
  intro l
  induction l with
  | nil =>
    intro base p hp
    simp [insertedPages] at hp
  | cons a t ih =>
    intro base p hp
    rw [insertedPages, List.mem_cons] at hp
    rcases hp with rfl | hp
    · exact ⟨by simp, by simp, Nat.le_refl _, rfl, rfl, rfl, rfl⟩
    · obtain ⟨h1, h2, h3, h4, h5, h6, h7⟩ := ih (base + 1) p hp
      exact ⟨List.mem_cons_of_mem _ h1, h2, by omega, h4, h5, h6, h7⟩

/-- Helper: the id of an inserted page is its hash position offset from
the base id. -/
theorem insertedPages_id (scanned : List (String × String)) (now : Nat) :
    ∀ (l : List String) (base : Nat) (p : Page), l.Nodup →
      p ∈ insertedPages scanned now base l →
      p.id = base + posOf p.file_hash l := by
  intro l
  induction l with
  | nil =>
    intro base p _ hp
    simp [insertedPages] at hp
  | cons a t ih =>
    intro base p hnd hp
    rw [List.nodup_cons] at hnd
    rw [insertedPages, List.mem_cons] at hp
    rcases hp with rfl | hp
    · simp [posOf]
    · have hmem := (mem_insertedPages scanned now t (base + 1) p hp).1
      have hne : (a == p.file_hash) = false := by
        rw [beq_eq_false_iff_ne]
        intro he
        exact hnd.1 (he ▸ hmem)
      have hpos : posOf p.file_hash (a :: t) = posOf p.file_hash t + 1 := by
        rw [posOf, hne]
        rfl
      rw [hpos]
      have := ih (base + 1) p hnd.2 hp
      omega

/-- Helper: the hashes of the inserted pages are exactly the new
hashes, in order. -/
theorem insertedPages_hashes (scanned : List (String × String)) (now : Nat) :
    ∀ (l : List String) (base : Nat),
      (insertedPages scanned now base l).map (fun p => p.file_hash) = l := by
  intro l
  induction l with
  | nil =>
    intro base
    rfl
  | cons a t ih =>
    intro base
    simp only [insertedPages, List.map_cons, ih (base + 1)]

/-- Helper: position of a present element ignores the appended tail. -/
theorem posOf_append_left (h : String) :
    ∀ (l l2 : List String), h ∈ l → posOf h (l ++ l2) = posOf h l := by
  intro l
  induction l with
  | nil =>
    intro l2 hm
    simp at hm
  | cons a t ih =>
    intro l2 hm
    by_cases hc : (a == h) = true
    · simp [posOf, hc]
    · have hmt : h ∈ t := by
        rcases List.mem_cons.mp hm with rfl | hmt
        · exact absurd (by simp) hc
        · exact hmt
      simp only [List.cons_append, posOf, if_neg hc]
      have h2 := ih l2 hmt
      rw [show t.append l2 = t ++ l2 from rfl, h2]

/-- Helper: position of a fresh element appended on the right. -/
theorem posOf_append_self (h : String) :
    ∀ (l : List String), h ∉ l → posOf h (l ++ [h]) = l.length := by
  intro l
  induction l with
  | nil =>
    intro _
    simp [posOf]
  | cons a t ih =>
    intro hm
    have hne : (a == h) = false := by
      rw [beq_eq_false_iff_ne]
      intro he
      exact hm (he ▸ List.mem_cons_self _ _)
    rw [List.cons_append, posOf, hne, ih (fun hmt => hm (List.mem_cons_of_mem _ hmt)),
      List.length_cons]
    rfl

/-- Helper: a failed hash lookup means no snapshot page has the hash. -/
theorem snap_lookup_hash_none {snap : List Page} {h : String}
    (hn : snap_lookup_hash snap h = none) :
    ∀ p ∈ snap, p.file_hash ≠ h := by
  intro p hp he
  unfold snap_lookup_hash at hn
  rw [List.find?_eq_none] at hn
  exact hn p (List.mem_reverse.mpr hp) (by simp [he])

/-- Helper: a hash lookup hit is a snapshot page with the hash. -/
theorem snap_lookup_hash_some {snap : List Page} {h : String} {p : Page}
    (hs : snap_lookup_hash snap h = some p) :
    p ∈ snap ∧ p.file_hash = h := by
  unfold snap_lookup_hash at hs
  refine ⟨List.mem_reverse.mp (List.mem_of_find?_eq_some hs), ?_⟩
  have := List.find?_some hs
  simpa using this

/-- Helper: a path lookup hit is a snapshot page with the path. -/
theorem snap_lookup_rel_some {snap : List Page} {r : String} {p : Page}
    (hs : snap_lookup_rel snap r = some p) :
    p ∈ snap ∧ p.rel_path = r := by
  unfold snap_lookup_rel at hs
  refine ⟨List.mem_reverse.mp (List.mem_of_find?_eq_some hs), ?_⟩
  have := List.find?_some hs
  simpa using this

/-- Helper: storedHash is the propositional existence of the hash. -/
theorem storedHash_iff {snap : List Page} {h : String} :
    storedHash snap h = true ↔ ∃ p ∈ snap, p.file_hash = h := by
  simp [storedHash]

/-- Helper: a failed lookup is exactly an unstored hash. -/
theorem storedHash_false_of_none {snap : List Page} {h : String}
    (hn : snap_lookup_hash snap h = none) : storedHash snap h = false := by
  rw [Bool.eq_false_iff]
  intro ht
  obtain ⟨p, hp, he⟩ := storedHash_iff.mp ht
  exact snap_lookup_hash_none hn p hp he

/-- Helper: a stored hash makes the lookup succeed. -/
theorem snap_lookup_hash_of_stored {snap : List Page} {h : String}
    (hs : storedHash snap h = true) :
    ∃ p, snap_lookup_hash snap h = some p := by
  cases hl : snap_lookup_hash snap h with
  | none =>
    rw [storedHash_false_of_none hl] at hs
    exact absurd hs (by simp)
  | some p => exact ⟨p, rfl⟩

/-- Helper: in a list with pairwise-distinct string keys, the key of a
member is hit exactly once. -/
theorem countP_eq_one_key {α : Type} (key : α → String) {l : List α}
    (hl : l.Pairwise (fun a b => key a ≠ key b)) {j : α} (hj : j ∈ l) :
    l.countP (fun x => key x == key j) = 1 := by
  induction l with
  | nil => simp at hj
  | cons a t ih =>
    rw [List.pairwise_cons] at hl
    rcases List.mem_cons.mp hj with rfl | hjt
    · rw [List.countP_cons_of_pos _ _ (by simp)]
      have : t.countP (fun x => key x == key j) = 0 := by
        rw [List.countP_eq_zero]
        intro x hx
        simp only [beq_iff_eq]
        exact fun he => hl.1 x hx he.symm
      rw [this]
    · rw [List.countP_cons_of_neg _ _ (by simp [hl.1 j hjt]), ih hl.2 hjt]

/-- Helper: strLe is reflexive. -/
theorem strLe_refl (a : String) : strLe a a = true := by
  rcases charListLe_total a.data a.data with hc | hc <;> exact hc

/-- Helper: the head of a sorted group is its minimum. -/
theorem canonOf_min (scanned : List (String × String)) (h c : String)
    (rest : List String) (hg : group_paths scanned h = c :: rest) :
    ∀ q ∈ group_paths scanned h, strLe c q = true := by
  have hs : List.Sorted strLE (group_paths scanned h) :=
    List.sorted_insertionSort strLE _
  rw [hg] at hs
  rw [List.sorted_cons] at hs
  intro q hq
  rw [hg, List.mem_cons] at hq
  rcases hq with rfl | hq
  · exact strLe_refl q
  · exact hs.1 q hq

/-- Helper: the distinct scanned hashes are duplicate-free. -/
theorem scan_hashes_nodup (scanned : List (String × String)) :
    (scan_hashes scanned).Nodup :=
  (List.perm_insertionSort _ _).nodup_iff.mpr (List.nodup_dedup _)

/-- Helper: every scanned hash has a nonempty group. -/
theorem group_paths_ne_nil (scanned : List (String × String)) (h : String)
    (hm : h ∈ scan_hashes scanned) : group_paths scanned h ≠ [] := by
  unfold scan_hashes at hm
  rw [(List.perm_insertionSort _ _).mem_iff, List.mem_dedup, List.mem_map] at hm
  obtain ⟨e, he, rfl⟩ := hm
  have : e.1 ∈ group_paths scanned e.2 := by
    rw [mem_group_paths, show (e.1, e.2) = e from rfl]
    exact he
  exact List.ne_nil_of_mem this

/-- Helper: Bool membership test in propositional form. -/
theorem contains_iff {α : Type} [BEq α] [LawfulBEq α] (l : List α) (a : α) :
    l.contains a = true ↔ a ∈ l := List.elem_iff

/-- Helper: updOne never changes the hash of a page. -/
theorem updOne_hash (scanned : List (String × String)) (now : Nat)
    (done : List String) (p : Page) :
    (updOne scanned now done p).file_hash = p.file_hash := by
  unfold updOne
  by_cases hc : p.file_hash ∈ done <;> simp [hc, touchPage]

/-- Helper: updOne never changes the id of a page. -/
theorem updOne_id (scanned : List (String × String)) (now : Nat)
    (done : List String) (p : Page) :
    (updOne scanned now done p).id = p.id := by
  unfold updOne
  by_cases hc : p.file_hash ∈ done <;> simp [hc, touchPage]

/-- Helper: the canonical path of a nonempty group is in the group. -/
theorem canonOf_mem (scanned : List (String × String)) (h : String)
    (hne : group_paths scanned h ≠ []) :
    canonOf scanned h ∈ group_paths scanned h := by
  unfold canonOf
  cases hg : group_paths scanned h with
  | nil => exact absurd hg hne
  | cons c rest => exact List.mem_cons_self _ _

/-- Helper: the expected page id of a processed hash is unaffected by
later groups. -/
theorem expPid_append (snap : List Page) (N : Nat) (done l : List String)
    (h : String) (hm : h ∈ done) :
    expPid snap N (done ++ l) h = expPid snap N done h := by
  unfold expPid
  cases hl : snap_lookup_hash snap h with
  | some p => rfl
  | none =>
    have hnew : h ∈ newHashes snap done := by
      unfold newHashes
      rw [List.mem_filter]
      exact ⟨hm, by rw [storedHash_false_of_none hl]; rfl⟩
    unfold newHashes
    rw [List.filter_append]
    rw [show (done.filter fun h2 => !storedHash snap h2) ++
        (l.filter fun h2 => !storedHash snap h2) =
      (newHashes snap done) ++ (l.filter fun h2 => !storedHash snap h2) from rfl]
    rw [posOf_append_left h _ _ hnew]
    rfl

/-- Helper: the duplicate loop leaves the page id counter alone. -/
theorem process_dup_paths_nextPageId (now : Nat) (h : String) (pid : Nat) :
    ∀ (paths : List String) (S : Store),
      (process_dup_paths now h pid paths S).nextPageId = S.nextPageId := by
  intro paths
  induction paths with
  | nil => intro S; rfl
  | cons p rest ih =>
    intro S
    rw [show process_dup_paths now h pid (p :: rest) S =
      process_dup_paths now h pid rest (upsert_duplicate S now p h pid) from rfl]
    rw [ih]
    unfold upsert_duplicate
    cases S.duplicates.find? (fun d => d.rel_path == p) <;> rfl

/-- Helper: updOne on a processed hash. -/
theorem updOne_pos (scanned : List (String × String)) (now : Nat)
    (done : List String) (p : Page) (hc : p.file_hash ∈ done) :
    updOne scanned now done p =
      touchPage now (canonOf scanned p.file_hash) p := by
  unfold updOne
  simp [hc]

/-- Helper: updOne on an unprocessed hash. -/
theorem updOne_neg (scanned : List (String × String)) (now : Nat)
    (done : List String) (p : Page) (hc : p.file_hash ∉ done) :
    updOne scanned now done p = p := by
  unfold updOne
  simp [hc]

/-- Helper: every new hash was processed. -/
theorem newHashes_sub {snap : List Page} {done : List String} {h : String}
    (hm : h ∈ newHashes snap done) : h ∈ done ∧ storedHash snap h = false := by
  unfold newHashes at hm
  rw [List.mem_filter] at hm
  exact ⟨hm.1, by simpa using hm.2⟩

/-- Helper: a list element after the head is a list element. -/
theorem mem_of_tail {α : Type} {l : List α} {a : α} (hm : a ∈ l.tail) :
    a ∈ l := by
  cases l with
  | nil => simp at hm
  | cons x t => exact List.mem_cons_of_mem _ hm

/-- Helper: mid-scan, only the page of the current group can sit at the
canonical path of that group (given no indexed file changed content). -/
theorem mid_pages_rel (snap : List Page) (scanned : List (String × String))
    (now N : Nat) (done : List String)
    (Hnc : ∀ p ∈ snap, ∀ e ∈ scanned, e.1 = p.rel_path → e.2 = p.file_hash)
    (Hpaths : (scanned.map Prod.fst).Nodup)
    (hdone_sub : ∀ h2 ∈ done, h2 ∈ scan_hashes scanned)
    (h c : String) (hhnew : h ∉ done) (hcScan : (c, h) ∈ scanned) :
    ∀ p ∈ snap.map (updOne scanned now done) ++
      insertedPages scanned now N (newHashes snap done),
      p.rel_path = c → p.file_hash = h := by
  intro p hp hrel
  rcases List.mem_append.mp hp with hp | hp
  · obtain ⟨p0, hp0, rfl⟩ := List.mem_map.mp hp
    rw [updOne_hash]
    by_cases hc0 : p0.file_hash ∈ done
    · exfalso
      have hne : p0.file_hash ≠ h := fun he => hhnew (he ▸ hc0)
      have hgrp : canonOf scanned p0.file_hash ∈
          group_paths scanned p0.file_hash :=
        canonOf_mem scanned _ (group_paths_ne_nil scanned _ (hdone_sub _ hc0))
      rw [updOne_pos scanned now done p0 hc0] at hrel
      have hrel2 : canonOf scanned p0.file_hash = c := by
        simpa [touchPage] using hrel
      exact group_paths_disjoint scanned Hpaths p0.file_hash h hne
        (canonOf scanned p0.file_hash) hgrp
        (hrel2 ▸ (mem_group_paths scanned c h).mpr hcScan)
    · rw [updOne_neg scanned now done p0 hc0] at hrel
      exact (Hnc p0 hp0 (c, h) hcScan hrel.symm).symm
  · exfalso
    obtain ⟨hfh, hrel2, _, _, _, _, _⟩ :=
      mem_insertedPages scanned now _ N p hp
    obtain ⟨hfhdone, _⟩ := newHashes_sub hfh
    have hne : p.file_hash ≠ h := fun he => hhnew (he ▸ hfhdone)
    have hgrp : canonOf scanned p.file_hash ∈ group_paths scanned p.file_hash :=
      canonOf_mem scanned _ (group_paths_ne_nil scanned _ (hdone_sub _ hfhdone))
    exact group_paths_disjoint scanned Hpaths p.file_hash h hne
      (canonOf scanned p.file_hash) hgrp
      ((hrel2.symm.trans hrel : canonOf scanned p.file_hash = c) ▸
        (mem_group_paths scanned c h).mpr hcScan)

/-- Helper: mid-scan there is no page at an unstored, unprocessed
hash. -/
theorem mid_pages_hash_none (snap : List Page)
    (scanned : List (String × String)) (now N : Nat) (done : List String)
    (h : String) (hl : snap_lookup_hash snap h = none) (hhnew : h ∉ done) :
    ∀ p ∈ snap.map (updOne scanned now done) ++
      insertedPages scanned now N (newHashes snap done),
      p.file_hash ≠ h := by
  intro p hp
  rcases List.mem_append.mp hp with hp | hp
  · obtain ⟨p0, hp0, rfl⟩ := List.mem_map.mp hp
    rw [updOne_hash]
    exact snap_lookup_hash_none hl p0 hp0
  · obtain ⟨hfh, _, _, _, _, _, _⟩ := mem_insertedPages scanned now _ N p hp
    obtain ⟨hfhdone, _⟩ := newHashes_sub hfh
    exact fun he => hhnew (he ▸ hfhdone)

/-- Helper: mid-scan the only page at a stored unprocessed hash is the
snapshot page itself, untouched. -/
theorem mid_pages_hash_some (snap : List Page)
    (scanned : List (String × String)) (now N : Nat) (done : List String)
    (W2 : snap.Pairwise (fun a b => a.file_hash ≠ b.file_hash))
    (h : String) (page_row : Page)
    (hl : snap_lookup_hash snap h = some page_row) (hhnew : h ∉ done) :
    ∀ p ∈ snap.map (updOne scanned now done) ++
      insertedPages scanned now N (newHashes snap done),
      p.file_hash = h → p = page_row := by
  have hrow := snap_lookup_hash_some hl
  intro p hp hfh
  rcases List.mem_append.mp hp with hp | hp
  · obtain ⟨p0, hp0, rfl⟩ := List.mem_map.mp hp
    rw [updOne_hash] at hfh
    have hpe : p0 = page_row :=
      pairwise_key_eq (fun p => p.file_hash) W2 hp0 hrow.1
        (hfh.trans hrow.2.symm)
    subst hpe
    exact updOne_neg scanned now done p0 (hrow.2 ▸ hhnew)
  · exfalso
    obtain ⟨hfh2, _, _, _, _, _, _⟩ := mem_insertedPages scanned now _ N p hp
    obtain ⟨hfhdone, _⟩ := newHashes_sub hfh2
    exact hhnew (hfh ▸ hfhdone)

/-- Helper: the hash-branch page UPDATE advances the mid-scan pages
table to the next invariant shape. -/
theorem hash_branch_pages (snap : List Page)
    (scanned : List (String × String)) (now N : Nat) (done : List String)
    (W1 : snap.Pairwise (fun a b => a.id ≠ b.id))
    (W2 : snap.Pairwise (fun a b => a.file_hash ≠ b.file_hash))
    (W4 : ∀ p ∈ snap, p.id < N)
    (h c : String) (page_row : Page)
    (hl : snap_lookup_hash snap h = some page_row) (hhnew : h ∉ done)
    (hcanon : canonOf scanned h = c) :
    (snap.map (updOne scanned now done) ++
      insertedPages scanned now N (newHashes snap done)).map
      (fun p => if p.id == page_row.id then
        { p with rel_path := c, updated_at := now, last_seen_at := now,
                 is_missing := false } else p) =
    snap.map (updOne scanned now (done ++ [h])) ++
      insertedPages scanned now N (newHashes snap (done ++ [h])) := by
  have hrow := snap_lookup_hash_some hl
  have hnew_eq : newHashes snap (done ++ [h]) = newHashes snap done := by
    unfold newHashes
    rw [List.filter_append]
    have hst : storedHash snap h = true :=
      storedHash_iff.mpr ⟨page_row, hrow.1, hrow.2⟩
    simp [hst]
  rw [List.map_append, hnew_eq]
  congr 1
  · rw [List.map_map]
    refine List.map_congr_left ?_
    intro p0 hp0
    simp only [Function.comp_apply]
    by_cases hpe : p0 = page_row
    · subst hpe
      rw [updOne_neg scanned now done p0 (hrow.2 ▸ hhnew),
        if_pos (by simp),
        updOne_pos scanned now (done ++ [h]) p0
          (by rw [hrow.2]; exact List.mem_append_right _ (by simp))]
      unfold touchPage
      rw [hrow.2, hcanon]
    · have hidne : ((updOne scanned now done p0).id == page_row.id) = false := by
        rw [updOne_id, beq_eq_false_iff_ne]
        intro he
        exact hpe (pairwise_key_eq (fun p => p.id) W1 hp0 hrow.1 he)
      rw [if_neg (by simp [hidne])]
      have hfh : p0.file_hash ≠ h := fun he =>
        hpe (pairwise_key_eq (fun p => p.file_hash) W2 hp0 hrow.1
          (he.trans hrow.2.symm))
      by_cases hc0 : p0.file_hash ∈ done
      · rw [updOne_pos scanned now done p0 hc0,
          updOne_pos scanned now (done ++ [h]) p0 (List.mem_append_left _ hc0)]
      · rw [updOne_neg scanned now done p0 hc0,
          updOne_neg scanned now (done ++ [h]) p0 ?_]
        intro hm
        rcases List.mem_append.mp hm with hm | hm
        · exact hc0 hm
        · rw [List.mem_singleton] at hm
          exact hfh hm
  · conv_rhs => rw [← List.map_id (insertedPages scanned now N
      (newHashes snap done))]
    refine List.map_congr_left ?_
    intro p hp
    obtain ⟨_, _, hge, _, _, _, _⟩ := mem_insertedPages scanned now _ N p hp
    have hlt : page_row.id < N := W4 page_row hrow.1
    rw [if_neg (by simp; omega)]
    rfl

/-- Helper: the insert branch extends the mid-scan pages table by the
fresh row of the new hash. -/
theorem insert_branch_pages (snap : List Page)
    (scanned : List (String × String)) (now N : Nat) (done : List String)
    (h : String) (hl : snap_lookup_hash snap h = none) :
    snap.map (updOne scanned now (done ++ [h])) ++
      insertedPages scanned now N (newHashes snap (done ++ [h])) =
    (snap.map (updOne scanned now done) ++
      insertedPages scanned now N (newHashes snap done)) ++
      [{ id := N + (newHashes snap done).length,
         rel_path := canonOf scanned h, file_hash := h, status := "new",
         created_at := now, updated_at := now, last_seen_at := now,
         is_missing := false }] := by
  have hnew_eq : newHashes snap (done ++ [h]) = newHashes snap done ++ [h] := by
    unfold newHashes
    rw [List.filter_append]
    simp [storedHash_false_of_none hl]
  rw [hnew_eq, insertedPages_append, List.append_assoc]
  congr 1
  · refine List.map_congr_left ?_
    intro p0 hp0
    have hfh : p0.file_hash ≠ h := snap_lookup_hash_none hl p0 hp0
    by_cases hc0 : p0.file_hash ∈ done
    · rw [updOne_pos scanned now done p0 hc0,
        updOne_pos scanned now (done ++ [h]) p0 (List.mem_append_left _ hc0)]
    · rw [updOne_neg scanned now done p0 hc0,
        updOne_neg scanned now (done ++ [h]) p0 ?_]
      intro hm
      rcases List.mem_append.mp hm with hm | hm
      · exact hc0 hm
      · rw [List.mem_singleton] at hm
        exact hfh hm

/-- Helper: projection of a pages update. -/
theorem pages_mk1 (st : Store) (pg : List Page) :
    ({ st with pages := pg } : Store).pages = pg := rfl

/-- Helper: a pages update keeps the id counter. -/
theorem nid_mk1 (st : Store) (pg : List Page) :
    ({ st with pages := pg } : Store).nextPageId = st.nextPageId := rfl

/-- Helper: a pages update keeps the duplicate table. -/
theorem dups_mk1 (st : Store) (pg : List Page) :
    ({ st with pages := pg } : Store).duplicates = st.duplicates := rfl

/-- Helper: projection of a page insert. -/
theorem pages_mk2 (st : Store) (pg : List Page) (n : Nat) :
    ({ st with pages := pg, nextPageId := n } : Store).pages = pg := rfl

/-- Helper: projection of the advanced id counter of a page insert. -/
theorem nid_mk2 (st : Store) (pg : List Page) (n : Nat) :
    ({ st with pages := pg, nextPageId := n } : Store).nextPageId = n := rfl

/-- Helper: a page insert keeps the duplicate table. -/
theorem dups_mk2 (st : Store) (pg : List Page) (n : Nat) :
    ({ st with pages := pg, nextPageId := n } : Store).duplicates =
      st.duplicates := rfl

/-- Helper: full description of one duplicate upsert: table keys stay
unique, the path q ends with exactly one active row carrying (q, h,
pid), and every other path keeps its active rows untouched. -/
theorem upsert_duplicate_content (S : Store) (now : Nat) (q h : String)
    (pid : Nat)
    (hids : S.duplicates.Pairwise (fun a b => a.id ≠ b.id))
    (hrels : S.duplicates.Pairwise (fun a b => a.rel_path ≠ b.rel_path))
    (hlt : ∀ d ∈ S.duplicates, d.id < S.nextDupId) :
    (upsert_duplicate S now q h pid).duplicates.Pairwise
      (fun a b => a.id ≠ b.id) ∧
    (upsert_duplicate S now q h pid).duplicates.Pairwise
      (fun a b => a.rel_path ≠ b.rel_path) ∧
    (∀ d ∈ (upsert_duplicate S now q h pid).duplicates,
      d.id < (upsert_duplicate S now q h pid).nextDupId) ∧
    (∀ d ∈ (upsert_duplicate S now q h pid).duplicates, d.active = true →
      (d ∈ S.duplicates ∧ d.active = true ∧ d.rel_path ≠ q) ∨
      (d.rel_path = q ∧ d.file_hash = h ∧ d.canonical_page_id = pid)) ∧
    (∀ r, r ≠ q →
      (upsert_duplicate S now q h pid).duplicates.countP
        (fun d => d.active && d.rel_path == r) =
      S.duplicates.countP (fun d => d.active && d.rel_path == r)) ∧
    (upsert_duplicate S now q h pid).duplicates.countP
      (fun d => d.active && d.rel_path == q) = 1 := by
  unfold upsert_duplicate
  cases hfind : S.duplicates.find? (fun d => d.rel_path == q) with
  | none =>
    rw [List.find?_eq_none] at hfind
    refine ⟨?_, ?_, ?_, ?_, ?_, ?_⟩
    · rw [List.pairwise_append]
      refine ⟨hids, List.pairwise_singleton _ _, ?_⟩
      intro a ha b hb
      rw [List.mem_singleton] at hb
      subst hb
      exact Nat.ne_of_lt (hlt a ha)
    · rw [List.pairwise_append]
      refine ⟨hrels, List.pairwise_singleton _ _, ?_⟩
      intro a ha b hb
      rw [List.mem_singleton] at hb
      subst hb
      intro he
      exact hfind a ha (by simp [he])
    · intro d hd
      rcases List.mem_append.mp hd with hdo | hdn
      · exact Nat.lt_succ_of_lt (hlt d hdo)
      · rw [List.mem_singleton] at hdn
        subst hdn
        exact Nat.lt_succ_self _
    · intro d hd hda
      rcases List.mem_append.mp hd with hdo | hdn
      · refine Or.inl ⟨hdo, hda, ?_⟩
        intro he
        exact hfind d hdo (by simp [he])
      · rw [List.mem_singleton] at hdn
        subst hdn
        exact Or.inr ⟨rfl, rfl, rfl⟩
    · intro r hr
      rw [List.countP_append]
      have : List.countP (fun d => d.active && d.rel_path == r)
          [({ id := S.nextDupId, rel_path := q, file_hash := h,
              canonical_page_id := pid, active := true, first_seen_at := now,
              last_seen_at := now } : DuplicateFile)] = 0 := by
        rw [List.countP_eq_zero]
        intro d hd
        rw [List.mem_singleton] at hd
        subst hd
        simp
        exact fun he => absurd he.symm hr
      rw [this]
      omega
    · rw [List.countP_append]
      have h0 : S.duplicates.countP (fun d => d.active && d.rel_path == q) = 0 := by
        rw [List.countP_eq_zero]
        intro d hd
        simp only [Bool.and_eq_true, not_and]
        intro _ he
        exact hfind d hd he
      rw [h0]
      simp
  | some d0 =>
    have hd0mem : d0 ∈ S.duplicates := List.mem_of_find?_eq_some hfind
    have hd0rel : d0.rel_path = q := by
      have := List.find?_some hfind
      simpa using this
    have hGid : ∀ x : DuplicateFile,
        ((if x.id == d0.id then
          { x with file_hash := h, canonical_page_id := pid, active := true,
                   last_seen_at := now } else x) : DuplicateFile).id = x.id := by
      intro x
      by_cases hx : (x.id == d0.id) = true <;> simp [hx]
    have hGrel : ∀ x : DuplicateFile,
        ((if x.id == d0.id then
          { x with file_hash := h, canonical_page_id := pid, active := true,
                   last_seen_at := now } else x) : DuplicateFile).rel_path =
          x.rel_path := by
      intro x
      by_cases hx : (x.id == d0.id) = true <;> simp [hx]
    refine ⟨?_, ?_, ?_, ?_, ?_, ?_⟩
    · refine hids.map _ ?_
      intro a b hab
      rw [hGid, hGid]
      exact hab
    · refine hrels.map _ ?_
      intro a b hab
      rw [hGrel, hGrel]
      exact hab
    · intro d hd
      obtain ⟨x, hx, rfl⟩ := List.mem_map.mp hd
      rw [hGid]
      exact hlt x hx
    · intro d hd hda
      obtain ⟨x, hx, rfl⟩ := List.mem_map.mp hd
      by_cases hxid : (x.id == d0.id) = true
      · have hxe : x = d0 :=
          pairwise_key_eq (fun d => d.id) hids hx hd0mem (by simpa using hxid)
        subst hxe
        rw [if_pos hxid]
        exact Or.inr ⟨hd0rel, rfl, rfl⟩
      · rw [if_neg hxid] at hda ⊢
        refine Or.inl ⟨hx, hda, ?_⟩
        intro he
        have hxe : x = d0 :=
          pairwise_key_eq (fun d => d.rel_path) hrels hx hd0mem
            (he.trans hd0rel.symm)
        subst hxe
        simp at hxid
    · intro r hr
      rw [List.countP_map]
      refine List.countP_congr ?_
      intro x hx
      by_cases hxid : (x.id == d0.id) = true
      · have hxe : x = d0 :=
          pairwise_key_eq (fun d => d.id) hids hx hd0mem (by simpa using hxid)
        subst hxe
        simp only [Function.comp_apply, if_pos hxid]
        constructor
        · intro hc
          rw [Bool.and_eq_true] at hc
          have : x.rel_path = r := by simpa using hc.2
          exact absurd (hd0rel.symm.trans this).symm hr
        · intro hc
          rw [Bool.and_eq_true] at hc
          have : x.rel_path = r := by simpa using hc.2
          exact absurd (hd0rel.symm.trans this).symm hr
      · simp only [Function.comp_apply, if_neg hxid]
    · rw [List.countP_map]
      have hpt : S.duplicates.countP
          ((fun d => d.active && d.rel_path == q) ∘ fun x =>
            if x.id == d0.id then
              { x with file_hash := h, canonical_page_id := pid,
                       active := true, last_seen_at := now } else x) =
          S.duplicates.countP (fun x => x.rel_path == d0.rel_path) := by
        refine List.countP_congr ?_
        intro x hx
        by_cases hxid : (x.id == d0.id) = true
        · have hxe : x = d0 :=
            pairwise_key_eq (fun d => d.id) hids hx hd0mem (by simpa using hxid)
          subst hxe
          simp [hxid, hd0rel]
        · simp only [Function.comp_apply, if_neg hxid]
          constructor
          · intro hc
            rw [Bool.and_eq_true] at hc
            have hxr : x.rel_path = q := by simpa using hc.2
            have hxe : x = d0 :=
              pairwise_key_eq (fun d => d.rel_path) hrels hx hd0mem
                (hxr.trans hd0rel.symm)
            subst hxe
            simp at hxid
          · intro hc
            have hxr : x.rel_path = d0.rel_path := by simpa using hc
            have hxe : x = d0 :=
              pairwise_key_eq (fun d => d.rel_path) hrels hx hd0mem hxr
            subst hxe
            simp at hxid
      rw [hpt]
      exact countP_eq_one_key (fun d => d.rel_path) hrels hd0mem

/-- Helper: full description of the duplicate loop of one group: each
fresh non-canonical path ends with exactly one active row carrying its
group data, all other active rows and counts are untouched. -/
theorem process_dup_paths_content (now : Nat) (h : String) (pid : Nat) :
    ∀ (qs : List String) (S : Store),
      S.duplicates.Pairwise (fun a b => a.id ≠ b.id) →
      S.duplicates.Pairwise (fun a b => a.rel_path ≠ b.rel_path) →
      (∀ d ∈ S.duplicates, d.id < S.nextDupId) →
      qs.Nodup →
      (∀ d ∈ S.duplicates, d.active = true → d.rel_path ∉ qs) →
      (process_dup_paths now h pid qs S).duplicates.Pairwise
        (fun a b => a.id ≠ b.id) ∧
      (process_dup_paths now h pid qs S).duplicates.Pairwise
        (fun a b => a.rel_path ≠ b.rel_path) ∧
      (∀ d ∈ (process_dup_paths now h pid qs S).duplicates,
        d.id < (process_dup_paths now h pid qs S).nextDupId) ∧
      (∀ d ∈ (process_dup_paths now h pid qs S).duplicates, d.active = true →
        (d ∈ S.duplicates ∧ d.active = true ∧ d.rel_path ∉ qs) ∨
        (d.rel_path ∈ qs ∧ d.file_hash = h ∧ d.canonical_page_id = pid)) ∧
      (∀ r, r ∉ qs →
        (process_dup_paths now h pid qs S).duplicates.countP
          (fun d => d.active && d.rel_path == r) =
        S.duplicates.countP (fun d => d.active && d.rel_path == r)) ∧
      (∀ q ∈ qs, (process_dup_paths now h pid qs S).duplicates.countP
        (fun d => d.active && d.rel_path == q) = 1) := by
  intro qs
  induction qs with
  | nil =>
    intro S hids hrels hlt _ _
    refine ⟨hids, hrels, hlt, ?_, fun r _ => rfl, by simp⟩
    intro d hd hda
    exact Or.inl ⟨hd, hda, List.not_mem_nil _⟩
  | cons q rest ih =>
    intro S hids hrels hlt hnd hfresh
    rw [List.nodup_cons] at hnd
    rw [show process_dup_paths now h pid (q :: rest) S =
      process_dup_paths now h pid rest (upsert_duplicate S now q h pid) from rfl]
    obtain ⟨u1, u2, u3, u4, u5, u6⟩ :=
      upsert_duplicate_content S now q h pid hids hrels hlt
    have hfreshT : ∀ d ∈ (upsert_duplicate S now q h pid).duplicates,
        d.active = true → d.rel_path ∉ rest := by
      intro d hd hda
      rcases u4 d hd hda with ⟨hdS, hdact, _⟩ | ⟨hdq, _, _⟩
      · intro hmem
        exact hfresh d hdS hdact (List.mem_cons_of_mem _ hmem)
      · rw [hdq]
        exact hnd.1
    obtain ⟨p1, p2, p3, p4, p5, p6⟩ :=
      ih (upsert_duplicate S now q h pid) u1 u2 u3 hnd.2 hfreshT
    refine ⟨p1, p2, p3, ?_, ?_, ?_⟩
    · intro d hd hda
      rcases p4 d hd hda with ⟨hdT, hdact, hdnr⟩ | ⟨hdr, hdh, hdc⟩
      · rcases u4 d hdT hdact with ⟨hdS, hdact2, hdnq⟩ | ⟨hdq, hdh, hdc⟩
        · refine Or.inl ⟨hdS, hdact2, ?_⟩
          intro hmem
          rcases List.mem_cons.mp hmem with he | hmem2
          · exact hdnq he
          · exact hdnr hmem2
        · exact Or.inr ⟨hdq ▸ List.mem_cons_self _ _, hdh, hdc⟩
      · exact Or.inr ⟨List.mem_cons_of_mem _ hdr, hdh, hdc⟩
    · intro r hr
      rw [p5 r (fun hmem => hr (List.mem_cons_of_mem _ hmem)),
        u5 r (fun he => hr (he ▸ List.mem_cons_self _ _))]
    · intro q2 hq2
      rcases List.mem_cons.mp hq2 with rfl | hq2r
      · rw [p5 q2 hnd.1]
        exact u6
      · exact p6 q2 hq2r

/-- Key step: under no-content-change, one hash-group iteration never
aborts and carries the loop invariant to the next processed hash. -/
theorem process_group_master (snap : List Page)
    (scanned : List (String × String)) (now N : Nat)
    (W1 : snap.Pairwise (fun a b => a.id ≠ b.id))
    (W2 : snap.Pairwise (fun a b => a.file_hash ≠ b.file_hash))
    (W4 : ∀ p ∈ snap, p.id < N)
    (Hnc : ∀ p ∈ snap, ∀ e ∈ scanned, e.1 = p.rel_path → e.2 = p.file_hash)
    (Hpaths : (scanned.map Prod.fst).Nodup)
    (done : List String) (s : ScanState) (h : String)
    (hdone_sub : ∀ h2 ∈ done, h2 ∈ scan_hashes scanned)
    (hh : h ∈ scan_hashes scanned) (hhnew : h ∉ done)
    (inv : MInv snap scanned now N done s) :
    ∃ s2, process_group snap now s h (group_paths scanned h) = some s2 ∧
      MInv snap scanned now N (done ++ [h]) s2 := by
  obtain ⟨c, rest, hgp⟩ : ∃ c rest, group_paths scanned h = c :: rest := by
    cases hg : group_paths scanned h with
    | nil => exact absurd hg (group_paths_ne_nil scanned h hh)
    | cons c rest => exact ⟨c, rest, rfl⟩
  have hcScan : (c, h) ∈ scanned :=
    (mem_group_paths scanned c h).mp (hgp ▸ List.mem_cons_self _ _)
  have hcanon : canonOf scanned h = c := by
    unfold canonOf
    rw [hgp]
    rfl
  have hrestN : rest.Nodup := by
    have := group_paths_nodup scanned Hpaths h
    rw [hgp, List.nodup_cons] at this
    exact this.2
  have htail : (group_paths scanned h).tail = rest := by
    rw [hgp]
    rfl
  have hrel_c := mid_pages_rel snap scanned now N done Hnc Hpaths hdone_sub
    h c hhnew hcScan
  rw [hgp]
  cases hpg : process_group snap now s h (c :: rest) with
  | none =>
    exfalso
    unfold process_group at hpg
    split at hpg
    next heq => exact absurd heq (by simp)
    next c2 r2 heq =>
      injection heq with heq1 heq2
      subst heq1
      subst heq2
      split at hpg
      next page_row heq3 =>
        split at hpg
        next hconf =>
          rw [List.any_eq_true] at hconf
          obtain ⟨pg, hpgmem, hb⟩ := hconf
          rw [Bool.and_eq_true] at hb
          have hrel : pg.rel_path = c := by simpa using hb.2
          have hfh : pg.file_hash = h :=
            hrel_c pg (inv.pagesEq ▸ hpgmem) hrel
          have hpe : pg = page_row :=
            mid_pages_hash_some snap scanned now N done W2 h page_row heq3
              hhnew pg (inv.pagesEq ▸ hpgmem) hfh
          rw [hpe] at hb
          simp at hb
        next hconf => exact absurd hpg (by simp)
      next heq3 =>
        split at hpg
        next path_row heq4 =>
          obtain ⟨hmem, hrel⟩ := snap_lookup_rel_some heq4
          have : h = path_row.file_hash :=
            Hnc path_row hmem (c, h) hcScan hrel.symm
          exact snap_lookup_hash_none heq3 path_row hmem this.symm
        next heq4 =>
          split at hpg
          next hconf =>
            rw [List.any_eq_true] at hconf
            obtain ⟨pg, hpgmem, hb⟩ := hconf
            rw [Bool.or_eq_true] at hb
            rcases hb with hb | hb
            · have hrel : pg.rel_path = c := by simpa using hb
              have hfh : pg.file_hash = h :=
                hrel_c pg (inv.pagesEq ▸ hpgmem) hrel
              exact mid_pages_hash_none snap scanned now N done h heq3
                hhnew pg (inv.pagesEq ▸ hpgmem) hfh
            · have hfh : pg.file_hash = h := by simpa using hb
              exact mid_pages_hash_none snap scanned now N done h heq3
                hhnew pg (inv.pagesEq ▸ hpgmem) hfh
          next hconf => exact absurd hpg (by simp)
  | some s2 =>
    refine ⟨s2, rfl, ?_⟩
    unfold process_group at hpg
    split at hpg
    next heq => exact absurd heq (by simp)
    next c2 r2 heq =>
      injection heq with heq1 heq2
      subst heq1
      subst heq2
      split at hpg
      next page_row heq3 =>
        split at hpg
        next hconf => exact absurd hpg (by simp)
        next hconf =>
          have hs2 := Option.some_inj.mp hpg
          have hrow := snap_lookup_hash_some heq3
          have hstored : storedHash snap h = true :=
            storedHash_iff.mpr ⟨page_row, hrow.1, hrow.2⟩
          have hnew_eq : newHashes snap (done ++ [h]) = newHashes snap done := by
            unfold newHashes
            rw [List.filter_append]
            simp [hstored]
          have hstore : s2.store = process_dup_paths now h page_row.id rest
              { s.store with pages := s.store.pages.map fun p =>
                  if p.id == page_row.id then
                    { p with rel_path := c, updated_at := now,
                             last_seen_at := now, is_missing := false }
                  else p } := by
            rw [← hs2]
          have hseen : s2.seen = s.seen ++ [page_row.id] := by
            rw [← hs2]
          have hnewp : s2.new_pages = s.new_pages := by
            rw [← hs2]
          have hupdp : s2.updated_pages = s.updated_pages + 1 := by
            rw [← hs2]
          have hexp : expPid snap N (done ++ [h]) h = page_row.id := by
            unfold expPid
            rw [heq3]
          have hfresh : ∀ d ∈ s.store.duplicates, d.active = true →
              d.rel_path ∉ rest := by
            intro d hd hda hmem
            obtain ⟨h2, hh2, hrel2, _, _⟩ := inv.dupAct d hd hda
            have h2ne : h2 ≠ h := fun he => hhnew (he ▸ hh2)
            exact group_paths_disjoint scanned Hpaths h2 h h2ne d.rel_path
              (mem_of_tail hrel2) (hgp ▸ List.mem_cons_of_mem _ hmem)
          obtain ⟨d1, d2, d3, d4, d5, d6⟩ :=
            process_dup_paths_content now h page_row.id rest
              { s.store with pages := s.store.pages.map fun p =>
                  if p.id == page_row.id then
                    { p with rel_path := c, updated_at := now,
                             last_seen_at := now, is_missing := false }
                  else p }
              inv.dupIds inv.dupRels inv.dupLt hrestN hfresh
          refine ⟨?_, ?_, ?_, ?_, ?_, ?_, ?_, ?_, ?_, ?_⟩
          · rw [hstore, process_dup_paths_pages, pages_mk1, inv.pagesEq]
            exact hash_branch_pages snap scanned now N done W1 W2 W4 h c
              page_row heq3 hhnew hcanon
          · rw [hstore, process_dup_paths_nextPageId, nid_mk1,
              inv.nextIdEq, hnew_eq]
          · rw [hnewp, inv.newEq, hnew_eq]
          · rw [hupdp, List.filter_append, List.length_append, inv.updEq]
            simp [hstored]
          · intro h2 hm
            rw [hseen]
            rcases List.mem_append.mp hm with hm | hm
            · rw [expPid_append snap N done [h] h2 hm]
              exact List.mem_append_left _ (inv.seenMem h2 hm)
            · rw [List.mem_singleton] at hm
              subst hm
              rw [hexp]
              exact List.mem_append_right _ (by simp)
          · rw [hstore]
            exact d1
          · rw [hstore]
            exact d2
          · rw [hstore]
            exact d3
          · rw [hstore]
            intro d hd hda
            rcases d4 d hd hda with ⟨hdS, hdact, hdnr⟩ | ⟨hdr, hdh, hdc⟩
            · obtain ⟨h2, hh2, hrel2, hfh2, hcp2⟩ := inv.dupAct d hdS hdact
              refine ⟨h2, List.mem_append_left _ hh2, hrel2, hfh2, ?_⟩
              rw [expPid_append snap N done [h] h2 hh2]
              exact hcp2
            · refine ⟨h, List.mem_append_right _ (by simp), ?_, hdh, ?_⟩
              · rw [htail]
                exact hdr
              · rw [hexp]
                exact hdc
          · rw [hstore]
            intro h2 hm q hq
            rcases List.mem_append.mp hm with hm | hm
            · have hqnr : q ∉ rest := by
                intro hmem
                have h2ne : h2 ≠ h := fun he => hhnew (he ▸ hm)
                exact group_paths_disjoint scanned Hpaths h2 h h2ne q
                  (mem_of_tail hq) (hgp ▸ List.mem_cons_of_mem _ hmem)
              rw [d5 q hqnr]
              exact inv.dupCnt h2 hm q hq
            · rw [List.mem_singleton] at hm
              subst hm
              rw [htail] at hq
              exact d6 q hq
      next heq3 =>
        split at hpg
        next path_row heq4 =>
          exfalso
          obtain ⟨hmem, hrel⟩ := snap_lookup_rel_some heq4
          have : h = path_row.file_hash :=
            Hnc path_row hmem (c, h) hcScan hrel.symm
          exact snap_lookup_hash_none heq3 path_row hmem this.symm
        next heq4 =>
          split at hpg
          next hconf => exact absurd hpg (by simp)
          next hconf =>
            have hs2 := Option.some_inj.mp hpg
            have hnew_eq : newHashes snap (done ++ [h]) =
                newHashes snap done ++ [h] := by
              unfold newHashes
              rw [List.filter_append]
              simp [storedHash_false_of_none heq3]
            have hnotnew : h ∉ newHashes snap done :=
              fun hm => hhnew (newHashes_sub hm).1
            have hstore : s2.store = process_dup_paths now h
                s.store.nextPageId rest
                { s.store with
                  pages := s.store.pages ++
                    [{ id := s.store.nextPageId, rel_path := c,
                       file_hash := h, status := "new", created_at := now,
                       updated_at := now, last_seen_at := now,
                       is_missing := false }],
                  nextPageId := s.store.nextPageId + 1 } := by
              rw [← hs2]
            have hseen : s2.seen = s.seen ++ [s.store.nextPageId] := by
              rw [← hs2]
            have hnewp : s2.new_pages = s.new_pages + 1 := by
              rw [← hs2]
            have hupdp : s2.updated_pages = s.updated_pages := by
              rw [← hs2]
            have hexp : expPid snap N (done ++ [h]) h = s.store.nextPageId := by
              unfold expPid
              rw [heq3, hnew_eq, posOf_append_self h _ hnotnew, inv.nextIdEq]
            have hfresh : ∀ d ∈ s.store.duplicates, d.active = true →
                d.rel_path ∉ rest := by
              intro d hd hda hmem
              obtain ⟨h2, hh2, hrel2, _, _⟩ := inv.dupAct d hd hda
              have h2ne : h2 ≠ h := fun he => hhnew (he ▸ hh2)
              exact group_paths_disjoint scanned Hpaths h2 h h2ne d.rel_path
                (mem_of_tail hrel2) (hgp ▸ List.mem_cons_of_mem _ hmem)
            obtain ⟨d1, d2, d3, d4, d5, d6⟩ :=
              process_dup_paths_content now h s.store.nextPageId rest
                { s.store with
                  pages := s.store.pages ++
                    [{ id := s.store.nextPageId, rel_path := c,
                       file_hash := h, status := "new", created_at := now,
                       updated_at := now, last_seen_at := now,
                       is_missing := false }],
                  nextPageId := s.store.nextPageId + 1 }
                inv.dupIds inv.dupRels inv.dupLt hrestN hfresh
            refine ⟨?_, ?_, ?_, ?_, ?_, ?_, ?_, ?_, ?_, ?_⟩
            · rw [hstore, process_dup_paths_pages, pages_mk2,
                insert_branch_pages snap scanned now N done h heq3,
                inv.pagesEq, hcanon, inv.nextIdEq]
            · rw [hstore, process_dup_paths_nextPageId, nid_mk2, hnew_eq,
                List.length_append, inv.nextIdEq]
              simp
              omega
            · rw [hnewp, inv.newEq, hnew_eq, List.length_append]
              rfl
            · rw [hupdp, List.filter_append, List.length_append, inv.updEq]
              simp [storedHash_false_of_none heq3]
            · intro h2 hm
              rw [hseen]
              rcases List.mem_append.mp hm with hm | hm
              · rw [expPid_append snap N done [h] h2 hm]
                exact List.mem_append_left _ (inv.seenMem h2 hm)
              · rw [List.mem_singleton] at hm
                subst hm
                rw [hexp]
                exact List.mem_append_right _ (by simp)
            · rw [hstore]
              exact d1
            · rw [hstore]
              exact d2
            · rw [hstore]
              exact d3
            · rw [hstore]
              intro d hd hda
              rcases d4 d hd hda with ⟨hdS, hdact, hdnr⟩ | ⟨hdr, hdh, hdc⟩
              · obtain ⟨h2, hh2, hrel2, hfh2, hcp2⟩ := inv.dupAct d hdS hdact
                refine ⟨h2, List.mem_append_left _ hh2, hrel2, hfh2, ?_⟩
                rw [expPid_append snap N done [h] h2 hh2]
                exact hcp2
              · refine ⟨h, List.mem_append_right _ (by simp), ?_, hdh, ?_⟩
                · rw [htail]
                  exact hdr
                · rw [hexp]
                  exact hdc
            · rw [hstore]
              intro h2 hm q hq
              rcases List.mem_append.mp hm with hm | hm
              · have hqnr : q ∉ rest := by
                  intro hmem
                  have h2ne : h2 ≠ h := fun he => hhnew (he ▸ hm)
                  exact group_paths_disjoint scanned Hpaths h2 h h2ne q
                    (mem_of_tail hq) (hgp ▸ List.mem_cons_of_mem _ hmem)
                rw [d5 q hqnr]
                exact inv.dupCnt h2 hm q hq
              · rw [List.mem_singleton] at hm
                subst hm
                rw [htail] at hq
                exact d6 q hq

/-- Key fold: under no-content-change the whole hash-group loop
succeeds and yields the invariant at the full processed hash list. -/
theorem process_groups_master (snap : List Page)
    (scanned : List (String × String)) (now N : Nat)
    (W1 : snap.Pairwise (fun a b => a.id ≠ b.id))
    (W2 : snap.Pairwise (fun a b => a.file_hash ≠ b.file_hash))
    (W4 : ∀ p ∈ snap, p.id < N)
    (Hnc : ∀ p ∈ snap, ∀ e ∈ scanned, e.1 = p.rel_path → e.2 = p.file_hash)
    (Hpaths : (scanned.map Prod.fst).Nodup) :
    ∀ (hs done : List String) (s : ScanState),
      scan_hashes scanned = done ++ hs →
      MInv snap scanned now N done s →
      ∃ s2, process_groups snap now
        (hs.map (fun h => (h, group_paths scanned h))) s = some s2 ∧
        MInv snap scanned now N (done ++ hs) s2 := by
  intro hs
  induction hs with
  | nil =>
    intro done s heq hinv
    refine ⟨s, rfl, ?_⟩
    rw [List.append_nil]
    exact hinv
  | cons h t ih =>
    intro done s heq hinv
    have hh : h ∈ scan_hashes scanned := by
      rw [heq]
      exact List.mem_append_right _ (List.mem_cons_self _ _)
    have hhnew : h ∉ done := by
      intro hm
      have hnodup := scan_hashes_nodup scanned
      rw [heq, List.nodup_append] at hnodup
      exact hnodup.2.2 hm (List.mem_cons_self _ _)
    have hdone_sub : ∀ h2 ∈ done, h2 ∈ scan_hashes scanned := by
      intro h2 hm
      rw [heq]
      exact List.mem_append_left _ hm
    obtain ⟨s1, hstep, hinv1⟩ := process_group_master snap scanned now N
      W1 W2 W4 Hnc Hpaths done s h hdone_sub hh hhnew hinv
    have heq2 : scan_hashes scanned = (done ++ [h]) ++ t := by
      rw [heq, List.append_assoc]
      rfl
    obtain ⟨s2, hrest, hinv2⟩ := ih (done ++ [h]) s1 heq2 hinv1
    refine ⟨s2, ?_, ?_⟩
    · rw [List.map_cons]
      simp only [process_groups]
      rw [hstep]
      exact hrest
    · rw [show done ++ h :: t = (done ++ [h]) ++ t from by
        rw [List.append_assoc]; rfl]
      exact hinv2

/-- Master theorem: under no-content-change with well-formed tables and
distinct scanned paths, discover_images always succeeds, and its result
is the marked version of the invariant state at the full hash list. -/
theorem discover_images_master (st : Store) (now : Nat)
    (scanned : List (String × String))
    (hwf : WFpages st) (hdw : WFdups st) (hdr : WFdupRels st)
    (Hnc : NoContentChange st scanned)
    (Hpaths : (scanned.map Prod.fst).Nodup) :
    ∃ sFin,
      MInv st.pages scanned now st.nextPageId (scan_hashes scanned) sFin ∧
      discover_images st now scanned =
        some ((mark_missing sFin.store now sFin.seen).1,
          { scanned_files := scanned.length, new_pages := sFin.new_pages,
            updated_pages := sFin.updated_pages,
            missing_marked := (mark_missing sFin.store now sFin.seen).2,
            duplicate_files := sFin.duplicate_files }) := by
  obtain ⟨W1, W2, W3, W4⟩ := hwf
  have hinv0 : MInv st.pages scanned now st.nextPageId []
      { store := { st with duplicates :=
          st.duplicates.map fun d => { d with active := false } },
        seen := [], new_pages := 0, updated_pages := 0,
        duplicate_files := 0 } := by
    refine ⟨?_, ?_, rfl, rfl, ?_, ?_, ?_, ?_, ?_, ?_⟩
    · show st.pages = st.pages.map (updOne scanned now []) ++
        insertedPages scanned now st.nextPageId (newHashes st.pages [])
      have h1 : st.pages.map (updOne scanned now []) = st.pages := by
        conv_rhs => rw [← List.map_id st.pages]
        refine List.map_congr_left ?_
        intro p _
        rw [updOne_neg scanned now [] p (List.not_mem_nil _)]
        rfl
      rw [h1, show insertedPages scanned now st.nextPageId
        (newHashes st.pages []) = [] from rfl, List.append_nil]
    · show st.nextPageId = st.nextPageId + (newHashes st.pages []).length
      rfl
    · intro h2 hm
      simp at hm
    · show (st.duplicates.map fun d => { d with active := false }).Pairwise
        (fun a b => a.id ≠ b.id)
      refine hdw.1.map _ ?_
      intro a b hab
      simpa using hab
    · show (st.duplicates.map fun d => { d with active := false }).Pairwise
        (fun a b => a.rel_path ≠ b.rel_path)
      refine hdr.map _ ?_
      intro a b hab
      simpa using hab
    · intro d hd
      obtain ⟨d0, hd0, rfl⟩ := List.mem_map.mp hd
      exact hdw.2 d0 hd0
    · intro d hd hda
      obtain ⟨d0, hd0, rfl⟩ := List.mem_map.mp hd
      simp at hda
    · intro h2 hm
      simp at hm
  obtain ⟨sFin, hrun, hinv⟩ := process_groups_master st.pages scanned now
    st.nextPageId W1 W2 W4 Hnc Hpaths (scan_hashes scanned) [] _
    (List.nil_append _).symm hinv0
  rw [List.nil_append] at hinv
  refine ⟨sFin, hinv, ?_⟩
  have hrun2 : process_groups
      ({ st with duplicates :=
        st.duplicates.map fun d => { d with active := false } } : Store).pages
      now (scan_groups scanned)
      { store := { st with duplicates :=
          st.duplicates.map fun d => { d with active := false } },
        seen := [], new_pages := 0, updated_pages := 0,
        duplicate_files := 0 } = some sFin := hrun
  unfold discover_images
  simp only []
  rw [hrun2]

/-- Helper: the pages table after the closing missing-mark UPDATE. -/
theorem mark_pages (S : Store) (now : Nat) (seen : List Nat) :
    (mark_missing S now seen).1.pages = S.pages.map (fun p =>
      if toMark seen p then { p with is_missing := true, updated_at := now }
      else p) := rfl

/-- Helper: the missing-mark UPDATE leaves the duplicate table alone. -/
theorem mark_dups (S : Store) (now : Nat) (seen : List Nat) :
    (mark_missing S now seen).1.duplicates = S.duplicates := rfl

/-- Helper: the rowcount of the missing-mark UPDATE. -/
theorem mark_count (S : Store) (now : Nat) (seen : List Nat) :
    (mark_missing S now seen).2 = S.pages.countP (toMark seen) := rfl

/-- Helper: the missing-mark flip keeps the hash. -/
theorem markOne_fh (now : Nat) (seen : List Nat) (p : Page) :
    (if toMark seen p then { p with is_missing := true, updated_at := now }
      else p).file_hash = p.file_hash := by
  by_cases hc : toMark seen p = true <;> simp [hc]

/-- Helper: the missing-mark flip keeps the path. -/
theorem markOne_rel (now : Nat) (seen : List Nat) (p : Page) :
    (if toMark seen p then { p with is_missing := true, updated_at := now }
      else p).rel_path = p.rel_path := by
  by_cases hc : toMark seen p = true <;> simp [hc]

/-- Helper: the missing-mark flip keeps the id. -/
theorem markOne_id (now : Nat) (seen : List Nat) (p : Page) :
    (if toMark seen p then { p with is_missing := true, updated_at := now }
      else p).id = p.id := by
  by_cases hc : toMark seen p = true <;> simp [hc]

/-- Helper: a page observed by the scan is not marked missing. -/
theorem markOne_seen (now : Nat) (seen : List Nat) (p : Page)
    (hm : p.id ∈ seen) :
    (if toMark seen p then { p with is_missing := true, updated_at := now }
      else p) = p := by
  have : toMark seen p = false := by
    unfold toMark
    rw [(contains_iff seen p.id).mpr hm]
    rfl
  rw [this]
  simp

/-- Helper: after marking, for every scanned hash there is exactly one
page carrying it, sitting at the canonical path under the expected
id. -/
theorem scan_hash_page_char (snap : List Page)
    (scanned : List (String × String)) (now N : Nat) (seen : List Nat)
    (W2 : snap.Pairwise (fun a b => a.file_hash ≠ b.file_hash))
    (D : List String) (hD : D.Nodup) (h : String) (hh : h ∈ D) :
    ((snap.map (updOne scanned now D) ++
      insertedPages scanned now N (newHashes snap D)).map (fun p =>
        if toMark seen p then { p with is_missing := true, updated_at := now }
        else p)).countP (fun p => p.file_hash == h) = 1 ∧
    ∀ p ∈ (snap.map (updOne scanned now D) ++
      insertedPages scanned now N (newHashes snap D)).map (fun p =>
        if toMark seen p then { p with is_missing := true, updated_at := now }
        else p),
      p.file_hash = h →
      p.rel_path = canonOf scanned h ∧ p.id = expPid snap N D h := by
  have hnodupNew : (newHashes snap D).Nodup := hD.filter _
  constructor
  · rw [List.countP_map]
    have e1 : (snap.map (updOne scanned now D) ++
        insertedPages scanned now N (newHashes snap D)).countP
        ((fun p => p.file_hash == h) ∘ fun p =>
          if toMark seen p then { p with is_missing := true, updated_at := now }
          else p) =
        (snap.map (updOne scanned now D) ++
          insertedPages scanned now N (newHashes snap D)).countP
          (fun p => p.file_hash == h) := by
      refine List.countP_congr ?_
      intro a _
      simp only [Function.comp_apply, markOne_fh]
    rw [e1, List.countP_append, List.countP_map]
    have e2 : snap.countP ((fun p => p.file_hash == h) ∘ updOne scanned now D) =
        snap.countP (fun p => p.file_hash == h) := by
      refine List.countP_congr ?_
      intro a _
      simp only [Function.comp_apply, updOne_hash]
    rw [e2]
    have e3 : (insertedPages scanned now N (newHashes snap D)).countP
        (fun p => p.file_hash == h) =
        (newHashes snap D).countP (fun x => x == h) := by
      have := List.countP_map (fun x => x == h) (fun p : Page => p.file_hash)
        (insertedPages scanned now N (newHashes snap D))
      rw [insertedPages_hashes] at this
      rw [this]
      rfl
    rw [e3]
    by_cases hstored : storedHash snap h = true
    · obtain ⟨p0, hp0, hp0h⟩ := storedHash_iff.mp hstored
      have c1 : snap.countP (fun p => p.file_hash == h) = 1 := by
        have := countP_eq_one_key (fun p => p.file_hash) W2 hp0
        simp only [] at this
        rw [hp0h] at this
        exact this
      have c2 : (newHashes snap D).countP (fun x => x == h) = 0 := by
        rw [List.countP_eq_zero]
        intro x hx
        obtain ⟨_, hst⟩ := newHashes_sub hx
        simp only [beq_iff_eq]
        intro he
        subst he
        rw [hst] at hstored
        exact Bool.noConfusion hstored
      omega
    · rw [Bool.not_eq_true] at hstored
      have c1 : snap.countP (fun p => p.file_hash == h) = 0 := by
        rw [List.countP_eq_zero]
        intro p hp
        simp only [beq_iff_eq]
        intro he
        have := storedHash_iff.mpr ⟨p, hp, he⟩
        rw [hstored] at this
        exact Bool.noConfusion this
      have hmem : h ∈ newHashes snap D := by
        unfold newHashes
        rw [List.mem_filter]
        exact ⟨hh, by rw [hstored]; rfl⟩
      have c2 : (newHashes snap D).countP (fun x => x == h) = 1 :=
        countP_eq_one_key (fun x => x) hnodupNew hmem
      omega
  · intro p hp hfh
    obtain ⟨p1, hp1, rfl⟩ := List.mem_map.mp hp
    rw [markOne_fh] at hfh
    rw [markOne_rel, markOne_id]
    rcases List.mem_append.mp hp1 with hp1 | hp1
    · obtain ⟨p0, hp0, rfl⟩ := List.mem_map.mp hp1
      rw [updOne_hash] at hfh
      have hstored : storedHash snap h = true :=
        storedHash_iff.mpr ⟨p0, hp0, hfh⟩
      obtain ⟨row, hrowl⟩ := snap_lookup_hash_of_stored hstored
      have hrow := snap_lookup_hash_some hrowl
      have hpe : p0 = row :=
        pairwise_key_eq (fun p => p.file_hash) W2 hp0 hrow.1
          (hfh.trans hrow.2.symm)
      constructor
      · rw [updOne_pos scanned now D p0 (hfh ▸ hh), hfh]
        simp [touchPage]
      · rw [updOne_id]
        unfold expPid
        rw [hrowl, hpe]
    · obtain ⟨hfhm, hrel2, _, _, _, _, _⟩ :=
        mem_insertedPages scanned now _ N p1 hp1
      have hnone : snap_lookup_hash snap h = none := by
        obtain ⟨_, hst⟩ := newHashes_sub (hfh ▸ hfhm)
        cases hl : snap_lookup_hash snap h with
        | none => rfl
        | some r =>
          have hr := snap_lookup_hash_some hl
          have := storedHash_iff.mpr ⟨r, hr.1, hr.2⟩
          rw [hst] at this
          exact Bool.noConfusion this
      constructor
      · rw [hrel2, hfh]
      · rw [insertedPages_id scanned now _ N p1 hnodupNew hp1, hfh]
        unfold expPid
        rw [hnone]

/-- C4 counterexample: a stored page (z.png, hash aaaa) is rescanned
with new bytes while its old bytes reappear at two fresh paths; the scan
ends with zero pages carrying hash aaaa, not exactly one. -/
theorem claim_C4_counterexample :
    (c4CexScan.map Prod.fst).Nodup ∧
    ("a.png", "aaaa") ∈ c4CexScan ∧ ("b.png", "aaaa") ∈ c4CexScan ∧
    (discover_images c4CexStore 2 c4CexScan).isSome = true ∧
    ((discover_images c4CexStore 2 c4CexScan).getD
      (emptyStore, default)).1.pages.countP
      (fun p => p.file_hash == "aaaa") = 0 := by
  decide

/-- C4: under no-content-change (no stored page is rescanned with a
different hash) with well-formed tables and distinct scanned paths, the
scan succeeds and for every scanned hash exactly one page carries it,
that page sits at the lexicographically smallest path of its hash
group, and every non-canonical path of the group has exactly one active
duplicate row naming the hash and that page; the concrete
two-identical-files scenario yields 3/2/1/0 with dup/a-copy.png
pointing at a.png. -/
theorem claim_C4_content_identity (st : Store) (now : Nat)
    (scanned : List (String × String))
    (hwf : WFpages st) (hdw : WFdups st) (hdr : WFdupRels st)
    (Hnc : NoContentChange st scanned)
    (Hpaths : (scanned.map Prod.fst).Nodup) :
    (∃ st2 res, discover_images st now scanned = some (st2, res) ∧
      ∀ h ∈ scan_hashes scanned,
        st2.pages.countP (fun p => p.file_hash == h) = 1 ∧
        (∀ p ∈ st2.pages, p.file_hash = h →
          p.rel_path = canonOf scanned h ∧
          ∀ q ∈ group_paths scanned h, strLe p.rel_path q = true) ∧
        (∀ q ∈ (group_paths scanned h).tail,
          st2.duplicates.countP (fun d => d.active && d.rel_path == q) = 1 ∧
          ∀ d ∈ st2.duplicates, d.active = true → d.rel_path = q →
            d.file_hash = h ∧
            ∀ p ∈ st2.pages, p.file_hash = h →
              d.canonical_page_id = p.id)) ∧
    (((discover_images emptyStore 1 c4Scan).getD (emptyStore, default)).2 =
      { scanned_files := 3, new_pages := 2, updated_pages := 0,
        missing_marked := 0, duplicate_files := 1 } ∧
     ∃ d ∈ ((discover_images emptyStore 1 c4Scan).getD
        (emptyStore, default)).1.duplicates,
       d.active = true ∧ d.rel_path = "dup/a-copy.png" ∧
       ∃ p ∈ ((discover_images emptyStore 1 c4Scan).getD
          (emptyStore, default)).1.pages,
         p.id = d.canonical_page_id ∧ p.rel_path = "a.png") := by
  refine ⟨?_, by decide⟩
  obtain ⟨sFin, hinv, heq⟩ :=
    discover_images_master st now scanned hwf hdw hdr Hnc Hpaths
  refine ⟨_, _, heq, ?_⟩
  intro h hh
  have hpg : (mark_missing sFin.store now sFin.seen).1.pages =
      (st.pages.map (updOne scanned now (scan_hashes scanned)) ++
        insertedPages scanned now st.nextPageId
          (newHashes st.pages (scan_hashes scanned))).map (fun p =>
        if toMark sFin.seen p then
          { p with is_missing := true, updated_at := now } else p) := by
    rw [mark_pages, hinv.pagesEq]
  obtain ⟨hcount, hchar⟩ := scan_hash_page_char st.pages scanned now
    st.nextPageId sFin.seen hwf.2.1 (scan_hashes scanned)
    (scan_hashes_nodup scanned) h hh
  refine ⟨?_, ?_, ?_⟩
  · rw [hpg]
    exact hcount
  · intro p hp hfh
    rw [hpg] at hp
    obtain ⟨hrel, hpid⟩ := hchar p hp hfh
    refine ⟨hrel, ?_⟩
    obtain ⟨c, rest, hgp⟩ : ∃ c rest, group_paths scanned h = c :: rest := by
      cases hg2 : group_paths scanned h with
      | nil => exact absurd hg2 (group_paths_ne_nil scanned h hh)
      | cons c rest => exact ⟨c, rest, rfl⟩
    have hc : canonOf scanned h = c := by
      unfold canonOf
      rw [hgp]
      rfl
    intro q hq
    rw [hrel, hc]
    exact canonOf_min scanned h c rest hgp q hq
  · intro q hq
    refine ⟨?_, ?_⟩
    · rw [mark_dups]
      exact hinv.dupCnt h hh q hq
    · intro d hd hda hdrel
      rw [mark_dups] at hd
      obtain ⟨h2, hh2, hrel2, hfh2, hcp2⟩ := hinv.dupAct d hd hda
      have h2e : h2 = h := by
        by_contra hne
        refine group_paths_disjoint scanned Hpaths h2 h hne d.rel_path
          (mem_of_tail hrel2) ?_
        rw [hdrel]
        exact mem_of_tail hq
      subst h2e
      refine ⟨hfh2, ?_⟩
      intro p hp hfh
      rw [hpg] at hp
      obtain ⟨_, hpid⟩ := hchar p hp hfh
      rw [hcp2, hpid]

/-- Witness for C4: the amended theorem applied to the concrete
scenario scan from the empty index. -/
theorem claim_C4_content_identity_witness :
    WFpages emptyStore ∧ NoContentChange emptyStore c4Scan ∧
    ∃ st2 res, discover_images emptyStore 1 c4Scan = some (st2, res) ∧
      st2.pages.countP (fun p => p.file_hash == "B") = 1 := by
  obtain ⟨⟨st2, res, heq, hgen⟩, _⟩ := claim_C4_content_identity emptyStore 1
    c4Scan (by decide) (by decide) (by decide) (by decide) (by decide)
  exact ⟨by decide, by decide, st2, res, heq, (hgen "B" (by decide)).1⟩

/-- C5 counterexample: scanning the same two files twice from the empty
index gives new_pages = 0 on the second run but updated_pages = 1, not
0: the second run counts every hash group as updated. -/
theorem claim_C5_counterexample :
    (discover_images emptyStore 1 c5Scan).isSome = true ∧
    (discover_images ((discover_images emptyStore 1 c5Scan).getD
      (emptyStore, default)).1 2 c5Scan).isSome = true ∧
    ((discover_images ((discover_images emptyStore 1 c5Scan).getD
      (emptyStore, default)).1 2 c5Scan).getD
      (emptyStore, default)).2.new_pages = 0 ∧
    ¬(((discover_images ((discover_images emptyStore 1 c5Scan).getD
      (emptyStore, default)).1 2 c5Scan).getD
      (emptyStore, default)).2.updated_pages = 0) := by
  decide

/-- C5: rescanning an index aligned with the scan (every scanned hash
stored, every stored page at its canonical path, none missing, no
content change) succeeds with new_pages = 0 and missing_marked = 0,
touches only updated_at / last_seen_at on every page row, counts every
hash group as updated (updated_pages = number of distinct hashes, not
0), and leaves exactly one active duplicate row per non-canonical
scanned path, keyed by hash and canonical page — so the active
duplicate set is reproduced up to timestamps, while the claimed
updated_pages = 0 is refuted by the counterexample. -/
theorem claim_C5_idempotent_rescan (st : Store) (now : Nat)
    (scanned : List (String × String))
    (hwf : WFpages st) (hdw : WFdups st) (hdr : WFdupRels st)
    (Hnc : NoContentChange st scanned)
    (Hpaths : (scanned.map Prod.fst).Nodup)
    (Hstored : ∀ h ∈ scan_hashes scanned, storedHash st.pages h = true)
    (Hall : ∀ p ∈ st.pages, p.file_hash ∈ scan_hashes scanned)
    (Hcanon : ∀ p ∈ st.pages, p.rel_path = canonOf scanned p.file_hash)
    (Hnm : ∀ p ∈ st.pages, p.is_missing = false) :
    ∃ st2 res, discover_images st now scanned = some (st2, res) ∧
      res.new_pages = 0 ∧
      res.missing_marked = 0 ∧
      res.updated_pages = (scan_hashes scanned).length ∧
      st2.pages = st.pages.map (fun p =>
        { p with updated_at := now, last_seen_at := now }) ∧
      (∀ h ∈ scan_hashes scanned, ∀ q ∈ (group_paths scanned h).tail,
        st2.duplicates.countP (fun d => d.active && d.rel_path == q) = 1 ∧
        ∀ d ∈ st2.duplicates, d.active = true → d.rel_path = q →
          d.file_hash = h ∧
          ∀ p ∈ st.pages, p.file_hash = h → d.canonical_page_id = p.id) ∧
      (∀ d ∈ st2.duplicates, d.active = true →
        ∃ h ∈ scan_hashes scanned,
          d.rel_path ∈ (group_paths scanned h).tail ∧ d.file_hash = h) := by
  obtain ⟨sFin, hinv, heq⟩ :=
    discover_images_master st now scanned hwf hdw hdr Hnc Hpaths
  have hnewnil : newHashes st.pages (scan_hashes scanned) = [] := by
    unfold newHashes
    rw [List.filter_eq_nil_iff]
    intro h hm
    rw [Hstored h hm]
    simp
  have hupd : ∀ p ∈ st.pages, updOne scanned now (scan_hashes scanned) p =
      { p with updated_at := now, last_seen_at := now } := by
    intro p hp
    rw [updOne_pos scanned now (scan_hashes scanned) p (Hall p hp)]
    unfold touchPage
    rw [← Hcanon p hp]
    have hm : p.is_missing = false := Hnm p hp
    obtain ⟨pid, prel, pfh, pst2, pcr, pup, pls, pmis⟩ := p
    have hm2 : pmis = false := hm
    subst hm2
    rfl
  have hmid : sFin.store.pages = st.pages.map (fun p =>
      { p with updated_at := now, last_seen_at := now }) := by
    rw [hinv.pagesEq, hnewnil,
      show insertedPages scanned now st.nextPageId [] = [] from rfl,
      List.append_nil]
    exact List.map_congr_left hupd
  have hseenmem : ∀ p ∈ st.pages, p.id ∈ sFin.seen := by
    intro p hp
    have hh := Hall p hp
    have hs := hinv.seenMem p.file_hash hh
    obtain ⟨row, hrowl⟩ := snap_lookup_hash_of_stored (Hstored _ hh)
    have hrow := snap_lookup_hash_some hrowl
    have hpe : p = row :=
      pairwise_key_eq (fun x => x.file_hash) hwf.2.1 hp hrow.1 hrow.2.symm
    have hexp : expPid st.pages st.nextPageId (scan_hashes scanned)
        p.file_hash = p.id := by
      unfold expPid
      rw [hrowl, ← hpe]
    rw [hexp] at hs
    exact hs
  have hpages2 : (mark_missing sFin.store now sFin.seen).1.pages =
      st.pages.map (fun p =>
        { p with updated_at := now, last_seen_at := now }) := by
    rw [mark_pages, hmid, List.map_map]
    refine List.map_congr_left ?_
    intro p hp
    simp only [Function.comp_apply]
    exact markOne_seen now sFin.seen _ (hseenmem p hp)
  have hcnt0 : (mark_missing sFin.store now sFin.seen).2 = 0 := by
    rw [mark_count, hmid, List.countP_eq_zero]
    intro p hp
    obtain ⟨p0, hp0, rfl⟩ := List.mem_map.mp hp
    unfold toMark
    rw [(contains_iff sFin.seen _).mpr (hseenmem p0 hp0)]
    simp
  refine ⟨_, _, heq, ?_, ?_, ?_, hpages2, ?_, ?_⟩
  · rw [hinv.newEq, hnewnil]
    rfl
  · exact hcnt0
  · rw [hinv.updEq,
      show (scan_hashes scanned).filter (fun h => storedHash st.pages h) =
        scan_hashes scanned from List.filter_eq_self.mpr
          (fun h hm => Hstored h hm)]
  · intro h hh q hq
    refine ⟨?_, ?_⟩
    · rw [mark_dups]
      exact hinv.dupCnt h hh q hq
    · intro d hd hda hdrel
      rw [mark_dups] at hd
      obtain ⟨h2, hh2, hrel2, hfh2, hcp2⟩ := hinv.dupAct d hd hda
      have h2e : h2 = h := by
        by_contra hne
        refine group_paths_disjoint scanned Hpaths h2 h hne d.rel_path
          (mem_of_tail hrel2) ?_
        rw [hdrel]
        exact mem_of_tail hq
      rw [h2e] at hfh2 hcp2
      refine ⟨hfh2, ?_⟩
      intro p hp hfh
      obtain ⟨row, hrowl⟩ := snap_lookup_hash_of_stored (Hstored _ hh)
      have hrow := snap_lookup_hash_some hrowl
      have hpe : p = row :=
        pairwise_key_eq (fun x => x.file_hash) hwf.2.1 hp hrow.1
          (hfh.trans hrow.2.symm)
      have hexp : expPid st.pages st.nextPageId (scan_hashes scanned) h =
          p.id := by
        unfold expPid
        rw [hrowl, ← hpe]
      rw [hcp2, hexp]
  · intro d hd hda
    rw [mark_dups] at hd
    obtain ⟨h2, hh2, hrel2, hfh2, _⟩ := hinv.dupAct d hd hda
    exact ⟨h2, hh2, hrel2, hfh2⟩

/-- Witness for C5: the amended theorem applied to the aligned store a
first scan leaves behind, with the concrete counts of the second run. -/
theorem claim_C5_idempotent_rescan_witness :
    WFpages c5Store ∧ NoContentChange c5Store c5Scan ∧
    (∀ h ∈ scan_hashes c5Scan, storedHash c5Store.pages h = true) ∧
    ∃ st2 res, discover_images c5Store 2 c5Scan = some (st2, res) ∧
      res.new_pages = 0 ∧ res.missing_marked = 0 ∧ res.updated_pages = 1 := by
  obtain ⟨st2, res, heq, h1, h2, h3, _⟩ := claim_C5_idempotent_rescan c5Store 2
    c5Scan (by decide) (by decide) (by decide) (by decide) (by decide)
    (by decide) (by decide) (by decide) (by decide)
  refine ⟨by decide, by decide, by decide, st2, res, heq, h1, h2, ?_⟩
  rw [h3]
  decide

end OcrPipeline
